import Mathlib

/-!
Shallow embedding of the OSPF topology-reconstruction engine of this
repository (src/lib/ospf-parser.ts, latest multi-command revision, the one
starting at the second module of the file) together with the data model of
src/lib/ospf-types.ts, and proofs about the claims of the specification.

Modelling conventions:
  * JavaScript strings are Lean `String`s; `split("\n")` is `String.splitOn`;
    the JS default array sort on two strings and the lexicographic string
    comparison are modelled with Lean's `String` order (they agree on all
    characters below U+10000, in particular on every character the parser's
    regexes can capture).
  * JS numbers holding parsed metrics/ages are `Nat` (`parseInt` on a `\d+`
    capture is exact for the sizes OSPF fields can take).
  * Regexes are hand-compiled to total functions over `List Char`; `\s` is
    modelled as space, tab, CR, LF, VT, FF (the ASCII part of JS `\s`), and
    the case-insensitive flag as ASCII case folding via `Char.toLower`.
  * A JS `Map` is an insertion-ordered association list (`Map.set` on an
    existing key updates in place, on a fresh key appends); a JS `Set` of
    strings is an insertion-ordered duplicate-free list.
  * Optional string/number fields that the source only ever inspects through
    JS truthiness (`sequenceNumber`, `checksum`, `interfaceInfo`, ...) are
    modelled as `String` with `""` for `undefined` and `Nat` with `0` for
    `undefined`; the source code cannot distinguish the two at any point it
    reads them.
-/

namespace OSPF

/-! ### Character and string helpers -/

/-- The ASCII part of the JS regex class `\s` (and of `String.prototype.trim`). -/
def isWS (c : Char) : Bool :=
  c == ' ' || c == '\t' || c == '\n' || c == '\r' || c == '\x0b' || c == '\x0c'

/-- JS `String.prototype.trim` on a list of characters. -/
def trimL (l : List Char) : List Char :=
  ((l.dropWhile isWS).reverse.dropWhile isWS).reverse

/-- JS `String.prototype.trim`. -/
def jsTrim (s : String) : String := ⟨trimL s.data⟩

/-- Case-insensitive character equality (ASCII case folding, modelling the
regex `i` flag on the ASCII patterns the parser uses). -/
def eqCI (a b : Char) : Bool := a.toLower == b.toLower

/-- Match a literal pattern case-insensitively at the head of the input,
returning the remaining input. -/
def eatCI : List Char → List Char → Option (List Char)
  | [], s => some s
  | _, [] => none
  | p :: ps, c :: cs => if eqCI p c then eatCI ps cs else none

/-- `\s*`: drop leading whitespace. -/
def eatWS (s : List Char) : List Char := s.dropWhile isWS

/-- `\s+`: at least one whitespace character, then drop the rest. -/
def eatWS1 : List Char → Option (List Char)
  | [] => none
  | c :: cs => if isWS c then some (cs.dropWhile isWS) else none

def isDigitCh (c : Char) : Bool := c.isDigit

def isDotDigit (c : Char) : Bool := c.isDigit || c == '.'

def isDotDigitSlash (c : Char) : Bool := isDotDigit c || c == '/'

def isNonWS (c : Char) : Bool := !isWS c

/-- Greedy nonempty capture of a character class (`(<class>+)`), returning
the capture and the rest. -/
def cap1 (cls : Char → Bool) (s : List Char) : Option (List Char × List Char) :=
  let d := s.takeWhile cls
  if d.isEmpty then none else some (d, s.dropWhile cls)

/-- JS `parseInt` on a `\d+` capture. -/
def digitsToNat (l : List Char) : Nat :=
  l.foldl (fun acc c => 10 * acc + (c.toNat - 48)) 0

/-- Generic leftmost-match search: try the at-position matcher at every
position from the left, as an unanchored regex does. -/
def searchCL (f : List Char → Option α) : List Char → Option α
  | [] => f []
  | c :: cs =>
    match f (c :: cs) with
    | some a => some a
    | none => searchCL f cs

/-- Case-insensitive substring test (regex `/lit/i.test(s)`). -/
def containsCI (lit : String) (s : String) : Bool :=
  (searchCL (eatCI lit.data) s.data).isSome

/-! ### The individual line patterns of ospf-parser.ts -/

/-- `^<label>\s*(<cls>+)` on an already-trimmed line: the common
"Label: value" pattern (the label literal includes its colon). -/
def keyCap (label : String) (cls : Char → Bool) (t : String) : Option String := do
  let s ← eatCI label.data t.data
  let (v, _) ← cap1 cls (eatWS s)
  pure ⟨v⟩

/-- `^LS age:\s*(?:MAXAGE\()?(\d+)\)?` (case-insensitive) on a trimmed line.
The optional group is deterministic: when the input continues with
`MAXAGE(` the plain `\d+` alternative could not match there either. -/
def ageMatch (t : String) : Option Nat := do
  let s ← eatCI "LS age:".data t.data
  let s := eatWS s
  match eatCI "MAXAGE(".data s with
  | some s2 => (cap1 isDigitCh s2).map (fun p => digitsToNat p.1)
  | none => (cap1 isDigitCh s).map (fun p => digitsToNat p.1)

def lsidMatch (t : String) : Option String := keyCap "Link State ID:" isDotDigit t

def advMatch (t : String) : Option String := keyCap "Advertising Router:" isDotDigit t

def seqMatch (t : String) : Option String := keyCap "LS Seq Number:" isNonWS t

def csMatch (t : String) : Option String := keyCap "Checksum:" isNonWS t

def maskMatch (t : String) : Option String := keyCap "Network Mask:" isNonWS t

/-- `^Metric:\s*(\d+)` on a trimmed line. -/
def bareMetricMatch (t : String) : Option Nat :=
  (keyCap "Metric:" isDigitCh t).map (fun v => digitsToNat v.data)

/-- `Attached Router:\s*([\d.]+)` (unanchored). -/
def attachedMatch (t : String) : Option String :=
  searchCL (fun s => do
    let s ← eatCI "Attached Router:".data s
    let (v, _) ← cap1 isDotDigit (eatWS s)
    pure (⟨v⟩ : String)) t.data

/-- `TOS\s*:?\s*0\s+Metrics?:\s*(\d+)` (unanchored, case-insensitive).
`:?` and `s?` are deterministic here: not consuming the optional character
leaves the continuation facing that same character, which it rejects. -/
def tosMetricMatch (t : String) : Option Nat :=
  searchCL (fun s => do
    let s ← eatCI "TOS".data s
    let s := eatWS s
    let s := match s with
      | ':' :: rest => eatWS rest
      | _ => s
    let s ← eatCI "0".data s
    let s ← eatWS1 s
    let s ← eatCI "Metric".data s
    let s := match s with
      | c :: rest => if eqCI 's' c then rest else s
      | _ => s
    let s ← eatCI ":".data s
    let (v, _) ← cap1 isDigitCh (eatWS s)
    pure (digitsToNat v)) t.data

/-- `Metric Type:\s*(\d+)` (unanchored). -/
def metricTypeMatch (t : String) : Option Nat :=
  searchCL (fun s => do
    let s ← eatCI "Metric Type:".data s
    let (v, _) ← cap1 isDigitCh (eatWS s)
    pure (digitsToNat v)) t.data

/-- `Forwarding\s+Address:\s*([\d.]+)` (unanchored). -/
def fwdMatch (t : String) : Option String :=
  searchCL (fun s => do
    let s ← eatCI "Forwarding".data s
    let s ← eatWS1 s
    let s ← eatCI "Address:".data s
    let (v, _) ← cap1 isDotDigit (eatWS s)
    pure (⟨v⟩ : String)) t.data

/-- `External\s+Route\s+Tag:\s*(\d+)` (unanchored). -/
def tagMatch (t : String) : Option Nat :=
  searchCL (fun s => do
    let s ← eatCI "External".data s
    let s ← eatWS1 s
    let s ← eatCI "Route".data s
    let s ← eatWS1 s
    let s ← eatCI "Tag:".data s
    let (v, _) ← cap1 isDigitCh (eatWS s)
    pure (digitsToNat v)) t.data

/-- `(?:\(Link ID\)[^:]*|Link\s+ID):\s*([\d.]+)` (unanchored): the greedy
`[^:]*` cannot cross a colon, so it deterministically stops at the first
colon after the `(Link ID)` literal. -/
def linkIdMatch (t : String) : Option String :=
  searchCL (fun s =>
    let alt1 : Option (List Char) := do
      let s ← eatCI "(Link ID)".data s
      match s.dropWhile (fun c => c != ':') with
      | ':' :: rest => pure rest
      | _ => none
    let alt2 : Option (List Char) := do
      let s ← eatCI "Link".data s
      let s ← eatWS1 s
      eatCI "ID:".data s
    let fin : List Char → Option String := fun s => do
      let (v, _) ← cap1 isDotDigit (eatWS s)
      pure (⟨v⟩ : String)
    match alt1 with
    | some r =>
      match fin r with
      | some v => some v
      | none => alt2.bind fin
    | none => alt2.bind fin) t.data

/-- `(?:\(Link Data\)[^:]*|Link\s+Data):\s*([\d.\/]+)` (unanchored). -/
def linkDataMatch (t : String) : Option String :=
  searchCL (fun s =>
    let alt1 : Option (List Char) := do
      let s ← eatCI "(Link Data)".data s
      match s.dropWhile (fun c => c != ':') with
      | ':' :: rest => pure rest
      | _ => none
    let alt2 : Option (List Char) := do
      let s ← eatCI "Link".data s
      let s ← eatWS1 s
      eatCI "Data:".data s
    let fin : List Char → Option String := fun s => do
      let (v, _) ← cap1 isDotDigitSlash (eatWS s)
      pure (⟨v⟩ : String)
    match alt1 with
    | some r =>
      match fin r with
      | some v => some v
      | none => alt2.bind fin
    | none => alt2.bind fin) t.data

/-- The section-header pattern of the block splitter:
`(?:Router|Net|Summary\s+Net|Summary\s+AS|Type-7\s+AS\s+External)\s+Link\s+States\s+\(Area\s+([\d.]+)\)`
(unanchored, case-insensitive), returning the captured area id. -/
def areaHeaderMatch (line : String) : Option String :=
  searchCL (fun s =>
    let tail : List Char → Option String := fun r => do
      let r ← eatWS1 r
      let r ← eatCI "Link".data r
      let r ← eatWS1 r
      let r ← eatCI "States".data r
      let r ← eatWS1 r
      let r ← eatCI "(Area".data r
      let r ← eatWS1 r
      let (v, r) ← cap1 isDotDigit r
      let _ ← eatCI ")".data r
      pure (⟨v⟩ : String)
    let alts : List (Option (List Char)) :=
      [ eatCI "Router".data s
      , eatCI "Net".data s
      , (eatCI "Summary".data s).bind eatWS1 |>.bind (eatCI "Net".data)
      , (eatCI "Summary".data s).bind eatWS1 |>.bind (eatCI "AS".data)
      , ((eatCI "Type-7".data s).bind eatWS1 |>.bind (eatCI "AS".data)).bind
          eatWS1 |>.bind (eatCI "External".data) ]
    alts.foldl (fun acc alt =>
      match acc with
      | some v => some v
      | none => alt.bind tail) none) line.data

/-- `^\s*LS age:\s*(?:\d+|MAXAGE\(\d+\))` on a raw line: the LSA block
boundary test of the splitter (alternatives tried in regex order). -/
def isLSAStart (line : String) : Bool :=
  (do
    let s ← eatCI "LS age:".data (eatWS line.data)
    let s := eatWS s
    match cap1 isDigitCh s with
    | some _ => some ()
    | none => do
      let s ← eatCI "MAXAGE(".data s
      let (_, s) ← cap1 isDigitCh s
      let _ ← eatCI ")".data s
      pure ()).isSome

/-- `LS Type:\s*<kind literal>` (unanchored, case-insensitive) — the LSA-kind
filter; `sfx` is the part of the pattern after `LS Type:\s*`, itself a
literal possibly containing an inner `\s*` handled by the callers below. -/
def lsTypeTest (sfx : String) (line : String) : Bool :=
  (searchCL (fun s => do
    let s ← eatCI "LS Type:".data s
    eatCI sfx.data (eatWS s)) line.data).isSome

/-- `LS Type:\s*Summary Links\s*\(Network\)` (unanchored). -/
def lsTypeSummaryNet (line : String) : Bool :=
  (searchCL (fun s => do
    let s ← eatCI "LS Type:".data s
    let s ← eatCI "Summary Links".data (eatWS s)
    eatCI "(Network)".data (eatWS s)) line.data).isSome

/-- `LS Type:\s*Summary Links\s*\(AS Boundary Router\)` (unanchored). -/
def lsTypeSummaryASBR (line : String) : Bool :=
  (searchCL (fun s => do
    let s ← eatCI "LS Type:".data s
    let s ← eatCI "Summary Links".data (eatWS s)
    eatCI "(AS Boundary Router)".data (eatWS s)) line.data).isSome

/-! ### Data model (src/lib/ospf-types.ts) -/

inductive RouterRole
  | internal
  | abr
  | asbr
deriving DecidableEq, Repr

/-- The link kinds the parser ever constructs (`"virtual"` appears in the TS
union type but no code path of the parser produces it). -/
inductive LinkKind
  | p2p
  | stub
  | transit
deriving DecidableEq, Repr

/-- The string the source interpolates for a link kind (template literals in
link ids and dedup keys). -/
def linkKindName : LinkKind → String
  | .p2p => "point-to-point"
  | .stub => "stub"
  | .transit => "transit"

structure OSPFInterface where
  address : String
  connectedTo : String
  linkType : LinkKind
  cost : Nat
deriving DecidableEq, Repr

structure OSPFSummaryRoute where
  network : String
  mask : String
  cost : Nat
  area : String
  lsaType : String
  advertisingRouter : String
  seqNumber : String
  age : Nat
deriving DecidableEq, Repr

structure OSPFExternalRoute where
  network : String
  mask : String
  metric : Nat
  metricType : Nat
  tag : Nat
  forwardingAddress : String
  advertisingRouter : String
  seqNumber : String
  age : Nat
deriving DecidableEq, Repr

/-- `OSPFRouter` restricted to the fields the string-input code path of
`parseOSPFData` can ever populate (the auxiliary-command fields
`neighborEntries`, `learnedRoutes`, `processInfo` and the interface
enrichment fields stay at their initial empty values when every auxiliary
command text is absent, which is the case for a raw-string input). -/
structure OSPFRouter where
  id : String
  routerId : String
  role : RouterRole
  area : String
  lsaTypes : List String
  neighbors : List String
  neighborInterfaces : List (String × String)
  interfaces : List OSPFInterface
  networks : List String
  stubNetworks : List String
  summaryRoutes : List OSPFSummaryRoute
  externalRoutes : List OSPFExternalRoute
  sequenceNumber : String
  age : Nat
  checksum : String
deriving DecidableEq, Repr

structure OSPFNetwork where
  id : String
  networkAddress : String
  mask : String
  attachedRouters : List String
  designatedRouter : String
  area : String
deriving DecidableEq, Repr

structure OSPFLink where
  id : String
  source : String
  target : String
  cost : Nat
  sourceCost : Nat
  targetCost : Nat
  linkType : LinkKind
  interfaceInfo : String
  area : String
deriving DecidableEq, Repr

structure OSPFTopology where
  routers : List OSPFRouter
  networks : List OSPFNetwork
  links : List OSPFLink
  areas : List String
  summaryRoutes : List OSPFSummaryRoute
  externalRoutes : List OSPFExternalRoute
deriving DecidableEq, Repr

/-! ### Internal record types of the parser -/

structure RawLink where
  type : LinkKind
  linkId : String
  linkData : String
  metric : Nat
deriving DecidableEq, Repr

structure RawRouterLSA where
  routerId : String
  area : String
  age : Nat
  seqNumber : String
  checksum : String
  isABR : Bool
  isASBR : Bool
  links : List RawLink
deriving DecidableEq, Repr

structure RawNetworkLSA where
  linkStateId : String
  advertisingRouter : String
  area : String
  age : Nat
  seqNumber : String
  checksum : String
  networkMask : String
  attachedRouters : List String
deriving DecidableEq, Repr

/-! ### Block splitter (`splitLSABlocks`) -/

inductive LSABlock where
  | areaHeader (area : String)
  | content (lines : List String)
deriving DecidableEq, Repr

/-- One line of the splitter's scan: `(blocks so far, open content block)`. -/
def splitStep (st : List LSABlock × Option (List String)) (line : String) :
    List LSABlock × Option (List String) :=
  let flush : List LSABlock × Option (List String) → List LSABlock := fun st =>
    match st.2 with
    | some ls => if ls.isEmpty then st.1 else st.1 ++ [.content ls]
    | none => st.1
  match areaHeaderMatch line with
  | some a => (flush st ++ [.areaHeader a], none)
  | none =>
    if isLSAStart line then (flush st, some [line])
    else
      match st.2 with
      | some ls => (st.1, some (ls ++ [line]))
      | none => (st.1, none)

def splitLSABlocks (lines : List String) : List LSABlock :=
  let st := lines.foldl splitStep ([], none)
  match st.2 with
  | some ls => if ls.isEmpty then st.1 else st.1 ++ [.content ls]
  | none => st.1

/-! ### Link sub-block parser (`parseLinkSubBlocks`) -/

/-- The capture `connM[1].trim()` of `Link connected to:\s*(.+)` (unanchored)
applied to the trimmed header line. `.` does not match CR, and `\s*`/`.+`
backtrack against each other; the net observable result is: no match when
nothing (or only CR characters) follows the literal, the empty string when
only whitespace containing a dot-matchable character follows, and otherwise
the trimmed CR-free run after the literal. -/
def linkConnCapture (t : String) : Option String :=
  searchCL (fun s => do
    let rest ← eatCI "Link connected to:".data s
    let d := eatWS rest
    if !d.isEmpty then
      pure (⟨trimL (d.takeWhile (fun c => c != '\r'))⟩ : String)
    else if rest.any (fun c => c != '\r' && c != '\n') then
      pure ""
    else none) t.data

/-- Accumulator for one link descriptor's field scan. -/
structure LinkFields where
  linkId : String
  linkData : String
  metric : Nat
deriving DecidableEq, Repr

/-- The per-line `if/continue` chain inside a link descriptor. -/
def linkFieldStep (f : LinkFields) (line : String) : LinkFields :=
  let t := jsTrim line
  match linkIdMatch t with
  | some v => { f with linkId := v }
  | none =>
  match linkDataMatch t with
  | some v => { f with linkData := v }
  | none =>
  match tosMetricMatch t with
  | some v => { f with metric := v }
  | none =>
  match bareMetricMatch t with
  | some v => if f.metric == 0 then { f with metric := v } else f
  | none => f

/-- Split a Router LSA block's lines into the descriptor chunks delimited by
`Link connected to:` lines (the index-slicing of the source expressed as a
scan; lines before the first delimiter are dropped). -/
def linkChunks (ls : List String) : List (List String) :=
  let st := ls.foldl (fun (st : List (List String) × Option (List String)) line =>
    if containsCI "Link connected to:" line then
      (match st.2 with
       | some c => st.1 ++ [c]
       | none => st.1, some [line])
    else
      match st.2 with
      | some c => (st.1, some (c ++ [line]))
      | none => (st.1, none)) ([], none)
  match st.2 with
  | some c => st.1 ++ [c]
  | none => st.1

/-- Parse one descriptor chunk (header line plus body). -/
def parseOneLink (chunk : List String) : Option RawLink :=
  match chunk with
  | [] => none
  | header :: body =>
    match linkConnCapture (jsTrim header) with
    | none => none
    | some desc =>
      let lt : LinkKind :=
        if containsCI "point-to-point" desc then .p2p
        else if containsCI "Transit" desc then .transit
        else .stub
      let f := body.foldl linkFieldStep ⟨"", "", 0⟩
      if f.linkId.isEmpty then none
      else some ⟨lt, f.linkId, f.linkData, f.metric⟩

def parseLinkSubBlocks (lsaLines : List String) : List RawLink :=
  (linkChunks lsaLines).filterMap parseOneLink

/-! ### Router LSA parser (`parseRouterLSAs`) -/

structure RouterFields where
  age : Nat
  routerId : String
  advertisingRouter : String
  seqNumber : String
  checksum : String
  isABR : Bool
  isASBR : Bool
deriving DecidableEq, Repr

/-- The per-line `if/continue` chain of the Router LSA field scan. -/
def routerFieldStep (f : RouterFields) (line : String) : RouterFields :=
  let t := jsTrim line
  match ageMatch t with
  | some a => { f with age := a }
  | none =>
  match lsidMatch t with
  | some v => { f with routerId := v }
  | none =>
  match advMatch t with
  | some v => { f with advertisingRouter := v }
  | none =>
  match seqMatch t with
  | some v => { f with seqNumber := v }
  | none =>
  match csMatch t with
  | some v => { f with checksum := v }
  | none =>
  if containsCI "Area Border Router" t then { f with isABR := true }
  else if containsCI "AS Boundary Router" t then { f with isASBR := true }
  else f

def parseRouterLSAs (lines : List String) : List RawRouterLSA :=
  let blocks := splitLSABlocks lines
  (blocks.foldl (fun (st : String × List RawRouterLSA) b =>
    match b with
    | .areaHeader a => (a, st.2)
    | .content bls =>
      if !(bls.any (lsTypeTest "Router Links")) then st
      else
        let f := bls.foldl routerFieldStep ⟨0, "", "", "", "", false, false⟩
        let finalRouterId :=
          if f.advertisingRouter.isEmpty then f.routerId else f.advertisingRouter
        if finalRouterId.isEmpty then st
        else (st.1, st.2 ++
          [⟨finalRouterId, st.1, f.age, f.seqNumber, f.checksum, f.isABR, f.isASBR,
            parseLinkSubBlocks bls⟩])) ("0", [])).2

/-! ### Network LSA parser (`parseNetworkLSAs`) -/

structure NetworkFields where
  linkStateId : String
  advertisingRouter : String
  age : Nat
  seqNumber : String
  checksum : String
  networkMask : String
  attachedRouters : List String
deriving DecidableEq, Repr

def networkFieldStep (f : NetworkFields) (line : String) : NetworkFields :=
  let t := jsTrim line
  match ageMatch t with
  | some a => { f with age := a }
  | none =>
  match lsidMatch t with
  | some v => { f with linkStateId := v }
  | none =>
  match advMatch t with
  | some v => { f with advertisingRouter := v }
  | none =>
  match seqMatch t with
  | some v => { f with seqNumber := v }
  | none =>
  match csMatch t with
  | some v => { f with checksum := v }
  | none =>
  match maskMatch t with
  | some v => { f with networkMask := v }
  | none =>
  match attachedMatch t with
  | some v => { f with attachedRouters := f.attachedRouters ++ [v] }
  | none => f

def parseNetworkLSAs (lines : List String) : List RawNetworkLSA :=
  let blocks := splitLSABlocks lines
  (blocks.foldl (fun (st : String × List RawNetworkLSA) b =>
    match b with
    | .areaHeader a => (a, st.2)
    | .content bls =>
      if !(bls.any (lsTypeTest "Network Links")) then st
      else
        let f := bls.foldl networkFieldStep ⟨"", "", 0, "", "", "", []⟩
        if f.linkStateId.isEmpty then st
        else (st.1, st.2 ++
          [⟨f.linkStateId, f.advertisingRouter, st.1, f.age, f.seqNumber,
            f.checksum, f.networkMask, f.attachedRouters⟩])) ("0", [])).2

/-! ### Summary LSA parser (`parseSummaryLSAs`, Types 3 and 4) -/

def type3Name : String := "Summary LSA (Type 3)"
def type4Name : String := "ASBR Summary LSA (Type 4)"

structure SummaryFields where
  network : String
  mask : String
  cost : Nat
  advertisingRouter : String
  seqNumber : String
  age : Nat
deriving DecidableEq, Repr

def summaryFieldStep (f : SummaryFields) (line : String) : SummaryFields :=
  let t := jsTrim line
  match ageMatch t with
  | some a => { f with age := a }
  | none =>
  match lsidMatch t with
  | some v => { f with network := v }
  | none =>
  match advMatch t with
  | some v => { f with advertisingRouter := v }
  | none =>
  match seqMatch t with
  | some v => { f with seqNumber := v }
  | none =>
  match maskMatch t with
  | some v => { f with mask := v }
  | none =>
  match tosMetricMatch t with
  | some v => { f with cost := v }
  | none =>
  match bareMetricMatch t with
  | some v => if f.cost == 0 then { f with cost := v } else f
  | none => f

def parseSummaryLSAs (lines : List String) : List OSPFSummaryRoute :=
  let blocks := splitLSABlocks lines
  (blocks.foldl (fun (st : String × List OSPFSummaryRoute) b =>
    match b with
    | .areaHeader a => (a, st.2)
    | .content bls =>
      let isType3 := bls.any lsTypeSummaryNet
      let isType4 := bls.any lsTypeSummaryASBR
      if !isType3 && !isType4 then st
      else
        let f := bls.foldl summaryFieldStep ⟨"", "", 0, "", "", 0⟩
        if !f.network.isEmpty && !f.advertisingRouter.isEmpty then
          (st.1, st.2 ++
            [⟨f.network, f.mask, f.cost, st.1,
              if isType4 then type4Name else type3Name,
              f.advertisingRouter, f.seqNumber, f.age⟩])
        else st) ("0", [])).2

/-! ### External LSA parser (`parseExternalLSAs`, Type 5) -/

structure ExternalFields where
  network : String
  mask : String
  metric : Nat
  metricType : Nat
  tag : Nat
  forwardingAddress : String
  advertisingRouter : String
  seqNumber : String
  age : Nat
deriving DecidableEq, Repr

def externalFieldStep (f : ExternalFields) (line : String) : ExternalFields :=
  let t := jsTrim line
  match ageMatch t with
  | some a => { f with age := a }
  | none =>
  match lsidMatch t with
  | some v => { f with network := v }
  | none =>
  match advMatch t with
  | some v => { f with advertisingRouter := v }
  | none =>
  match seqMatch t with
  | some v => { f with seqNumber := v }
  | none =>
  match maskMatch t with
  | some v => { f with mask := v }
  | none =>
  match metricTypeMatch t with
  | some v => { f with metricType := if v == 1 then 1 else 2 }
  | none =>
  match tosMetricMatch t with
  | some v => { f with metric := v }
  | none =>
  match bareMetricMatch t with
  | some v => if f.metric == 0 then { f with metric := v } else f
  | none =>
  match fwdMatch t with
  | some v => { f with forwardingAddress := v }
  | none =>
  match tagMatch t with
  | some v => { f with tag := v }
  | none => f

def parseExternalLSAs (lines : List String) : List OSPFExternalRoute :=
  let blocks := splitLSABlocks lines
  blocks.foldl (fun (acc : List OSPFExternalRoute) b =>
    match b with
    | .areaHeader _ => acc
    | .content bls =>
      if !(bls.any (lsTypeTest "AS External Link")) then acc
      else
        let f := bls.foldl externalFieldStep ⟨"", "", 0, 2, 0, "", "", "", 0⟩
        if !f.network.isEmpty && !f.advertisingRouter.isEmpty then
          acc ++ [⟨f.network, f.mask, f.metric, f.metricType, f.tag,
                  f.forwardingAddress, f.advertisingRouter, f.seqNumber, f.age⟩]
        else acc) []

/-! ### Topology assembler (the body of `parseOSPFData`) -/

def routerLSAName : String := "Router LSA (Type 1)"
def networkLSAName : String := "Network LSA (Type 2)"
def externalLSAName : String := "AS External LSA (Type 5)"

/-- Router-map operations. The JS `Map<string, OSPFRouter>` is an
insertion-ordered list; every insertion in the source is guarded by a
`has`/`ensure` check, so ids stay pairwise distinct by construction. -/
def findR (m : List OSPFRouter) (rid : String) : Option OSPFRouter :=
  m.find? (fun r => r.id == rid)

def hasR (m : List OSPFRouter) (rid : String) : Bool := (findR m rid).isSome

def updR (m : List OSPFRouter) (rid : String) (f : OSPFRouter → OSPFRouter) :
    List OSPFRouter :=
  m.map (fun r => if r.id == rid then f r else r)

/-- JS `array.includes(x) || array.push(x)` idiom. -/
def pushIfAbsent (x : String) (l : List String) : List String :=
  if l.contains x then l else l ++ [x]

/-- `areas.add(a)` on the insertion-ordered set. -/
def addArea (a : String) (areas : List String) : List String :=
  if areas.contains a then areas else areas ++ [a]

/-- The bare router object the `ensureRouter` closure constructs
(role `internal`, every list empty, freshness fields undefined). -/
def mkBareRouter (rid area : String) : OSPFRouter :=
  ⟨rid, rid, .internal, area, [], [], [], [], [], [], [], [], "", 0, ""⟩

def ensureRouter (m : List OSPFRouter) (rid area : String) : List OSPFRouter :=
  if hasR m rid then m else m ++ [mkBareRouter rid area]

/-- Truthiness check on `router.neighborInterfaces[key]`
(`undefined` and `""` are both falsy). -/
def niFalsy (ni : List (String × String)) (key : String) : Bool :=
  match ni.find? (fun e => e.1 == key) with
  | none => true
  | some e => e.2.isEmpty

/-- Lexicographic character-list comparison: the JS `<` / default-sort
comparison on strings (code-unit order; it agrees with code-point order on
every character below U+10000, in particular on everything the parser's
captures can contain). -/
def lexLt : List Char → List Char → Bool
  | [], [] => false
  | [], _ :: _ => true
  | _ :: _, [] => false
  | a :: as, b :: bs =>
    if a.toNat < b.toNat then true
    else if b.toNat < a.toNat then false
    else lexLt as bs

def strLtB (a b : String) : Bool := lexLt a.data b.data

/-- `[a, b].sort().join("|")`: the two-element JS default sort followed by a
join — used both as the pending-P2P-cost key and as the base of the link
dedup key. -/
def sortJoin (a b : String) : String :=
  if strLtB b a then b ++ "|" ++ a else a ++ "|" ++ b

/-- One row of the pending point-to-point cost table. -/
structure P2P where
  srcId : String
  tgtId : String
  srcCost : Nat
  tgtCost : Nat
  ifInfo : String
  area : String
deriving DecidableEq, Repr

def findP (tbl : List (String × P2P)) (k : String) : Option P2P :=
  (tbl.find? (fun e => e.1 == k)).map (fun e => e.2)

/-- `Map.set` on the pending table: update in place or append. -/
def setP (tbl : List (String × P2P)) (k : String) (v : P2P) :
    List (String × P2P) :=
  if (tbl.find? (fun e => e.1 == k)).isSome then
    tbl.map (fun e => if e.1 == k then (k, v) else e)
  else tbl ++ [(k, v)]

/-- The role computed once at router creation from the LSA flags. -/
def createRoleOf (isABR isASBR : Bool) : RouterRole :=
  if isABR && isASBR then .asbr
  else if isABR then .abr
  else if isASBR then .asbr
  else .internal

/-- The role-promotion pair of statements of the phase-1 "existing router"
branch (`isABR && internal → abr`, then `isASBR → asbr`). -/
def promoteRoles (lsa : RawRouterLSA) (ex : OSPFRouter) : OSPFRouter :=
  let ex1 := if lsa.isABR && decide (ex.role = .internal) then
               { ex with role := .abr } else ex
  if lsa.isASBR then { ex1 with role := .asbr } else ex1

/-- The recurring `if (!lsaTypes.includes(name)) push(name)` idiom. -/
def addLsaType (name : String) (ex : OSPFRouter) : OSPFRouter :=
  if ex.lsaTypes.contains name then ex
  else { ex with lsaTypes := ex.lsaTypes ++ [name] }

/-- Freshness fields are set only when still falsy (first value wins). -/
def fillFreshness (lsa : RawRouterLSA) (ex : OSPFRouter) : OSPFRouter :=
  let e1 := if ex.sequenceNumber.isEmpty then
              { ex with sequenceNumber := lsa.seqNumber } else ex
  let e2 := if e1.age == 0 then { e1 with age := lsa.age } else e1
  if e2.checksum.isEmpty then { e2 with checksum := lsa.checksum } else e2

/-- The composed phase-1 "existing router" mutation (statement order as in
the source: roles, LSA-type list, sequence number, age, checksum). -/
def upsertUpd (lsa : RawRouterLSA) (ex : OSPFRouter) : OSPFRouter :=
  fillFreshness lsa (addLsaType routerLSAName (promoteRoles lsa ex))

/-- Phase 1, per Router LSA: create or promote the router entry and fold its
freshness fields. -/
def routerLSARouterUpsert (m : List OSPFRouter) (lsa : RawRouterLSA) :
    List OSPFRouter :=
  if hasR m lsa.routerId then
    updR m lsa.routerId (upsertUpd lsa)
  else
    m ++ [{ mkBareRouter lsa.routerId lsa.area with
            role := createRoleOf lsa.isABR lsa.isASBR
            lsaTypes := [routerLSAName]
            sequenceNumber := lsa.seqNumber
            age := lsa.age
            checksum := lsa.checksum }]

/-- The phase-1 mutation of the authoring router for one of its
point-to-point link descriptors: push the neighbor, fill the
neighbor-interface map, append the interface record. -/
def p2pAuthorUpd (link : RawLink) (r : OSPFRouter) : OSPFRouter :=
  let r1 := { r with neighbors := pushIfAbsent link.linkId r.neighbors }
  let r2 := if !link.linkData.isEmpty &&
               niFalsy r1.neighborInterfaces link.linkId
            then { r1 with neighborInterfaces :=
                    r1.neighborInterfaces ++ [(link.linkId, link.linkData)] }
            else r1
  if !link.linkData.isEmpty &&
     !(r2.interfaces.any (fun i =>
         i.address == link.linkData && i.connectedTo == link.linkId)) then
    { r2 with interfaces :=
        r2.interfaces ++ [⟨link.linkData, link.linkId, .p2p, link.metric⟩] }
  else r2

/-- The phase-1 mutation of the authoring router for one of its stub link
descriptors. -/
def stubUpd (link : RawLink) (r : OSPFRouter) : OSPFRouter :=
  let stubLabel := if link.linkData.isEmpty then link.linkId
                   else link.linkId ++ "/" ++ link.linkData
  let netId := "stub-" ++ link.linkId ++ "-" ++ link.linkData
  let r1 := { r with stubNetworks := pushIfAbsent stubLabel r.stubNetworks }
  let r2 := { r1 with networks := pushIfAbsent netId r1.networks }
  if !link.linkData.isEmpty &&
     !(r2.interfaces.any (fun i =>
         i.connectedTo == link.linkId && i.linkType == LinkKind.stub)) then
    { r2 with interfaces :=
        r2.interfaces ++ [⟨link.linkData, link.linkId, .stub, link.metric⟩] }
  else r2

/-- The phase-1 mutation of the authoring router for one of its transit link
descriptors. -/
def transitUpd (link : RawLink) (r : OSPFRouter) : OSPFRouter :=
  let r1 := { r with networks := pushIfAbsent link.linkId r.networks }
  if !link.linkData.isEmpty &&
     !(r1.interfaces.any (fun i =>
         i.address == link.linkData && i.connectedTo == link.linkId)) then
    { r1 with interfaces :=
        r1.interfaces ++ [⟨link.linkData, link.linkId, .transit, link.metric⟩] }
  else r1

def routerLinkStep (rid area : String)
    (st : List OSPFRouter × List (String × P2P)) (link : RawLink) :
    List OSPFRouter × List (String × P2P) :=
  match link.type with
  | .p2p =>
    let m := updR st.1 rid (p2pAuthorUpd link)
    let key := sortJoin rid link.linkId
    let tbl := match findP st.2 key with
      | some ex =>
        setP st.2 key
          (if rid == ex.srcId then
             { ex with srcCost := link.metric
                       ifInfo := if link.linkData.isEmpty then ex.ifInfo
                                 else link.linkData }
           else { ex with tgtCost := link.metric })
      | none =>
        st.2 ++ [(key, ⟨rid, link.linkId, link.metric, link.metric,
                        link.linkData, area⟩)]
    (m, tbl)
  | .stub => (updR st.1 rid (stubUpd link), st.2)
  | .transit => (updR st.1 rid (transitUpd link), st.2)

/-- Phase 1, per Router LSA: area registration, router upsert, link fold. -/
def phase1Step (st : List OSPFRouter × List String × List (String × P2P))
    (lsa : RawRouterLSA) :
    List OSPFRouter × List String × List (String × P2P) :=
  let areas := addArea lsa.area st.2.1
  let m := routerLSARouterUpsert st.1 lsa
  let mp := lsa.links.foldl (routerLinkStep lsa.routerId lsa.area) (m, st.2.2)
  (mp.1, areas, mp.2)

/-- Phase 2, per pending-table row: materialize the point-to-point link and
wire both endpoint routers (source order as in the source code). -/
def p2pStep (st : List OSPFRouter × List OSPFLink) (e : String × P2P) :
    List OSPFRouter × List OSPFLink :=
  let p := e.2
  let m := ensureRouter st.1 p.srcId p.area
  let m := ensureRouter m p.tgtId p.area
  let m := updR m p.srcId (fun r =>
    { r with neighbors := pushIfAbsent p.tgtId r.neighbors })
  let m := updR m p.tgtId (fun r =>
    { r with neighbors := pushIfAbsent p.srcId r.neighbors })
  let m := if !p.ifInfo.isEmpty then
      updR m p.srcId (fun r =>
        if niFalsy r.neighborInterfaces p.tgtId then
          { r with neighborInterfaces :=
              r.neighborInterfaces ++ [(p.tgtId, p.ifInfo)] }
        else r)
    else m
  let m := if !p.ifInfo.isEmpty then
      updR m p.tgtId (fun r =>
        if niFalsy r.neighborInterfaces p.srcId then
          { r with neighborInterfaces :=
              r.neighborInterfaces ++ [(p.srcId, p.ifInfo)] }
        else r)
    else m
  let m := if !p.ifInfo.isEmpty then
      updR m p.tgtId (fun r =>
        if !(r.interfaces.any (fun i =>
               i.connectedTo == p.srcId && i.linkType == LinkKind.p2p)) then
          { r with interfaces :=
              r.interfaces ++ [⟨p.ifInfo, p.srcId, .p2p, p.tgtCost⟩] }
        else r)
    else m
  (m, st.2 ++ [⟨"p2p-" ++ p.srcId ++ "-" ++ p.tgtId, p.srcId, p.tgtId,
               max p.srcCost p.tgtCost, p.srcCost, p.tgtCost, .p2p,
               p.ifInfo, p.area⟩])

/-- `networkMap.set` (replace in place or append). -/
def setNet (nm : List OSPFNetwork) (n : OSPFNetwork) : List OSPFNetwork :=
  if nm.any (fun x => x.id == n.id) then
    nm.map (fun x => if x.id == n.id then n else x)
  else nm ++ [n]

/-- Phase 3, per Network LSA. -/
def netStep
    (st : List OSPFRouter × List OSPFNetwork × List OSPFLink × List String)
    (nlsa : RawNetworkLSA) :
    List OSPFRouter × List OSPFNetwork × List OSPFLink × List String :=
  let areas := addArea nlsa.area st.2.2.2
  let nid := nlsa.linkStateId
  let nets := setNet st.2.1
    ⟨nid, nlsa.linkStateId, nlsa.networkMask, nlsa.attachedRouters,
     nlsa.advertisingRouter, nlsa.area⟩
  let ml := nlsa.attachedRouters.foldl
    (fun (ml : List OSPFRouter × List OSPFLink) ar =>
      let m := ensureRouter ml.1 ar nlsa.area
      let m := updR m ar (fun r =>
        { r with networks := pushIfAbsent nid r.networks })
      let m := if ar == nlsa.advertisingRouter then
          updR m ar (fun r =>
            if r.lsaTypes.contains networkLSAName then r
            else { r with lsaTypes := r.lsaTypes ++ [networkLSAName] })
        else m
      (m, ml.2 ++ [⟨"transit-" ++ nid ++ "-" ++ ar, nid, ar, 0, 0, 0,
                   .transit, "", nlsa.area⟩]))
    (st.1, st.2.2.1)
  (ml.1, nets, ml.2, areas)

/-- Phase 4, inner body of the bidirectional-closure pass: ensure neighbor
`n` of the snapshot router `rid` (whose area is `area`) exists, and push the
reciprocal adjacency. -/
def closureAdd (rid area : String) (m : List OSPFRouter) (n : String) :
    List OSPFRouter :=
  let m1 := ensureRouter m n area
  updR m1 n (fun nb => { nb with neighbors := pushIfAbsent rid nb.neighbors })

/-- Phase 4, one snapshot router. The source iterates `router.neighbors` of
the live object; during one router's own iteration its list cannot change
(the only guarded push into it would be its own id, already present as the
element being visited), so reading the list once up front is faithful. -/
def closureStep (m : List OSPFRouter) (rid : String) : List OSPFRouter :=
  match findR m rid with
  | none => m
  | some r => r.neighbors.foldl (closureAdd rid r.area) m

/-- Phase 4: iterate over the snapshot `Array.from(routerMap.values())`
taken before any closure mutation. -/
def closurePass (m : List OSPFRouter) : List OSPFRouter :=
  (m.map (fun r => r.id)).foldl closureStep m

/-- The phase-5 mutation of the advertising router: record the LSA type, a
Type-4 summary promotes an internal router to ABR, and the route is
attached. -/
def summaryUpd (s : OSPFSummaryRoute) (r : OSPFRouter) : OSPFRouter :=
  let r1 := addLsaType s.lsaType r
  let r2 := if s.lsaType == type4Name && decide (r1.role = .internal) then
              { r1 with role := .abr } else r1
  { r2 with summaryRoutes := r2.summaryRoutes ++ [s] }

/-- Phase 5, per Summary LSA (Type 3/4). -/
def summaryStep (m : List OSPFRouter) (s : OSPFSummaryRoute) :
    List OSPFRouter :=
  updR (ensureRouter m s.advertisingRouter s.area) s.advertisingRouter
    (summaryUpd s)

/-- The phase-6 mutation of the advertising router: record the LSA type, any
external LSA promotes an internal router to ASBR, and the route is
attached. -/
def externalUpd (e : OSPFExternalRoute) (r : OSPFRouter) : OSPFRouter :=
  let r1 := addLsaType externalLSAName r
  let r2 := if decide (r1.role = .internal) then { r1 with role := .asbr }
            else r1
  { r2 with externalRoutes := r2.externalRoutes ++ [e] }

/-- Phase 6, per External LSA (Type 5); the attach area is the constant
`"0"`. -/
def externalStep (m : List OSPFRouter) (e : OSPFExternalRoute) :
    List OSPFRouter :=
  updR (ensureRouter m e.advertisingRouter "0") e.advertisingRouter
    (externalUpd e)

/-! ### Link dedup and the final area sort -/

/-- The dedup key `[source, target].sort().join("|") + "|" + linkType`. -/
def dedupKey (l : OSPFLink) : String :=
  sortJoin l.source l.target ++ "|" ++ linkKindName l.linkType

/-- Merge a duplicate into the kept entry (non-zero costs win, missing
interface info is filled in). -/
def mergeLink (ex l : OSPFLink) : OSPFLink :=
  let ex := if l.cost > 0 && ex.cost == 0 then { ex with cost := l.cost } else ex
  let ex := if l.sourceCost > 0 && ex.sourceCost == 0 then
              { ex with sourceCost := l.sourceCost } else ex
  let ex := if l.targetCost > 0 && ex.targetCost == 0 then
              { ex with targetCost := l.targetCost } else ex
  if !l.interfaceInfo.isEmpty && ex.interfaceInfo.isEmpty then
    { ex with interfaceInfo := l.interfaceInfo }
  else ex

def dedupGo (seen : List (String × OSPFLink)) :
    List OSPFLink → List (String × OSPFLink)
  | [] => seen
  | l :: rest =>
    match seen.find? (fun e => e.1 == dedupKey l) with
    | none => dedupGo (seen ++ [(dedupKey l, l)]) rest
    | some _ =>
      dedupGo (seen.map (fun e =>
        if e.1 == dedupKey l then (dedupKey l, mergeLink e.2 l) else e)) rest

def dedup (links : List OSPFLink) : List OSPFLink :=
  (dedupGo [] links).map (fun e => e.2)

/-- Insertion sort with the string order, modelling
`Array.from(areas).sort()` (the set holds pairwise-distinct strings, so
stability is irrelevant). -/
def insertSorted (a : String) : List String → List String
  | [] => [a]
  | b :: rest => if strLtB a b then a :: b :: rest else b :: insertSorted a rest

def sortStrings (l : List String) : List String := l.foldr insertSorted []

/-! ### `parseOSPFData` (string-input mode) -/

/-- The assembler: phases 1-6 of `parseOSPFData`, folding the extracted
records into the topology. -/
def assembleTopology (routerLSAs : List RawRouterLSA)
    (networkLSAs : List RawNetworkLSA)
    (summaryLSAs : List OSPFSummaryRoute)
    (externalLSAs : List OSPFExternalRoute) : OSPFTopology :=
  let st1 := routerLSAs.foldl phase1Step ([], [], [])
  let st2 := st1.2.2.foldl p2pStep (st1.1, [])
  let st3 := networkLSAs.foldl netStep (st2.1, [], st2.2, st1.2.1)
  let m4 := closurePass st3.1
  let m5 := summaryLSAs.foldl summaryStep m4
  let m6 := externalLSAs.foldl externalStep m5
  { routers := m6
    networks := st3.2.1
    links := dedup st3.2.2.1
    areas := sortStrings st3.2.2.2
    summaryRoutes := summaryLSAs
    externalRoutes := externalLSAs }

/-- JS `text.split("\n")` (empty pieces preserved, including a trailing
one). -/
def splitNLGo : List Char → List Char → List String
  | [], cur => [⟨cur.reverse⟩]
  | c :: cs, cur =>
    if c == '\n' then ⟨cur.reverse⟩ :: splitNLGo cs []
    else splitNLGo cs (c :: cur)

def toLines (s : String) : List String := splitNLGo s.data []

/-- The line list `parseOSPFData` feeds every extractor: the combined
database text `[raw, "", ""].join("\n")` split on newlines (for a raw-string
input the two database bundle fields are absent, so two empty tail pieces
are appended). -/
def parseLines (input : String) : List String :=
  toLines (input ++ "\n" ++ "" ++ "\n" ++ "")

/-- `parseOSPFData` on a raw string (legacy single-text mode): with every
auxiliary command text absent the neighbor-entry, interface-enrichment,
learned-route and process-info attachment passes iterate empty lists and
leave the state untouched, so the string-mode result is exactly the
assembler's output on the four extracted record lists. -/
def parseOSPFData (input : String) : OSPFTopology :=
  assembleTopology (parseRouterLSAs (parseLines input))
    (parseNetworkLSAs (parseLines input))
    (parseSummaryLSAs (parseLines input))
    (parseExternalLSAs (parseLines input))

/-! ### Topology differ -/

inductive ChangeType
  | routerAdded
  | routerRemoved
  | linkAdded
  | linkRemoved
  | metricChanged
  | areaChanged
deriving DecidableEq, Repr

/-- A diff record (`TopologyChange` of ospf-types.ts); the wall-clock
`timestamp` field is not representable in a pure embedding and is omitted —
no compared behaviour depends on it. Optional fields use `""` for absent. -/
structure TopologyChange where
  id : String
  type : ChangeType
  routerId : String
  linkId : String
  description : String
  oldValue : String
  newValue : String
deriving DecidableEq, Repr

def routerIdsT (t : OSPFTopology) : List String := t.routers.map (fun r => r.id)

def findRouterT (t : OSPFTopology) (rid : String) : Option OSPFRouter :=
  t.routers.find? (fun r => r.id == rid)

def linkKeysT (t : OSPFTopology) : List String := t.links.map dedupKey

def findLinkT (t : OSPFTopology) (k : String) : Option OSPFLink :=
  t.links.find? (fun l => dedupKey l == k)

/-- Modelled from the spec: the repository's `diffTopologies`
(src/lib/topology-diff.ts) is imported by src/app/page.tsx but its source
file is not part of the supplied tree, so the differ is reconstructed from
§4.5 of the specification: set-based comparison of router ids, then links by
their dedup key; `router-added`/`router-removed` for ids on one side only;
`area-changed` for routers on both sides whose area differs; `link-added`/
`link-removed` for keys on one side only; `metric-changed` for keys on both
sides where `cost`, `sourceCost` or `targetCost` differ (headline values
taken from the symmetric cost); router changes emitted before link changes,
each group in ascending id order; deterministic synthetic ids and
descriptions. -/
def diffTopologies (previous current : OSPFTopology) : List TopologyChange :=
  let prevR := routerIdsT previous
  let curR := routerIdsT current
  let prevK := linkKeysT previous
  let curK := linkKeysT current
  let routerAdded := (sortStrings (curR.filter (fun i => !prevR.contains i))).map
    (fun i => { id := "chg-router-added-" ++ i, type := .routerAdded,
                routerId := i, linkId := "",
                description := "Router " ++ i ++ " joined the topology",
                oldValue := "", newValue := "" })
  let routerRemoved := (sortStrings (prevR.filter (fun i => !curR.contains i))).map
    (fun i => { id := "chg-router-removed-" ++ i, type := .routerRemoved,
                routerId := i, linkId := "",
                description := "Router " ++ i ++ " left the topology",
                oldValue := "", newValue := "" })
  let areaChanged := (sortStrings (curR.filter (fun i => prevR.contains i))).filterMap
    (fun i =>
      match findRouterT previous i, findRouterT current i with
      | some p, some c =>
        if p.area != c.area then
          some { id := "chg-area-changed-" ++ i, type := .areaChanged,
                 routerId := i, linkId := "",
                 description := "Router " ++ i ++ " moved from area " ++
                   p.area ++ " to area " ++ c.area,
                 oldValue := p.area, newValue := c.area }
        else none
      | _, _ => none)
  let linkAdded := (sortStrings (curK.filter (fun k => !prevK.contains k))).map
    (fun k => { id := "chg-link-added-" ++ k, type := .linkAdded,
                routerId := "", linkId := k,
                description := "Link " ++ k ++ " appeared",
                oldValue := "", newValue := "" })
  let linkRemoved := (sortStrings (prevK.filter (fun k => !curK.contains k))).map
    (fun k => { id := "chg-link-removed-" ++ k, type := .linkRemoved,
                routerId := "", linkId := k,
                description := "Link " ++ k ++ " disappeared",
                oldValue := "", newValue := "" })
  let metricChanged := (sortStrings (curK.filter (fun k => prevK.contains k))).filterMap
    (fun k =>
      match findLinkT previous k, findLinkT current k with
      | some p, some c =>
        if p.cost != c.cost || p.sourceCost != c.sourceCost ||
           p.targetCost != c.targetCost then
          some { id := "chg-metric-changed-" ++ k, type := .metricChanged,
                 routerId := "", linkId := k,
                 description := "Link " ++ k ++ " cost changed from " ++
                   toString p.cost ++ " to " ++ toString c.cost,
                 oldValue := toString p.cost, newValue := toString c.cost }
        else none
      | _, _ => none)
  routerAdded ++ routerRemoved ++ areaChanged ++
    linkAdded ++ linkRemoved ++ metricChanged

/-! ### Concrete scenario inputs -/

/-- The two reciprocal Router LSAs of testable-property 7 of the spec
(claim C1). -/
def c1Input : String :=
  "          Router Link States (Area 0)\n\n" ++
  "  LS age: 100\n" ++
  "  LS Type: Router Links\n" ++
  "  Link State ID: 1.1.1.1\n" ++
  "  Advertising Router: 1.1.1.1\n" ++
  "    Link connected to: another Router (point-to-point)\n" ++
  "     (Link ID) Neighboring Router ID: 2.2.2.2\n" ++
  "     (Link Data) Router Interface address: 10.0.0.1\n" ++
  "      TOS 0 Metrics: 10\n\n" ++
  "  LS age: 101\n" ++
  "  LS Type: Router Links\n" ++
  "  Link State ID: 2.2.2.2\n" ++
  "  Advertising Router: 2.2.2.2\n" ++
  "    Link connected to: another Router (point-to-point)\n" ++
  "     (Link ID) Neighboring Router ID: 1.1.1.1\n" ++
  "     (Link Data) Router Interface address: 10.0.0.2\n" ++
  "      TOS 0 Metrics: 20\n"

/-- A Router LSA with a configurable trailing marker section (claim C7). -/
def c7Input (markers : String) : String :=
  "  LS age: 5\n" ++
  "  LS Type: Router Links\n" ++
  "  Link State ID: 3.3.3.3\n" ++
  "  Advertising Router: 3.3.3.3\n" ++ markers

/-- A lone Type-3 Summary LSA: its advertising router is materialized with
attach-area `"0"` while no pass ever registers `"0"` in the area set
(claim C6). -/
def c6Input : String :=
  "  LS age: 40\n" ++
  "  LS Type: Summary Links (Network)\n" ++
  "  Link State ID: 99.0.0.0\n" ++
  "  Advertising Router: 5.5.5.5\n"

/-- A single Router LSA authoring a point-to-point link whose neighbor never
authors the reciprocal LSA (claim C10's scenario). -/
def c10Input : String :=
  "  LS age: 10\n" ++
  "  LS Type: Router Links\n" ++
  "  Advertising Router: 1.1.1.1\n" ++
  "    Link connected to: another Router (point-to-point)\n" ++
  "     (Link ID) Neighboring Router ID: 2.2.2.2\n" ++
  "     (Link Data) Router Interface address: 10.0.0.1\n" ++
  "      TOS 0 Metrics: 10\n"

/-- A link descriptor carrying a TOS-0 metric line with value 0 followed by
a bare Metric line (claim C5's counterexample). -/
def c5Lines : List String :=
  ["    Link connected to: a Stub Network",
   "     (Link ID) Network/subnet number: 10.1.0.0",
   "      TOS 0 Metrics: 0",
   "      Metric: 7"]

/-! ### Spec-level derived notions -/

/-- The unordered endpoint pair of a link (the sorted `(source, target)`
pair the spec's dedup invariant speaks about). -/
def sortedPair (a b : String) : String × String :=
  if strLtB b a then (b, a) else (a, b)

def linkPairKey (l : OSPFLink) : (String × String) × LinkKind :=
  (sortedPair l.source l.target, l.linkType)

/-- A line's effective TOS-0 metric inside a descriptor: the TOS pattern as
the scan reaches it (a line consumed by the earlier Link ID / Link Data
patterns never reaches the metric patterns). -/
def effTos (line : String) : Option Nat :=
  if (linkIdMatch (jsTrim line)).isSome || (linkDataMatch (jsTrim line)).isSome
  then none
  else tosMetricMatch (jsTrim line)

/-- A line's effective bare-Metric value inside a descriptor. -/
def effBare (line : String) : Option Nat :=
  if (linkIdMatch (jsTrim line)).isSome ||
     (linkDataMatch (jsTrim line)).isSome ||
     (tosMetricMatch (jsTrim line)).isSome
  then none
  else bareMetricMatch (jsTrim line)

/-- The metric component of the descriptor scan in isolation. -/
def metricStep (m : Nat) (line : String) : Nat :=
  match effTos line with
  | some v => v
  | none =>
    match effBare line with
    | some v => if m == 0 then v else m
    | none => m

/-- The last effective TOS-0 line's value, with the lines after it. -/
def lastTosSplit : List String → Option (Nat × List String)
  | [] => none
  | l :: ls =>
    match lastTosSplit ls with
    | some r => some r
    | none =>
      match effTos l with
      | some v => some (v, ls)
      | none => none

/-- The first nonzero effective bare-Metric value of the lines (0 if
none). -/
def firstPosBare : List String → Nat
  | [] => 0
  | l :: ls =>
    match effBare l with
    | some v => if v == 0 then firstPosBare ls else v
    | none => firstPosBare ls

/-- Closed form of a descriptor's metric: the last TOS-0 value when that
value is nonzero; otherwise the first nonzero bare-Metric value after the
last TOS-0 line (after the descriptor start when no TOS-0 line exists);
0 by default. -/
def specMetric (body : List String) : Nat :=
  match lastTosSplit body with
  | some (v, rest) => if v == 0 then firstPosBare rest else v
  | none => firstPosBare body

/-- The id list of a router map. -/
def idsR (m : List OSPFRouter) : List String := m.map (fun r => r.id)

/-- Symmetric-pair existence: some router with id `n` lists `x` back. -/
def SymPair (m : List OSPFRouter) (x n : String) : Prop :=
  ∃ q ∈ m, q.id = n ∧ x ∈ q.neighbors

/-- The bidirectional-closure property of a router map. -/
def SymOK (m : List OSPFRouter) : Prop :=
  ∀ r ∈ m, ∀ n ∈ r.neighbors, SymPair m r.id n

/-- Monotone growth of a router map: ids persist and neighbor lists only
grow. -/
def RGrow (m m' : List OSPFRouter) : Prop :=
  ∀ r ∈ m, ∃ r' ∈ m', r'.id = r.id ∧ ∀ x ∈ r.neighbors, x ∈ r'.neighbors

/-- The id list of the network map. -/
def netIds (nm : List OSPFNetwork) : List String := nm.map (fun n => n.id)

/-- The point-to-point link-descriptor occurrences of a Router-LSA list in
processing order, each tagged with the authoring router id and LSA area —
the exact subsequence of phase-1 iterations that touch the pending cost
table. -/
def p2pOcc : List RawRouterLSA → List (String × String × RawLink)
  | [] => []
  | lsa :: tl =>
    (lsa.links.filter (fun k => k.type == LinkKind.p2p)).map
      (fun k => (lsa.routerId, lsa.area, k)) ++ p2pOcc tl

/-- The pending-table key of an occurrence. -/
def occKey (o : String × String × RawLink) : String :=
  sortJoin o.1 o.2.2.linkId

/-- The pending-table mutation of one point-to-point occurrence (the table
part of `routerLinkStep`'s `.p2p` branch). -/
def occStep (tbl : List (String × P2P)) (o : String × String × RawLink) :
    List (String × P2P) :=
  match findP tbl (occKey o) with
  | some ex =>
    setP tbl (occKey o)
      (if o.1 == ex.srcId then
         { ex with srcCost := o.2.2.metric
                   ifInfo := if o.2.2.linkData.isEmpty then ex.ifInfo
                             else o.2.2.linkData }
       else { ex with tgtCost := o.2.2.metric })
  | none =>
    tbl ++ [(occKey o, ⟨o.1, o.2.2.linkId, o.2.2.metric, o.2.2.metric,
                        o.2.2.linkData, o.2.1⟩)]

/-- The effect of one occurrence on the table entry under its own key. -/
def updEntry (cur : Option P2P) (o : String × String × RawLink) :
    Option P2P :=
  match cur with
  | none => some ⟨o.1, o.2.2.linkId, o.2.2.metric, o.2.2.metric,
                  o.2.2.linkData, o.2.1⟩
  | some ex =>
    some (if o.1 == ex.srcId then
            { ex with srcCost := o.2.2.metric
                      ifInfo := if o.2.2.linkData.isEmpty then ex.ifInfo
                                else o.2.2.linkData }
          else { ex with tgtCost := o.2.2.metric })

/-- The Link materialized from one pending-table row in phase 2. -/
def linkOfP2P (e : String × P2P) : OSPFLink :=
  ⟨"p2p-" ++ e.2.srcId ++ "-" ++ e.2.tgtId, e.2.srcId, e.2.tgtId,
   max e.2.srcCost e.2.tgtCost, e.2.srcCost, e.2.tgtCost, .p2p,
   e.2.ifInfo, e.2.area⟩

/-- The key list of the pending table. -/
def keysP (tbl : List (String × P2P)) : List String :=
  tbl.map (fun e => e.1)

/-- A record-level one-sided point-to-point scenario: router 1.1.1.1 authors
a p2p link to 2.2.2.2 with metric 10, and no reciprocal Router LSA exists. -/
def c10rl : List RawRouterLSA :=
  [⟨"1.1.1.1", "0", 10, "80000001", "0x1234", false, false,
    [⟨LinkKind.p2p, "2.2.2.2", "10.0.0.1", 10⟩]⟩]

/-! ### Role observation and the router-map components of the phase steps -/

/-- The role of a router id in a router map (`none` when absent). -/
def roleOfM (m : List OSPFRouter) (rid : String) : Option RouterRole :=
  (findR m rid).map (fun r => r.role)

/-- The role transformer of one Router-LSA flag pair `(isABR, isASBR)`, as
phase 1 applies it to an existing entry (`promoteRoles`); on `internal` it
coincides with the creation role `createRoleOf`. -/
def promoteStep (r : RouterRole) (fl : Bool × Bool) : RouterRole :=
  let r1 := if fl.1 && decide (r = RouterRole.internal) then RouterRole.abr
            else r
  if fl.2 then RouterRole.asbr else r1

/-- Option-level phase-1 role step (creation = promotion from `internal`). -/
def r1Step (cur : Option RouterRole) (fl : Bool × Bool) : Option RouterRole :=
  some (promoteStep (cur.getD RouterRole.internal) fl)

/-- The `(isABR, isASBR)` flag pairs of the Router LSAs authored by `rid`,
in processing order. -/
def flagsOf (rl : List RawRouterLSA) (rid : String) : List (Bool × Bool) :=
  rl.filterMap (fun l =>
    if l.routerId == rid then some (l.isABR, l.isASBR) else none)

/-- Option-level phase-5 role step for one `rid`-advertised summary route
(`true` marks a Type-4 summary, which promotes `internal` to `abr`). -/
def s5Step (cur : Option RouterRole) (b : Bool) : Option RouterRole :=
  some (if b && decide (cur.getD RouterRole.internal = RouterRole.internal)
        then RouterRole.abr else cur.getD RouterRole.internal)

/-- The Type-4 markers of the summary routes advertised by `rid`. -/
def t4flags (sl : List OSPFSummaryRoute) (rid : String) : List Bool :=
  sl.filterMap (fun s =>
    if s.advertisingRouter == rid then some (s.lsaType == type4Name)
    else none)

/-- Option-level phase-6 role step for one `rid`-advertised external route
(`internal` is promoted to `asbr`). -/
def e6Step (cur : Option RouterRole) (_b : Bool) : Option RouterRole :=
  some (if decide (cur.getD RouterRole.internal = RouterRole.internal)
        then RouterRole.asbr else cur.getD RouterRole.internal)

/-- One `true` per external route advertised by `rid`. -/
def e6flags (el : List OSPFExternalRoute) (rid : String) : List Bool :=
  el.filterMap (fun e =>
    if e.advertisingRouter == rid then some true else none)

/-- The rank of a role on the promotion chain internal → abr → asbr. -/
def roleRank : RouterRole → Nat
  | .internal => 0
  | .abr => 1
  | .asbr => 2

/-- Role monotonicity between two router maps: every id present before is
still present afterwards, with a role at least as high on the chain
internal → abr → asbr. -/
def roleLe (m m' : List OSPFRouter) : Prop :=
  ∀ rid r, roleOfM m rid = some r →
    ∃ r', roleOfM m' rid = some r' ∧ roleRank r ≤ roleRank r'

/-- The router-map component of `routerLinkStep` (the pending-table part is
dropped; the map mutation does not read the table). -/
def linkM (rid : String) (m : List OSPFRouter) (link : RawLink) :
    List OSPFRouter :=
  match link.type with
  | .p2p => updR m rid (p2pAuthorUpd link)
  | .stub => updR m rid (stubUpd link)
  | .transit => updR m rid (transitUpd link)

/-- The router-map component of `phase1Step`. -/
def p1M (m : List OSPFRouter) (lsa : RawRouterLSA) : List OSPFRouter :=
  lsa.links.foldl (linkM lsa.routerId) (routerLSARouterUpsert m lsa)

/-- The router-map component of `p2pStep`. -/
def p2pM (m0 : List OSPFRouter) (e : String × P2P) : List OSPFRouter :=
  let p := e.2
  let m := ensureRouter m0 p.srcId p.area
  let m := ensureRouter m p.tgtId p.area
  let m := updR m p.srcId (fun r =>
    { r with neighbors := pushIfAbsent p.tgtId r.neighbors })
  let m := updR m p.tgtId (fun r =>
    { r with neighbors := pushIfAbsent p.srcId r.neighbors })
  let m := if !p.ifInfo.isEmpty then
      updR m p.srcId (fun r =>
        if niFalsy r.neighborInterfaces p.tgtId then
          { r with neighborInterfaces :=
              r.neighborInterfaces ++ [(p.tgtId, p.ifInfo)] }
        else r)
    else m
  let m := if !p.ifInfo.isEmpty then
      updR m p.tgtId (fun r =>
        if niFalsy r.neighborInterfaces p.srcId then
          { r with neighborInterfaces :=
              r.neighborInterfaces ++ [(p.srcId, p.ifInfo)] }
        else r)
    else m
  if !p.ifInfo.isEmpty then
    updR m p.tgtId (fun r =>
      if !(r.interfaces.any (fun i =>
             i.connectedTo == p.srcId && i.linkType == LinkKind.p2p)) then
        { r with interfaces :=
            r.interfaces ++ [⟨p.ifInfo, p.srcId, .p2p, p.tgtCost⟩] }
      else r)
  else m

/-- The router-map component of one attached-router iteration of
`netStep`. -/
def netInnerM (area advRouter nid : String) (m0 : List OSPFRouter)
    (ar : String) : List OSPFRouter :=
  let m := ensureRouter m0 ar area
  let m := updR m ar (fun r =>
    { r with networks := pushIfAbsent nid r.networks })
  if ar == advRouter then
    updR m ar (fun r =>
      if r.lsaTypes.contains networkLSAName then r
      else { r with lsaTypes := r.lsaTypes ++ [networkLSAName] })
  else m

/-- The router-map component of `netStep`. -/
def netM (m : List OSPFRouter) (nlsa : RawNetworkLSA) : List OSPFRouter :=
  nlsa.attachedRouters.foldl
    (netInnerM nlsa.area nlsa.advertisingRouter nlsa.linkStateId) m

/-! ### Order-insensitive membership and role predicates -/

def authB (rl : List RawRouterLSA) (rid : String) : Bool :=
  rl.any (fun l => l.routerId == rid)

def hasASBRLsa (rl : List RawRouterLSA) (rid : String) : Bool :=
  rl.any (fun l => l.routerId == rid && l.isASBR)

def hasABRLsa (rl : List RawRouterLSA) (rid : String) : Bool :=
  rl.any (fun l => l.routerId == rid && l.isABR)

def p2pLinkIdB (rl : List RawRouterLSA) (rid : String) : Bool :=
  rl.any (fun l => l.links.any
    (fun k => k.type == LinkKind.p2p && k.linkId == rid))

def attachedB (nl : List RawNetworkLSA) (rid : String) : Bool :=
  nl.any (fun n => n.attachedRouters.any (fun a => a == rid))

def sumAdvB (sl : List OSPFSummaryRoute) (rid : String) : Bool :=
  sl.any (fun s => s.advertisingRouter == rid)

def hasType4B (sl : List OSPFSummaryRoute) (rid : String) : Bool :=
  sl.any (fun s => s.advertisingRouter == rid && s.lsaType == type4Name)

def extAdvB (el : List OSPFExternalRoute) (rid : String) : Bool :=
  el.any (fun e => e.advertisingRouter == rid)

/-- Which ids end up in the assembled router map: Router-LSA authors, p2p
link targets, attached routers of Network LSAs, summary advertisers and
external advertisers. -/
def memB (rl : List RawRouterLSA) (nl : List RawNetworkLSA)
    (sl : List OSPFSummaryRoute) (el : List OSPFExternalRoute)
    (rid : String) : Bool :=
  authB rl rid || p2pLinkIdB rl rid || attachedB nl rid || sumAdvB sl rid ||
    extAdvB el rid

/-- The order-insensitive closed form of a router's final role. -/
def roleSpec (rl : List RawRouterLSA) (sl : List OSPFSummaryRoute)
    (el : List OSPFExternalRoute) (rid : String) : RouterRole :=
  if hasASBRLsa rl rid then RouterRole.asbr
  else if hasABRLsa rl rid then RouterRole.abr
  else if hasType4B sl rid then RouterRole.abr
  else if extAdvB el rid then RouterRole.asbr
  else RouterRole.internal

/-- The closure invariant of the membership argument: every id and every
neighbor string in the router map satisfies `S`. -/
def Rinv (S : String → Bool) (m : List OSPFRouter) : Prop :=
  ∀ r ∈ m, S r.id = true ∧ ∀ n ∈ r.neighbors, S n = true

/-- Two Router-LSA lists that are permutations of each other (role
permutation-invariance scenario: an ABR LSA and an ASBR LSA swapped). -/
def c3rl : List RawRouterLSA :=
  [⟨"1.1.1.1", "0", 1, "", "", true, false, []⟩,
   ⟨"9.9.9.9", "0", 2, "", "", false, true, []⟩]

def c3rlPerm : List RawRouterLSA :=
  [⟨"9.9.9.9", "0", 2, "", "", false, true, []⟩,
   ⟨"1.1.1.1", "0", 1, "", "", true, false, []⟩]

/-- A one-router state and a Router LSA promoting it (monotonicity
scenario). -/
def c3st : List OSPFRouter × List String × List (String × P2P) :=
  ([mkBareRouter "1.1.1.1" "0"], [], [])

def c3lsa : RawRouterLSA := ⟨"1.1.1.1", "0", 3, "", "", true, false, []⟩

/-! ### General lemmas -/

theorem sortJoin_sortedPair (a b : String) :
    sortJoin a b = (sortedPair a b).1 ++ "|" ++ (sortedPair a b).2 := by
  unfold sortJoin sortedPair
  split <;> rfl

theorem mergeLink_source (ex l : OSPFLink) :
    (mergeLink ex l).source = ex.source := by
  simp only [mergeLink]
  split_ifs <;> rfl

theorem mergeLink_target (ex l : OSPFLink) :
    (mergeLink ex l).target = ex.target := by
  simp only [mergeLink]
  split_ifs <;> rfl

theorem mergeLink_linkType (ex l : OSPFLink) :
    (mergeLink ex l).linkType = ex.linkType := by
  simp only [mergeLink]
  split_ifs <;> rfl

theorem mergeLink_area (ex l : OSPFLink) :
    (mergeLink ex l).area = ex.area := by
  simp only [mergeLink]
  split_ifs <;> rfl

theorem dedupKey_mergeLink (ex l : OSPFLink) :
    dedupKey (mergeLink ex l) = dedupKey ex := by
  unfold dedupKey
  rw [mergeLink_source, mergeLink_target, mergeLink_linkType]

theorem linkPairKey_imp_dedupKey {a b : OSPFLink}
    (h : linkPairKey a = linkPairKey b) : dedupKey a = dedupKey b := by
  unfold linkPairKey at h
  obtain ⟨h1, h2⟩ := Prod.mk.injEq .. ▸ h
  unfold dedupKey
  rw [sortJoin_sortedPair, sortJoin_sortedPair, h1, h2]

/-- Through `dedupGo`, every stored entry's stored key is its link's dedup
key, and stored keys stay pairwise distinct. -/
theorem dedupGo_keys (ls : List OSPFLink) :
    ∀ seen, (∀ e ∈ seen, dedupKey e.2 = e.1) → (seen.map Prod.fst).Nodup →
    (∀ e ∈ dedupGo seen ls, dedupKey e.2 = e.1) ∧
      ((dedupGo seen ls).map Prod.fst).Nodup := by
  induction ls with
  | nil => intro seen h1 h2; exact ⟨h1, h2⟩
  | cons l rest ih =>
    intro seen h1 h2
    show (∀ e ∈ dedupGo seen (l :: rest), dedupKey e.2 = e.1) ∧ _
    unfold dedupGo
    cases hfind : seen.find? (fun e => e.1 == dedupKey l) with
    | none =>
      apply ih
      · intro e he
        rcases List.mem_append.mp he with h | h
        · exact h1 e h
        · rcases List.mem_singleton.mp h with rfl
          rfl
      · rw [List.map_append, List.nodup_append]
        refine ⟨h2, List.nodup_singleton _, ?_⟩
        intro k hk hk2
        simp only [List.map_cons, List.map_nil, List.mem_singleton] at hk2
        subst hk2
        obtain ⟨e, he, hfst⟩ := List.mem_map.mp hk
        have hne := List.find?_eq_none.mp hfind e he
        simp [hfst] at hne
    | some hit =>
      apply ih
      · intro e he
        obtain ⟨e0, he0, rfl⟩ := List.mem_map.mp he
        by_cases hk : (e0.1 == dedupKey l) = true
        · rw [if_pos hk]
          show dedupKey (mergeLink e0.2 l) = dedupKey l
          rw [dedupKey_mergeLink, h1 e0 he0]
          exact eq_of_beq hk
        · rw [if_neg hk]
          exact h1 e0 he0
      · have hmapfst : (seen.map (fun e =>
            if e.1 == dedupKey l then (dedupKey l, mergeLink e.2 l) else e)).map
              Prod.fst = seen.map Prod.fst := by
          rw [List.map_map]
          apply List.map_congr_left
          intro e _
          by_cases hk : (e.1 == dedupKey l) = true
          · simp only [Function.comp_apply, if_pos hk]
            exact (eq_of_beq hk).symm
          · simp only [Function.comp_apply, if_neg hk]
        rw [hmapfst]
        exact h2

/-- No two links in the dedup output share a dedup key. -/
theorem dedup_key_nodup (ls : List OSPFLink) :
    ((dedup ls).map dedupKey).Nodup := by
  unfold dedup
  rw [List.map_map]
  obtain ⟨h1, h2⟩ := dedupGo_keys ls [] (by intro e he; cases he) (by simp)
  have : (dedupGo [] ls).map (dedupKey ∘ Prod.snd) =
      (dedupGo [] ls).map Prod.fst := by
    apply List.map_congr_left
    intro e he
    exact h1 e he
  rw [this]
  exact h2

/-- Every property of links that `mergeLink` preserves and that holds of
every input link holds of every dedup-output link. -/
theorem dedup_invariant (P : OSPFLink → Prop)
    (hmerge : ∀ ex l, P ex → P (mergeLink ex l)) (ls : List OSPFLink)
    (hin : ∀ l ∈ ls, P l) : ∀ l ∈ dedup ls, P l := by
  have main : ∀ (rest : List OSPFLink) (seen : List (String × OSPFLink)),
      (∀ e ∈ seen, P e.2) → (∀ l ∈ rest, P l) →
      ∀ e ∈ dedupGo seen rest, P e.2 := by
    intro rest
    induction rest with
    | nil => intro seen hs _ e he; exact hs e he
    | cons l tl ih =>
      intro seen hs hr
      unfold dedupGo
      cases hfind : seen.find? (fun e => e.1 == dedupKey l) with
      | none =>
        apply ih
        · intro e he
          rcases List.mem_append.mp he with h | h
          · exact hs e h
          · rcases List.mem_singleton.mp h with rfl
            exact hr l (List.mem_cons_self _ _)
        · intro x hx; exact hr x (List.mem_cons_of_mem _ hx)
      | some hit =>
        apply ih
        · intro e he
          obtain ⟨e0, he0, rfl⟩ := List.mem_map.mp he
          by_cases hk : (e0.1 == dedupKey l) = true
          · rw [if_pos hk]
            exact hmerge _ _ (hs e0 he0)
          · rw [if_neg hk]
            exact hs e0 he0
        · intro x hx; exact hr x (List.mem_cons_of_mem _ hx)
  intro l hl
  obtain ⟨e, he, rfl⟩ := List.mem_map.mp hl
  exact main ls [] (by intro e he; cases he) hin e he

theorem filter_not_contains_self (l : List String) :
    l.filter (fun i => !l.contains i) = [] := by
  rw [List.filter_eq_nil_iff]
  intro a ha
  simp [ha]

theorem sortStrings_nil : sortStrings [] = [] := rfl

/-! #### Router-map operation lemmas -/

theorem mem_idsR {m : List OSPFRouter} {x : String} :
    x ∈ idsR m ↔ ∃ r ∈ m, r.id = x := by
  unfold idsR
  exact List.mem_map

theorem hasR_iff {m : List OSPFRouter} {x : String} :
    hasR m x = true ↔ x ∈ idsR m := by
  unfold hasR findR idsR
  simp [List.find?_isSome]

theorem findR_eq_some {m : List OSPFRouter} {x : String} {r : OSPFRouter}
    (h : findR m x = some r) : r ∈ m ∧ r.id = x := by
  refine ⟨List.mem_of_find?_eq_some h, ?_⟩
  have := List.find?_some h
  exact eq_of_beq this

theorem findR_of_mem {m : List OSPFRouter} {r : OSPFRouter}
    (hnd : (idsR m).Nodup) (hr : r ∈ m) : findR m r.id = some r := by
  induction m with
  | nil => cases hr
  | cons a tl ih =>
    have hnd2 : (idsR tl).Nodup ∧ a.id ∉ idsR tl := by
      have := List.nodup_cons.mp (show (a.id :: idsR tl).Nodup from hnd)
      exact ⟨this.2, this.1⟩
    rcases List.mem_cons.mp hr with rfl | hmem
    · unfold findR
      simp [List.find?_cons]
    · have hne : (a.id == r.id) = false := by
        rw [beq_eq_false_iff_ne]
        intro heq
        exact hnd2.2 (heq ▸ mem_idsR.mpr ⟨r, hmem, rfl⟩)
      unfold findR at ih ⊢
      simp only [List.find?_cons, hne]
      exact ih hnd2.1 hmem

theorem mem_updR {m : List OSPFRouter} {r : OSPFRouter} (rid : String)
    (f : OSPFRouter → OSPFRouter) (hr : r ∈ m) :
    (if r.id == rid then f r else r) ∈ updR m rid f :=
  List.mem_map.mpr ⟨r, hr, rfl⟩

theorem mem_of_updR {m : List OSPFRouter} {rid : String}
    {f : OSPFRouter → OSPFRouter} {r' : OSPFRouter} (h : r' ∈ updR m rid f) :
    ∃ r ∈ m, r' = if r.id == rid then f r else r := by
  obtain ⟨r, hr, rfl⟩ := List.mem_map.mp h
  exact ⟨r, hr, rfl⟩

theorem idsR_updR {m : List OSPFRouter} {rid : String}
    {f : OSPFRouter → OSPFRouter} (hf : ∀ r, (f r).id = r.id) :
    idsR (updR m rid f) = idsR m := by
  unfold idsR updR
  rw [List.map_map]
  apply List.map_congr_left
  intro r _
  by_cases h : r.id = rid
  · simp [h, hf]
  · simp [h]

theorem mem_ensureRouter {m : List OSPFRouter} {r : OSPFRouter}
    (x a : String) (hr : r ∈ m) : r ∈ ensureRouter m x a := by
  unfold ensureRouter
  split
  · exact hr
  · exact List.mem_append_left _ hr

theorem idsR_ensureRouter_mono {m : List OSPFRouter} {y : String}
    (x a : String) (hy : y ∈ idsR m) : y ∈ idsR (ensureRouter m x a) := by
  obtain ⟨r, hr, rfl⟩ := mem_idsR.mp hy
  exact mem_idsR.mpr ⟨r, mem_ensureRouter x a hr, rfl⟩

theorem idsR_ensureRouter_self (m : List OSPFRouter) (x a : String) :
    x ∈ idsR (ensureRouter m x a) := by
  unfold ensureRouter
  by_cases h : hasR m x = true
  · rw [if_pos h]; exact hasR_iff.mp h
  · rw [if_neg h]
    unfold idsR
    rw [List.map_append]
    exact List.mem_append_right _ (by simp [mkBareRouter])

theorem idsR_ensureRouter_sub {m : List OSPFRouter} {x a y : String}
    (hy : y ∈ idsR (ensureRouter m x a)) : y ∈ idsR m ∨ y = x := by
  unfold ensureRouter at hy
  by_cases h : hasR m x = true
  · rw [if_pos h] at hy; exact Or.inl hy
  · rw [if_neg h] at hy
    unfold idsR at hy
    rw [List.map_append] at hy
    rcases List.mem_append.mp hy with h1 | h1
    · exact Or.inl h1
    · simp [mkBareRouter] at h1
      exact Or.inr h1

theorem nodup_ensureRouter {m : List OSPFRouter} (x a : String)
    (hnd : (idsR m).Nodup) : (idsR (ensureRouter m x a)).Nodup := by
  unfold ensureRouter
  by_cases h : hasR m x = true
  · rw [if_pos h]; exact hnd
  · rw [if_neg h]
    unfold idsR
    rw [List.map_append, List.nodup_append]
    refine ⟨hnd, by simp, ?_⟩
    intro y hy hy2
    simp [mkBareRouter] at hy2
    subst hy2
    exact h (hasR_iff.mpr hy)

theorem mem_pushIfAbsent_of_mem {x y : String} {l : List String}
    (h : x ∈ l) : x ∈ pushIfAbsent y l := by
  unfold pushIfAbsent
  split
  · exact h
  · exact List.mem_append_left _ h

theorem mem_pushIfAbsent_self (y : String) (l : List String) :
    y ∈ pushIfAbsent y l := by
  unfold pushIfAbsent
  split
  · next h => exact List.mem_of_elem_eq_true h
  · exact List.mem_append_right _ (List.mem_singleton.mpr rfl)

theorem mem_of_pushIfAbsent {x y : String} {l : List String}
    (h : x ∈ pushIfAbsent y l) : x ∈ l ∨ x = y := by
  unfold pushIfAbsent at h
  split at h
  · exact Or.inl h
  · rcases List.mem_append.mp h with h1 | h1
    · exact Or.inl h1
    · exact Or.inr (List.mem_singleton.mp h1)

theorem RGrow.refl (m : List OSPFRouter) : RGrow m m :=
  fun r hr => ⟨r, hr, rfl, fun _ hx => hx⟩

theorem RGrow.trans {a b c : List OSPFRouter} (h1 : RGrow a b)
    (h2 : RGrow b c) : RGrow a c := by
  intro r hr
  obtain ⟨r', hr', hid, hnb⟩ := h1 r hr
  obtain ⟨r'', hr'', hid2, hnb2⟩ := h2 r' hr'
  exact ⟨r'', hr'', hid2.trans hid, fun x hx => hnb2 x (hnb x hx)⟩

theorem SymPair_of_RGrow {m m' : List OSPFRouter} {x n : String}
    (hg : RGrow m m') (h : SymPair m x n) : SymPair m' x n := by
  obtain ⟨q, hq, hid, hx⟩ := h
  obtain ⟨q', hq', hid2, hnb⟩ := hg q hq
  exact ⟨q', hq', hid2.trans hid, hnb x hx⟩

theorem RGrow_ensureRouter (m : List OSPFRouter) (x a : String) :
    RGrow m (ensureRouter m x a) :=
  fun r hr => ⟨r, mem_ensureRouter x a hr, rfl, fun _ hx => hx⟩

theorem RGrow_updR (m : List OSPFRouter) (rid : String)
    (f : OSPFRouter → OSPFRouter) (hid : ∀ r, (f r).id = r.id)
    (hnb : ∀ r x, x ∈ r.neighbors → x ∈ (f r).neighbors) :
    RGrow m (updR m rid f) := by
  intro r hr
  refine ⟨_, mem_updR rid f hr, ?_, ?_⟩
  · by_cases h : r.id = rid <;> simp [h, hid]
  · intro x hx
    by_cases h : r.id = rid
    · simpa [h] using hnb r x hx
    · simpa [h] using hx

theorem promoteRoles_id (lsa : RawRouterLSA) (ex : OSPFRouter) :
    (promoteRoles lsa ex).id = ex.id := by
  unfold promoteRoles; dsimp only; split_ifs <;> rfl

theorem promoteRoles_neighbors (lsa : RawRouterLSA) (ex : OSPFRouter) :
    (promoteRoles lsa ex).neighbors = ex.neighbors := by
  unfold promoteRoles; dsimp only; split_ifs <;> rfl

theorem promoteRoles_area (lsa : RawRouterLSA) (ex : OSPFRouter) :
    (promoteRoles lsa ex).area = ex.area := by
  unfold promoteRoles; dsimp only; split_ifs <;> rfl

theorem addLsaType_id (name : String) (ex : OSPFRouter) :
    (addLsaType name ex).id = ex.id := by
  unfold addLsaType; split_ifs <;> rfl

theorem addLsaType_neighbors (name : String) (ex : OSPFRouter) :
    (addLsaType name ex).neighbors = ex.neighbors := by
  unfold addLsaType; split_ifs <;> rfl

theorem addLsaType_role (name : String) (ex : OSPFRouter) :
    (addLsaType name ex).role = ex.role := by
  unfold addLsaType; split_ifs <;> rfl

theorem addLsaType_area (name : String) (ex : OSPFRouter) :
    (addLsaType name ex).area = ex.area := by
  unfold addLsaType; split_ifs <;> rfl

theorem fillFreshness_id (lsa : RawRouterLSA) (ex : OSPFRouter) :
    (fillFreshness lsa ex).id = ex.id := by
  unfold fillFreshness; dsimp only; split_ifs <;> rfl

theorem fillFreshness_neighbors (lsa : RawRouterLSA) (ex : OSPFRouter) :
    (fillFreshness lsa ex).neighbors = ex.neighbors := by
  unfold fillFreshness; dsimp only; split_ifs <;> rfl

theorem fillFreshness_role (lsa : RawRouterLSA) (ex : OSPFRouter) :
    (fillFreshness lsa ex).role = ex.role := by
  unfold fillFreshness; dsimp only; split_ifs <;> rfl

theorem fillFreshness_area (lsa : RawRouterLSA) (ex : OSPFRouter) :
    (fillFreshness lsa ex).area = ex.area := by
  unfold fillFreshness; dsimp only; split_ifs <;> rfl

theorem upsertUpd_id (lsa : RawRouterLSA) (ex : OSPFRouter) :
    (upsertUpd lsa ex).id = ex.id := by
  unfold upsertUpd
  rw [fillFreshness_id, addLsaType_id, promoteRoles_id]

theorem upsertUpd_neighbors (lsa : RawRouterLSA) (ex : OSPFRouter) :
    (upsertUpd lsa ex).neighbors = ex.neighbors := by
  unfold upsertUpd
  rw [fillFreshness_neighbors, addLsaType_neighbors, promoteRoles_neighbors]

theorem upsertUpd_area (lsa : RawRouterLSA) (ex : OSPFRouter) :
    (upsertUpd lsa ex).area = ex.area := by
  unfold upsertUpd
  rw [fillFreshness_area, addLsaType_area, promoteRoles_area]

theorem p2pAuthorUpd_id (link : RawLink) (r : OSPFRouter) :
    (p2pAuthorUpd link r).id = r.id := by
  unfold p2pAuthorUpd; dsimp only; split_ifs <;> rfl

theorem p2pAuthorUpd_neighbors (link : RawLink) (r : OSPFRouter) :
    (p2pAuthorUpd link r).neighbors = pushIfAbsent link.linkId r.neighbors := by
  unfold p2pAuthorUpd; dsimp only; split_ifs <;> rfl

theorem p2pAuthorUpd_role (link : RawLink) (r : OSPFRouter) :
    (p2pAuthorUpd link r).role = r.role := by
  unfold p2pAuthorUpd; dsimp only; split_ifs <;> rfl

theorem p2pAuthorUpd_area (link : RawLink) (r : OSPFRouter) :
    (p2pAuthorUpd link r).area = r.area := by
  unfold p2pAuthorUpd; dsimp only; split_ifs <;> rfl

theorem stubUpd_id (link : RawLink) (r : OSPFRouter) :
    (stubUpd link r).id = r.id := by
  unfold stubUpd; dsimp only; split_ifs <;> rfl

theorem stubUpd_neighbors (link : RawLink) (r : OSPFRouter) :
    (stubUpd link r).neighbors = r.neighbors := by
  unfold stubUpd; dsimp only; split_ifs <;> rfl

theorem stubUpd_role (link : RawLink) (r : OSPFRouter) :
    (stubUpd link r).role = r.role := by
  unfold stubUpd; dsimp only; split_ifs <;> rfl

theorem stubUpd_area (link : RawLink) (r : OSPFRouter) :
    (stubUpd link r).area = r.area := by
  unfold stubUpd; dsimp only; split_ifs <;> rfl

theorem transitUpd_id (link : RawLink) (r : OSPFRouter) :
    (transitUpd link r).id = r.id := by
  unfold transitUpd; dsimp only; split_ifs <;> rfl

theorem transitUpd_neighbors (link : RawLink) (r : OSPFRouter) :
    (transitUpd link r).neighbors = r.neighbors := by
  unfold transitUpd; dsimp only; split_ifs <;> rfl

theorem transitUpd_role (link : RawLink) (r : OSPFRouter) :
    (transitUpd link r).role = r.role := by
  unfold transitUpd; dsimp only; split_ifs <;> rfl

theorem transitUpd_area (link : RawLink) (r : OSPFRouter) :
    (transitUpd link r).area = r.area := by
  unfold transitUpd; dsimp only; split_ifs <;> rfl

theorem summaryUpd_id (s : OSPFSummaryRoute) (r : OSPFRouter) :
    (summaryUpd s r).id = r.id := by
  unfold summaryUpd
  dsimp only
  split_ifs <;> simp [addLsaType_id]

theorem summaryUpd_neighbors (s : OSPFSummaryRoute) (r : OSPFRouter) :
    (summaryUpd s r).neighbors = r.neighbors := by
  unfold summaryUpd
  dsimp only
  split_ifs <;> simp [addLsaType_neighbors]

theorem summaryUpd_area (s : OSPFSummaryRoute) (r : OSPFRouter) :
    (summaryUpd s r).area = r.area := by
  unfold summaryUpd
  dsimp only
  split_ifs <;> simp [addLsaType_area]

theorem externalUpd_id (e : OSPFExternalRoute) (r : OSPFRouter) :
    (externalUpd e r).id = r.id := by
  unfold externalUpd
  dsimp only
  split_ifs <;> simp [addLsaType_id]

theorem externalUpd_neighbors (e : OSPFExternalRoute) (r : OSPFRouter) :
    (externalUpd e r).neighbors = r.neighbors := by
  unfold externalUpd
  dsimp only
  split_ifs <;> simp [addLsaType_neighbors]

theorem externalUpd_area (e : OSPFExternalRoute) (r : OSPFRouter) :
    (externalUpd e r).area = r.area := by
  unfold externalUpd
  dsimp only
  split_ifs <;> simp [addLsaType_area]

theorem idsR_routerLSARouterUpsert (m : List OSPFRouter)
    (lsa : RawRouterLSA) :
    idsR (routerLSARouterUpsert m lsa) =
      if hasR m lsa.routerId then idsR m else idsR m ++ [lsa.routerId] := by
  unfold routerLSARouterUpsert
  by_cases h : hasR m lsa.routerId = true
  · rw [if_pos h, if_pos h]
    exact idsR_updR (fun r => upsertUpd_id lsa r)
  · rw [if_neg h, if_neg h]
    unfold idsR
    rw [List.map_append]
    rfl

theorem nodup_routerLSARouterUpsert {m : List OSPFRouter}
    (lsa : RawRouterLSA) (hnd : (idsR m).Nodup) :
    (idsR (routerLSARouterUpsert m lsa)).Nodup := by
  rw [idsR_routerLSARouterUpsert]
  by_cases h : hasR m lsa.routerId = true
  · rw [if_pos h]; exact hnd
  · rw [if_neg h]
    rw [List.nodup_append]
    refine ⟨hnd, by simp, ?_⟩
    intro y hy hy2
    rcases List.mem_singleton.mp hy2 with rfl
    exact h (hasR_iff.mpr hy)

theorem idsR_routerLinkStep (rid area : String)
    (st : List OSPFRouter × List (String × P2P)) (link : RawLink) :
    idsR (routerLinkStep rid area st link).1 = idsR st.1 := by
  unfold routerLinkStep
  cases link.type with
  | p2p =>
    dsimp only
    exact idsR_updR (fun r => p2pAuthorUpd_id link r)
  | stub =>
    dsimp only
    exact idsR_updR (fun r => stubUpd_id link r)
  | transit =>
    dsimp only
    exact idsR_updR (fun r => transitUpd_id link r)

theorem idsR_routerLinkStep_fold (rid area : String)
    (links : List RawLink) :
    ∀ st, idsR (links.foldl (routerLinkStep rid area) st).1 = idsR st.1 := by
  induction links with
  | nil => intro st; rfl
  | cons l tl ih =>
    intro st
    rw [List.foldl_cons, ih, idsR_routerLinkStep]

theorem idsR_phase1Step (st : List OSPFRouter × List String × List (String × P2P))
    (lsa : RawRouterLSA) :
    idsR (phase1Step st lsa).1 =
      if hasR st.1 lsa.routerId then idsR st.1
      else idsR st.1 ++ [lsa.routerId] := by
  unfold phase1Step
  dsimp only
  rw [idsR_routerLinkStep_fold, idsR_routerLSARouterUpsert]

theorem nodup_phase1Step
    (st : List OSPFRouter × List String × List (String × P2P))
    (lsa : RawRouterLSA) (hnd : (idsR st.1).Nodup) :
    (idsR (phase1Step st lsa).1).Nodup := by
  rw [idsR_phase1Step]
  by_cases h : hasR st.1 lsa.routerId = true
  · rw [if_pos h]; exact hnd
  · rw [if_neg h]
    rw [List.nodup_append]
    refine ⟨hnd, by simp, ?_⟩
    intro y hy hy2
    rcases List.mem_singleton.mp hy2 with rfl
    exact h (hasR_iff.mpr hy)

theorem nodup_phase1_fold (rl : List RawRouterLSA) :
    ∀ st, (idsR st.1).Nodup → (idsR (rl.foldl phase1Step st).1).Nodup := by
  induction rl with
  | nil => intro st h; exact h
  | cons lsa tl ih =>
    intro st h
    rw [List.foldl_cons]
    exact ih _ (nodup_phase1Step st lsa h)

theorem idsR_condUpdR (c : Prop) [Decidable c] (m : List OSPFRouter)
    (x : String) (f : OSPFRouter → OSPFRouter) (hf : ∀ r, (f r).id = r.id) :
    idsR (if c then updR m x f else m) = idsR m := by
  split
  · exact idsR_updR hf
  · rfl

theorem RGrow_condUpdR (c : Prop) [Decidable c] (m : List OSPFRouter)
    (x : String) (f : OSPFRouter → OSPFRouter) (hf : ∀ r, (f r).id = r.id)
    (hnb : ∀ r y, y ∈ r.neighbors → y ∈ (f r).neighbors) :
    RGrow m (if c then updR m x f else m) := by
  split
  · exact RGrow_updR m x f hf hnb
  · exact RGrow.refl m

theorem mem_ensureRouter_cases {m : List OSPFRouter} {x a : String}
    {r : OSPFRouter} (h : r ∈ ensureRouter m x a) :
    r ∈ m ∨ r = mkBareRouter x a := by
  unfold ensureRouter at h
  split at h
  · exact Or.inl h
  · rcases List.mem_append.mp h with h1 | h1
    · exact Or.inl h1
    · exact Or.inr (List.mem_singleton.mp h1)

theorem idsR_p2pStep_eq (st : List OSPFRouter × List OSPFLink)
    (e : String × P2P) :
    idsR (p2pStep st e).1 =
      idsR (ensureRouter (ensureRouter st.1 e.2.srcId e.2.area)
        e.2.tgtId e.2.area) := by
  unfold p2pStep
  dsimp only
  rw [idsR_condUpdR _ _ _ _ (fun r => by split_ifs <;> rfl),
    idsR_condUpdR _ _ _ _ (fun r => by split_ifs <;> rfl),
    idsR_condUpdR _ _ _ _ (fun r => by split_ifs <;> rfl),
    idsR_updR (fun r => by rfl), idsR_updR (fun r => by rfl)]

theorem nodup_p2pStep (st : List OSPFRouter × List OSPFLink)
    (e : String × P2P) (hnd : (idsR st.1).Nodup) :
    (idsR (p2pStep st e).1).Nodup := by
  rw [idsR_p2pStep_eq]
  exact nodup_ensureRouter _ _ (nodup_ensureRouter _ _ hnd)

theorem RGrow_p2pStep (st : List OSPFRouter × List OSPFLink)
    (e : String × P2P) : RGrow st.1 (p2pStep st e).1 := by
  unfold p2pStep
  dsimp only
  refine RGrow.trans (RGrow.trans (RGrow.trans (RGrow.trans
    (RGrow.trans (RGrow.trans
      (RGrow_ensureRouter st.1 e.2.srcId e.2.area)
      (RGrow_ensureRouter _ e.2.tgtId e.2.area))
      (RGrow_updR _ _ _ (fun r => by rfl)
        (fun r y hy => by exact mem_pushIfAbsent_of_mem hy)))
      (RGrow_updR _ _ _ (fun r => by rfl)
        (fun r y hy => by exact mem_pushIfAbsent_of_mem hy)))
      (RGrow_condUpdR _ _ _ _ (fun r => by split_ifs <;> rfl)
        (fun r y hy => by split_ifs <;> exact hy)))
      (RGrow_condUpdR _ _ _ _ (fun r => by split_ifs <;> rfl)
        (fun r y hy => by split_ifs <;> exact hy)))
      (RGrow_condUpdR _ _ _ _ (fun r => by split_ifs <;> rfl)
        (fun r y hy => by split_ifs <;> exact hy))

theorem nodup_p2p_fold (tbl : List (String × P2P)) :
    ∀ st : List OSPFRouter × List OSPFLink, (idsR st.1).Nodup →
      (idsR (tbl.foldl p2pStep st).1).Nodup := by
  induction tbl with
  | nil => intro st h; exact h
  | cons e tl ih =>
    intro st h
    rw [List.foldl_cons]
    exact ih _ (nodup_p2pStep st e h)

theorem RGrow_p2p_fold (tbl : List (String × P2P)) :
    ∀ st : List OSPFRouter × List OSPFLink, RGrow st.1 (tbl.foldl p2pStep st).1 := by
  induction tbl with
  | nil => intro st; exact RGrow.refl st.1
  | cons e tl ih =>
    intro st
    rw [List.foldl_cons]
    exact RGrow.trans (RGrow_p2pStep st e) (ih _)

theorem nodup_fold_generic {α σ : Type} (proj : σ → List OSPFRouter)
    (g : σ → α → σ) (hg : ∀ ml a, (idsR (proj ml)).Nodup →
      (idsR (proj (g ml a))).Nodup) :
    ∀ (l : List α) (ml : σ), (idsR (proj ml)).Nodup →
      (idsR (proj (l.foldl g ml))).Nodup := by
  intro l
  induction l with
  | nil => intro ml h; exact h
  | cons a tl ih =>
    intro ml h
    rw [List.foldl_cons]
    exact ih _ (hg ml a h)

theorem rgrow_fold_generic {α σ : Type} (proj : σ → List OSPFRouter)
    (g : σ → α → σ) (hg : ∀ ml a, RGrow (proj ml) (proj (g ml a))) :
    ∀ (l : List α) (ml : σ), RGrow (proj ml) (proj (l.foldl g ml)) := by
  intro l
  induction l with
  | nil => intro ml; exact RGrow.refl _
  | cons a tl ih =>
    intro ml
    rw [List.foldl_cons]
    exact RGrow.trans (hg ml a) (ih _)

theorem nodup_netStep
    (st : List OSPFRouter × List OSPFNetwork × List OSPFLink × List String)
    (nlsa : RawNetworkLSA) (hnd : (idsR st.1).Nodup) :
    (idsR (netStep st nlsa).1).Nodup := by
  unfold netStep
  dsimp only
  apply nodup_fold_generic (fun ml => ml.1) _ _ nlsa.attachedRouters
    (st.1, st.2.2.1) hnd
  intro ml ar h
  dsimp only
  rw [idsR_condUpdR _ _ _ _ (fun r => by split_ifs <;> rfl),
    idsR_updR (fun r => by rfl)]
  exact nodup_ensureRouter _ _ h

theorem RGrow_netStep
    (st : List OSPFRouter × List OSPFNetwork × List OSPFLink × List String)
    (nlsa : RawNetworkLSA) : RGrow st.1 (netStep st nlsa).1 := by
  unfold netStep
  dsimp only
  apply rgrow_fold_generic (fun ml => ml.1) _ _ nlsa.attachedRouters
    (st.1, st.2.2.1)
  intro ml ar
  dsimp only
  refine RGrow.trans (RGrow_ensureRouter ml.1 ar nlsa.area)
    (RGrow.trans (RGrow_updR _ _ _ (fun r => by rfl) (fun r y hy => by exact hy))
      (RGrow_condUpdR _ _ _ _ (fun r => by split_ifs <;> rfl)
        (fun r y hy => by split_ifs <;> exact hy)))

theorem idsR_closureAdd (rid area : String) (m : List OSPFRouter)
    (n : String) :
    idsR (closureAdd rid area m n) = idsR (ensureRouter m n area) := by
  unfold closureAdd
  exact idsR_updR (fun r => by rfl)

theorem nodup_closureAdd (rid area : String) {m : List OSPFRouter}
    (n : String) (hnd : (idsR m).Nodup) :
    (idsR (closureAdd rid area m n)).Nodup := by
  rw [idsR_closureAdd]
  exact nodup_ensureRouter _ _ hnd

theorem RGrow_closureAdd (rid area : String) (m : List OSPFRouter)
    (n : String) : RGrow m (closureAdd rid area m n) := by
  unfold closureAdd
  exact RGrow.trans (RGrow_ensureRouter m n area)
    (RGrow_updR _ _ _ (fun r => by rfl)
      (fun r y hy => by exact mem_pushIfAbsent_of_mem hy))

theorem closureAdd_sym (rid area : String) (m : List OSPFRouter)
    (n : String) : SymPair (closureAdd rid area m n) rid n := by
  unfold closureAdd
  obtain ⟨q, hq, hid⟩ := mem_idsR.mp (idsR_ensureRouter_self m n area)
  have hbeq : (q.id == n) = true := beq_iff_eq.mpr hid
  refine ⟨if q.id == n then
      { q with neighbors := pushIfAbsent rid q.neighbors } else q,
    mem_updR n _ hq, ?_, ?_⟩
  · rw [if_pos hbeq]
    exact hid
  · rw [if_pos hbeq]
    exact mem_pushIfAbsent_self rid q.neighbors

theorem closureAdd_origin (rid area : String) (m : List OSPFRouter)
    (n : String) :
    ∀ r' ∈ closureAdd rid area m n, ∀ x ∈ r'.neighbors,
      (∃ r0 ∈ m, r0.id = r'.id ∧ x ∈ r0.neighbors) ∨
        (x = rid ∧ r'.id = n) := by
  intro r' hr' x hx
  unfold closureAdd at hr'
  obtain ⟨q, hq, rfl⟩ := mem_of_updR hr'
  rcases mem_ensureRouter_cases hq with hqm | rfl
  · by_cases hbeq : (q.id == n) = true
    · rw [if_pos hbeq] at hx ⊢
      rcases mem_of_pushIfAbsent hx with h1 | rfl
      · exact Or.inl ⟨q, hqm, rfl, h1⟩
      · exact Or.inr ⟨rfl, eq_of_beq hbeq⟩
    · rw [if_neg hbeq] at hx ⊢
      exact Or.inl ⟨q, hqm, rfl, hx⟩
  · have hbeq : ((mkBareRouter n area).id == n) = true := by
      simp [mkBareRouter]
    rw [if_pos hbeq] at hx ⊢
    rcases mem_of_pushIfAbsent (show x ∈ pushIfAbsent rid (mkBareRouter n area).neighbors from hx) with h1 | rfl
    · cases h1
    · exact Or.inr ⟨rfl, rfl⟩

theorem closureAdd_fold (rid area : String) (ns : List String) :
    ∀ m0, (idsR m0).Nodup →
      RGrow m0 (ns.foldl (closureAdd rid area) m0) ∧
      (idsR (ns.foldl (closureAdd rid area) m0)).Nodup ∧
      (∀ n ∈ ns, SymPair (ns.foldl (closureAdd rid area) m0) rid n) ∧
      (∀ r' ∈ ns.foldl (closureAdd rid area) m0, ∀ x ∈ r'.neighbors,
        (∃ r0 ∈ m0, r0.id = r'.id ∧ x ∈ r0.neighbors) ∨
          (x = rid ∧ r'.id ∈ ns)) := by
  induction ns with
  | nil =>
    intro m0 hnd
    exact ⟨RGrow.refl m0, hnd, (by intro n hn; cases hn),
      fun r' hr' x hx => Or.inl ⟨r', hr', rfl, hx⟩⟩
  | cons n tl ih =>
    intro m0 hnd
    rw [List.foldl_cons]
    obtain ⟨g, nd, sym, org⟩ := ih (closureAdd rid area m0 n)
      (nodup_closureAdd rid area n hnd)
    refine ⟨RGrow.trans (RGrow_closureAdd rid area m0 n) g, nd, ?_, ?_⟩
    · intro n' hn'
      rcases List.mem_cons.mp hn' with rfl | hmem
      · exact SymPair_of_RGrow g (closureAdd_sym rid area m0 n')
      · exact sym n' hmem
    · intro r' hr' x hx
      rcases org r' hr' x hx with ⟨r1, hr1, hid1, hx1⟩ | ⟨rfl, hin⟩
      · rcases closureAdd_origin rid area m0 n r1 hr1 x hx1 with
          ⟨r0, hr0, hid0, hx0⟩ | ⟨rfl, hidn⟩
        · exact Or.inl ⟨r0, hr0, hid0.trans hid1, hx0⟩
        · exact Or.inr ⟨rfl, by rw [← hid1, hidn]; exact List.mem_cons_self _ _⟩
      · exact Or.inr ⟨rfl, List.mem_cons_of_mem _ hin⟩

theorem closureStep_props (m : List OSPFRouter) (rid : String)
    (hnd : (idsR m).Nodup) :
    RGrow m (closureStep m rid) ∧ (idsR (closureStep m rid)).Nodup ∧
    (∀ r, findR m rid = some r →
      ∀ n ∈ r.neighbors, SymPair (closureStep m rid) rid n) ∧
    (∀ r' ∈ closureStep m rid, ∀ x ∈ r'.neighbors,
      (∃ r0 ∈ m, r0.id = r'.id ∧ x ∈ r0.neighbors) ∨
        (x = rid ∧ ∃ r, findR m rid = some r ∧ r'.id ∈ r.neighbors)) := by
  unfold closureStep
  cases hf : findR m rid with
  | none =>
    dsimp only
    exact ⟨RGrow.refl m, hnd,
      (by intro r hr; cases hr),
      fun r' hr' x hx => Or.inl ⟨r', hr', rfl, hx⟩⟩
  | some r =>
    dsimp only
    obtain ⟨g, nd, sym, org⟩ := closureAdd_fold rid r.area r.neighbors m hnd
    refine ⟨g, nd, ?_, ?_⟩
    · intro r0 hr0
      have hr0e : r = r0 := Option.some.inj hr0
      subst hr0e
      exact sym
    · intro r' hr' x hx
      rcases org r' hr' x hx with h | ⟨rfl, hin⟩
      · exact Or.inl h
      · exact Or.inr ⟨rfl, r, rfl, hin⟩

theorem closurePass_core (todo : List String) :
    ∀ m, (idsR m).Nodup →
      (∀ X ∈ m, ∀ n ∈ X.neighbors, SymPair m X.id n ∨ X.id ∈ todo) →
      SymOK (todo.foldl closureStep m) ∧
      RGrow m (todo.foldl closureStep m) ∧
      (idsR (todo.foldl closureStep m)).Nodup := by
  induction todo with
  | nil =>
    intro m hnd hsym
    refine ⟨?_, RGrow.refl m, hnd⟩
    intro r hr n hn
    rcases hsym r hr n hn with h | h
    · exact h
    · cases h
  | cons rid rest ih =>
    intro m hnd hsym
    rw [List.foldl_cons]
    obtain ⟨g, nd, estab, org⟩ := closureStep_props m rid hnd
    have side : ∀ X' ∈ closureStep m rid, ∀ n' ∈ X'.neighbors,
        SymPair (closureStep m rid) X'.id n' ∨ X'.id ∈ rest := by
      intro X' hX' n' hn'
      rcases org X' hX' n' hn' with ⟨X, hX, hid, hnX⟩ | ⟨rfl, r, hfr, hin⟩
      · rcases hsym X hX n' hnX with h | h
        · exact Or.inl (hid ▸ SymPair_of_RGrow g h)
        · rcases List.mem_cons.mp h with hXr | hXrest
          · have hfind : findR m rid = some X := by
              rw [← hXr]; exact findR_of_mem hnd hX
            have h2 : SymPair (closureStep m rid) X.id n' := by
              rw [hXr]; exact estab X hfind n' hnX
            exact Or.inl (hid ▸ h2)
          · exact Or.inr (hid ▸ hXrest)
      · obtain ⟨hrm, hrid⟩ := findR_eq_some hfr
        obtain ⟨r2, hr2, hid2, hnb2⟩ := g r hrm
        exact Or.inl ⟨r2, hr2, hid2.trans hrid, hnb2 _ hin⟩
    obtain ⟨hok, g2, nd2⟩ := ih (closureStep m rid) nd side
    exact ⟨hok, RGrow.trans g g2, nd2⟩

theorem closurePass_props (m : List OSPFRouter) (hnd : (idsR m).Nodup) :
    SymOK (closurePass m) ∧ RGrow m (closurePass m) ∧
      (idsR (closurePass m)).Nodup := by
  unfold closurePass
  apply closurePass_core (m.map (fun r => r.id)) m hnd
  intro X hX n _
  exact Or.inr (List.mem_map.mpr ⟨X, hX, rfl⟩)

theorem SymOK_updEnsure (m : List OSPFRouter) (adv area : String)
    (f : OSPFRouter → OSPFRouter) (hid : ∀ r, (f r).id = r.id)
    (hnb : ∀ r, (f r).neighbors = r.neighbors)
    (h : SymOK m) : SymOK (updR (ensureRouter m adv area) adv f) := by
  have grow : RGrow m (updR (ensureRouter m adv area) adv f) :=
    RGrow.trans (RGrow_ensureRouter m adv area)
      (RGrow_updR _ _ _ hid (fun r y hy => (hnb r).symm ▸ hy))
  intro r' hr' n hn
  obtain ⟨q, hq, rfl⟩ := mem_of_updR hr'
  rcases mem_ensureRouter_cases hq with hqm | rfl
  · have hnbq : (if q.id == adv then f q else q).neighbors = q.neighbors := by
      split_ifs with hc
      · exact hnb q
      · rfl
    have hidq : (if q.id == adv then f q else q).id = q.id := by
      split_ifs with hc
      · exact hid q
      · rfl
    rw [hnbq] at hn
    rw [hidq]
    exact SymPair_of_RGrow grow (h q hqm n hn)
  · have hempty : (if (mkBareRouter adv area).id == adv then
        f (mkBareRouter adv area) else mkBareRouter adv area).neighbors = [] := by
      split_ifs with hc
      · rw [hnb]; rfl
      · rfl
    rw [hempty] at hn
    cases hn

theorem SymOK_summaryStep (m : List OSPFRouter) (s : OSPFSummaryRoute)
    (h : SymOK m) : SymOK (summaryStep m s) := by
  unfold summaryStep
  exact SymOK_updEnsure m s.advertisingRouter s.area (summaryUpd s)
    (summaryUpd_id s) (summaryUpd_neighbors s) h

theorem SymOK_externalStep (m : List OSPFRouter) (e : OSPFExternalRoute)
    (h : SymOK m) : SymOK (externalStep m e) := by
  unfold externalStep
  exact SymOK_updEnsure m e.advertisingRouter "0" (externalUpd e)
    (externalUpd_id e) (externalUpd_neighbors e) h

theorem symok_fold {α : Type} (g : List OSPFRouter → α → List OSPFRouter)
    (hg : ∀ m a, SymOK m → SymOK (g m a)) :
    ∀ (l : List α) (m : List OSPFRouter), SymOK m → SymOK (l.foldl g m) := by
  intro l
  induction l with
  | nil => intro m h; exact h
  | cons a tl ih =>
    intro m h
    rw [List.foldl_cons]
    exact ih _ (hg m a h)

theorem nodup_idsR_nil : (idsR ([] : List OSPFRouter)).Nodup := by
  simp [idsR]

theorem assemble_SymOK (rl : List RawRouterLSA) (nl : List RawNetworkLSA)
    (sl : List OSPFSummaryRoute) (el : List OSPFExternalRoute) :
    SymOK (assembleTopology rl nl sl el).routers := by
  unfold assembleTopology
  dsimp only
  apply symok_fold externalStep SymOK_externalStep el
  apply symok_fold summaryStep SymOK_summaryStep sl
  have hnd1 : (idsR (rl.foldl phase1Step ([], [], [])).1).Nodup :=
    nodup_phase1_fold rl ([], [], []) nodup_idsR_nil
  refine (closurePass_props _ ?_).1
  refine nodup_fold_generic
    (fun st : List OSPFRouter × List OSPFNetwork × List OSPFLink × List String => st.1)
    netStep (fun st n h => nodup_netStep st n h) nl _ ?_
  exact nodup_p2p_fold _ _ hnd1

theorem ids_mono_of_RGrow {m m' : List OSPFRouter} (h : RGrow m m')
    {y : String} (hy : y ∈ idsR m) : y ∈ idsR m' := by
  obtain ⟨r, hr, rfl⟩ := mem_idsR.mp hy
  obtain ⟨r', hr', hid, _⟩ := h r hr
  exact mem_idsR.mpr ⟨r', hr', hid⟩

theorem RGrow_summaryStep (m : List OSPFRouter) (s : OSPFSummaryRoute) :
    RGrow m (summaryStep m s) := by
  unfold summaryStep
  exact RGrow.trans (RGrow_ensureRouter m s.advertisingRouter s.area)
    (RGrow_updR _ _ _ (summaryUpd_id s)
      (fun r y hy => (summaryUpd_neighbors s r).symm ▸ hy))

theorem RGrow_externalStep (m : List OSPFRouter) (e : OSPFExternalRoute) :
    RGrow m (externalStep m e) := by
  unfold externalStep
  exact RGrow.trans (RGrow_ensureRouter m e.advertisingRouter "0")
    (RGrow_updR _ _ _ (externalUpd_id e)
      (fun r y hy => (externalUpd_neighbors e r).symm ▸ hy))

theorem mem_addArea_self (a : String) (l : List String) : a ∈ addArea a l := by
  unfold addArea
  split
  · next h => exact List.mem_of_elem_eq_true h
  · exact List.mem_append_right _ (List.mem_singleton.mpr rfl)

theorem mem_addArea_mono {x : String} (a : String) {l : List String}
    (h : x ∈ l) : x ∈ addArea a l := by
  unfold addArea
  split
  · exact h
  · exact List.mem_append_left _ h

theorem mem_insertSorted {x a : String} {l : List String} :
    x ∈ insertSorted a l ↔ x = a ∨ x ∈ l := by
  induction l with
  | nil => simp [insertSorted]
  | cons b tl ih =>
    unfold insertSorted
    split
    · simp [List.mem_cons]
    · simp only [List.mem_cons, ih]
      constructor
      · rintro (rfl | h)
        · exact Or.inr (Or.inl rfl)
        · rcases h with h | h
          · exact Or.inl h
          · exact Or.inr (Or.inr h)
      · rintro (h | h)
        · exact Or.inr (Or.inl h)
        · rcases h with rfl | h
          · exact Or.inl rfl
          · exact Or.inr (Or.inr h)

theorem mem_sortStrings {x : String} {l : List String} :
    x ∈ sortStrings l ↔ x ∈ l := by
  unfold sortStrings
  induction l with
  | nil => simp
  | cons a tl ih =>
    rw [List.foldr_cons, mem_insertSorted, ih, List.mem_cons]

theorem mem_netIds {nm : List OSPFNetwork} {x : String} :
    x ∈ netIds nm ↔ ∃ n ∈ nm, n.id = x := by
  unfold netIds
  exact List.mem_map

theorem mem_setNet_cases {nm : List OSPFNetwork} {n e : OSPFNetwork}
    (h : e ∈ setNet nm n) : e ∈ nm ∨ e = n := by
  unfold setNet at h
  split at h
  · obtain ⟨x, hx, hxe⟩ := List.mem_map.mp h
    by_cases hb : (x.id == n.id) = true
    · rw [if_pos hb] at hxe; exact Or.inr hxe.symm
    · rw [if_neg hb] at hxe; exact Or.inl (hxe ▸ hx)
  · rcases List.mem_append.mp h with h1 | h1
    · exact Or.inl h1
    · exact Or.inr (List.mem_singleton.mp h1)

theorem netIds_setNet_mono {nm : List OSPFNetwork} {y : String}
    (n : OSPFNetwork) (hy : y ∈ netIds nm) : y ∈ netIds (setNet nm n) := by
  unfold setNet
  split
  · obtain ⟨x, hx, rfl⟩ := List.mem_map.mp hy
    by_cases hb : (x.id == n.id) = true
    · have : x.id = n.id := eq_of_beq hb
      rw [this]
      refine List.mem_map.mpr ⟨n, List.mem_map.mpr ⟨x, hx, ?_⟩, rfl⟩
      rw [if_pos hb]
    · refine List.mem_map.mpr ⟨x, List.mem_map.mpr ⟨x, hx, ?_⟩, rfl⟩
      rw [if_neg hb]
  · unfold netIds
    rw [List.map_append]
    exact List.mem_append_left _ hy

theorem netIds_setNet_self (nm : List OSPFNetwork) (n : OSPFNetwork) :
    n.id ∈ netIds (setNet nm n) := by
  unfold setNet
  split
  · next hc =>
    obtain ⟨x, hx, hb⟩ := List.any_eq_true.mp hc
    refine List.mem_map.mpr ⟨n, List.mem_map.mpr ⟨x, hx, ?_⟩, rfl⟩
    rw [if_pos hb]
  · unfold netIds
    rw [List.map_append]
    exact List.mem_append_right _ (by simp)

theorem mem_setP_cases {tbl : List (String × P2P)} {k : String} {v : P2P}
    {e : String × P2P} (h : e ∈ setP tbl k v) : e ∈ tbl ∨ e = (k, v) := by
  unfold setP at h
  split at h
  · obtain ⟨x, hx, hxe⟩ := List.mem_map.mp h
    by_cases hb : (x.1 == k) = true
    · rw [if_pos hb] at hxe; exact Or.inr hxe.symm
    · rw [if_neg hb] at hxe; exact Or.inl (hxe ▸ hx)
  · rcases List.mem_append.mp h with h1 | h1
    · exact Or.inl h1
    · exact Or.inr (List.mem_singleton.mp h1)

theorem findP_mem {tbl : List (String × P2P)} {k : String} {p : P2P}
    (h : findP tbl k = some p) : (k, p) ∈ tbl := by
  unfold findP at h
  cases hf : tbl.find? (fun e => e.1 == k) with
  | none => rw [hf] at h; cases h
  | some e =>
    rw [hf] at h
    have he := List.mem_of_find?_eq_some hf
    have hpred := List.find?_some hf
    have hk : e.1 = k := eq_of_beq hpred
    have hp : e.2 = p := Option.some.inj h
    have he2 : e = (k, p) := Prod.ext hk hp
    exact he2 ▸ he

/-- Every entry of the pending table after phase 1 carries an area that was
registered in the area set. -/
theorem phase1_table_areas (rl : List RawRouterLSA) :
    ∀ st : List OSPFRouter × List String × List (String × P2P),
      (∀ e ∈ st.2.2, e.2.area ∈ st.2.1) →
      ∀ e ∈ (rl.foldl phase1Step st).2.2, e.2.area ∈ (rl.foldl phase1Step st).2.1 := by
  have link_fold : ∀ (rid area : String) (links : List RawLink) (A : List String)
      (mp : List OSPFRouter × List (String × P2P)),
      area ∈ A → (∀ e ∈ mp.2, e.2.area ∈ A) →
      ∀ e ∈ (links.foldl (routerLinkStep rid area) mp).2, e.2.area ∈ A := by
    intro rid area links
    induction links with
    | nil => intro A mp _ hP e he; exact hP e he
    | cons link tl ih =>
      intro A mp hA hP
      rw [List.foldl_cons]
      apply ih A _ hA
      intro e he
      unfold routerLinkStep at he
      cases htype : link.type with
      | p2p =>
        rw [htype] at he
        dsimp only at he
        cases hfind : findP mp.2 (sortJoin rid link.linkId) with
        | some ex =>
          rw [hfind] at he
          rcases mem_setP_cases he with h1 | rfl
          · exact hP e h1
          · have hex := hP _ (findP_mem hfind)
            dsimp only
            split_ifs <;> exact hex
        | none =>
          rw [hfind] at he
          rcases List.mem_append.mp he with h1 | h1
          · exact hP e h1
          · rcases List.mem_singleton.mp h1 with rfl
            exact hA
      | stub =>
        rw [htype] at he
        exact hP e he
      | transit =>
        rw [htype] at he
        exact hP e he
  intro st
  induction rl generalizing st with
  | nil => intro h e he; exact h e he
  | cons lsa tl ih =>
    intro h
    rw [List.foldl_cons]
    apply ih
    unfold phase1Step
    dsimp only
    apply link_fold lsa.routerId lsa.area lsa.links _ _
      (mem_addArea_self lsa.area st.2.1)
    intro e he
    exact mem_addArea_mono lsa.area (h e he)

/-- After materializing the pending table, every link's endpoints are router
ids of the current map and its area was registered. -/
theorem p2p_fold_links (T : List (String × P2P)) (A : List String)
    (hT : ∀ e ∈ T, e.2.area ∈ A) :
    ∀ st : List OSPFRouter × List OSPFLink,
    (∀ l ∈ st.2, l.source ∈ idsR st.1 ∧ l.target ∈ idsR st.1 ∧ l.area ∈ A) →
    ∀ l ∈ (T.foldl p2pStep st).2,
      l.source ∈ idsR (T.foldl p2pStep st).1 ∧
      l.target ∈ idsR (T.foldl p2pStep st).1 ∧ l.area ∈ A := by
  induction T with
  | nil => intro st h; exact h
  | cons e tl ih =>
    intro st h
    rw [List.foldl_cons]
    apply ih (fun x hx => hT x (List.mem_cons_of_mem _ hx))
    intro l hl
    have hmono : ∀ y, y ∈ idsR st.1 → y ∈ idsR (p2pStep st e).1 := by
      intro y hy
      rw [idsR_p2pStep_eq]
      exact idsR_ensureRouter_mono _ _ (idsR_ensureRouter_mono _ _ hy)
    have hsrc : e.2.srcId ∈ idsR (p2pStep st e).1 := by
      rw [idsR_p2pStep_eq]
      exact idsR_ensureRouter_mono _ _ (idsR_ensureRouter_self _ _ _)
    have htgt : e.2.tgtId ∈ idsR (p2pStep st e).1 := by
      rw [idsR_p2pStep_eq]
      exact idsR_ensureRouter_self _ _ _
    have hl2 : l ∈ st.2 ++
        [⟨"p2p-" ++ e.2.srcId ++ "-" ++ e.2.tgtId, e.2.srcId, e.2.tgtId,
          max e.2.srcCost e.2.tgtCost, e.2.srcCost, e.2.tgtCost, .p2p,
          e.2.ifInfo, e.2.area⟩] := hl
    rcases List.mem_append.mp hl2 with h1 | h1
    · obtain ⟨hs, ht, ha⟩ := h l h1
      exact ⟨hmono _ hs, hmono _ ht, ha⟩
    · rcases List.mem_singleton.mp h1 with rfl
      exact ⟨hsrc, htgt, hT e (List.mem_cons_self _ _)⟩

/-- Generic fold invariant. -/
theorem foldl_inv_generic {σ α : Type} (Inv : σ → Prop) (g : σ → α → σ)
    (l : List α) (hstep : ∀ s a, Inv s → Inv (g s a)) :
    ∀ s, Inv s → Inv (l.foldl g s) := by
  induction l with
  | nil => intro s h; exact h
  | cons a tl ih =>
    intro s h
    rw [List.foldl_cons]
    exact ih _ (hstep s a h)

/-- The id list of the router map is untouched by the inner per-attached-
router mutation of phase 3 (beyond the `ensureRouter`). -/
theorem idsR_netInner (ml1 : List OSPFRouter) (ar adv area nid : String) :
    idsR (if (ar == adv) = true then
        updR (updR (ensureRouter ml1 ar area) ar
          (fun r => { r with networks := pushIfAbsent nid r.networks })) ar
          (fun r => if r.lsaTypes.contains networkLSAName then r
            else { r with lsaTypes := r.lsaTypes ++ [networkLSAName] })
      else
        updR (ensureRouter ml1 ar area) ar
          (fun r => { r with networks := pushIfAbsent nid r.networks })) =
    idsR (ensureRouter ml1 ar area) := by
  split
  · rw [idsR_updR (fun r => by split_ifs <;> rfl), idsR_updR (fun r => by rfl)]
  · rw [idsR_updR (fun r => by rfl)]

/-- The phase-3 per-LSA link/network invariant. -/
theorem netStep_inv
    (st : List OSPFRouter × List OSPFNetwork × List OSPFLink × List String)
    (nlsa : RawNetworkLSA)
    (hL : ∀ l ∈ st.2.2.1,
      (l.source ∈ idsR st.1 ∨ l.source ∈ netIds st.2.1) ∧
      l.target ∈ idsR st.1 ∧ l.area ∈ st.2.2.2)
    (hN : ∀ n ∈ st.2.1, n.area ∈ st.2.2.2) :
    (∀ l ∈ (netStep st nlsa).2.2.1,
      (l.source ∈ idsR (netStep st nlsa).1 ∨
        l.source ∈ netIds (netStep st nlsa).2.1) ∧
      l.target ∈ idsR (netStep st nlsa).1 ∧
      l.area ∈ (netStep st nlsa).2.2.2) ∧
    (∀ n ∈ (netStep st nlsa).2.1, n.area ∈ (netStep st nlsa).2.2.2) := by
  unfold netStep
  dsimp only
  constructor
  · apply foldl_inv_generic
      (fun ml : List OSPFRouter × List OSPFLink => ∀ l ∈ ml.2,
        (l.source ∈ idsR ml.1 ∨ l.source ∈ netIds (setNet st.2.1
          ⟨nlsa.linkStateId, nlsa.linkStateId, nlsa.networkMask,
           nlsa.attachedRouters, nlsa.advertisingRouter, nlsa.area⟩)) ∧
        l.target ∈ idsR ml.1 ∧ l.area ∈ addArea nlsa.area st.2.2.2)
      _ nlsa.attachedRouters
    · intro ml ar h
      dsimp only
      intro l hl
      rw [idsR_netInner]
      rcases List.mem_append.mp hl with h1 | h1
      · obtain ⟨hs, ht, ha⟩ := h l h1
        refine ⟨?_, idsR_ensureRouter_mono _ _ ht, ha⟩
        rcases hs with hs | hs
        · exact Or.inl (idsR_ensureRouter_mono _ _ hs)
        · exact Or.inr hs
      · rcases List.mem_singleton.mp h1 with rfl
        exact ⟨Or.inr (netIds_setNet_self st.2.1 _),
          idsR_ensureRouter_self _ _ _,
          mem_addArea_self nlsa.area st.2.2.2⟩
    · intro l hl
      obtain ⟨hs, ht, ha⟩ := hL l hl
      refine ⟨?_, ht, mem_addArea_mono _ ha⟩
      rcases hs with hs | hs
      · exact Or.inl hs
      · exact Or.inr (netIds_setNet_mono _ hs)
  · intro n hn
    rcases mem_setNet_cases hn with h1 | rfl
    · exact mem_addArea_mono _ (hN n h1)
    · exact mem_addArea_self nlsa.area st.2.2.2

theorem net_fold_inv (nl : List RawNetworkLSA) :
    ∀ st : List OSPFRouter × List OSPFNetwork × List OSPFLink × List String,
    (∀ l ∈ st.2.2.1,
      (l.source ∈ idsR st.1 ∨ l.source ∈ netIds st.2.1) ∧
      l.target ∈ idsR st.1 ∧ l.area ∈ st.2.2.2) →
    (∀ n ∈ st.2.1, n.area ∈ st.2.2.2) →
    (∀ l ∈ (nl.foldl netStep st).2.2.1,
      (l.source ∈ idsR (nl.foldl netStep st).1 ∨
        l.source ∈ netIds (nl.foldl netStep st).2.1) ∧
      l.target ∈ idsR (nl.foldl netStep st).1 ∧
      l.area ∈ (nl.foldl netStep st).2.2.2) ∧
    (∀ n ∈ (nl.foldl netStep st).2.1, n.area ∈ (nl.foldl netStep st).2.2.2) := by
  induction nl with
  | nil => intro st hL hN; exact ⟨hL, hN⟩
  | cons nlsa tl ih =>
    intro st hL hN
    rw [List.foldl_cons]
    obtain ⟨hL2, hN2⟩ := netStep_inv st nlsa hL hN
    exact ih _ hL2 hN2

/-- The endpoint/area invariant of the assembled topology: every link's
endpoints are ids of the final router or network arrays, and every area
carried by a Network or a Link is registered in the areas array. -/
theorem assemble_C6 (rl : List RawRouterLSA) (nl : List RawNetworkLSA)
    (sl : List OSPFSummaryRoute) (el : List OSPFExternalRoute) :
    (∀ l ∈ (assembleTopology rl nl sl el).links,
      (l.source ∈ idsR (assembleTopology rl nl sl el).routers ∨
        l.source ∈ netIds (assembleTopology rl nl sl el).networks) ∧
      (l.target ∈ idsR (assembleTopology rl nl sl el).routers ∨
        l.target ∈ netIds (assembleTopology rl nl sl el).networks) ∧
      l.area ∈ (assembleTopology rl nl sl el).areas) ∧
    (∀ n ∈ (assembleTopology rl nl sl el).networks,
      n.area ∈ (assembleTopology rl nl sl el).areas) := by
  unfold assembleTopology
  dsimp only
  have htab := phase1_table_areas rl ([], [], []) (by intro e he; cases he)
  have hlinks2 := p2p_fold_links _ _ htab
    ((rl.foldl phase1Step ([], [], [])).1, []) (by intro l hl; cases hl)
  have hnet := net_fold_inv nl
    (((rl.foldl phase1Step ([], [], [])).2.2.foldl p2pStep
       ((rl.foldl phase1Step ([], [], [])).1, [])).1, [],
     ((rl.foldl phase1Step ([], [], [])).2.2.foldl p2pStep
       ((rl.foldl phase1Step ([], [], [])).1, [])).2,
     (rl.foldl phase1Step ([], [], [])).2.1)
    (by intro l hl
        obtain ⟨hs, ht, ha⟩ := hlinks2 l hl
        exact ⟨Or.inl hs, ht, ha⟩)
    (by intro n hn; cases hn)
  have hnd1 : (idsR (rl.foldl phase1Step ([], [], [])).1).Nodup :=
    nodup_phase1_fold rl ([], [], []) nodup_idsR_nil
  have hnd3 := nodup_fold_generic
    (fun st : List OSPFRouter × List OSPFNetwork × List OSPFLink × List String => st.1)
    netStep (fun st n h => nodup_netStep st n h) nl
    (((rl.foldl phase1Step ([], [], [])).2.2.foldl p2pStep
       ((rl.foldl phase1Step ([], [], [])).1, [])).1, [],
     ((rl.foldl phase1Step ([], [], [])).2.2.foldl p2pStep
       ((rl.foldl phase1Step ([], [], [])).1, [])).2,
     (rl.foldl phase1Step ([], [], [])).2.1)
    (nodup_p2p_fold _ _ hnd1)
  have hgrow4 := (closurePass_props _ hnd3).2.1
  have hgrow5 := rgrow_fold_generic (fun m : List OSPFRouter => m)
    summaryStep (fun m s => RGrow_summaryStep m s) sl
    (closurePass ((nl.foldl netStep
      (((rl.foldl phase1Step ([], [], [])).2.2.foldl p2pStep
         ((rl.foldl phase1Step ([], [], [])).1, [])).1, [],
       ((rl.foldl phase1Step ([], [], [])).2.2.foldl p2pStep
         ((rl.foldl phase1Step ([], [], [])).1, [])).2,
       (rl.foldl phase1Step ([], [], [])).2.1)).1))
  have hgrow6 := rgrow_fold_generic (fun m : List OSPFRouter => m)
    externalStep (fun m e => RGrow_externalStep m e) el
    (sl.foldl summaryStep (closurePass ((nl.foldl netStep
      (((rl.foldl phase1Step ([], [], [])).2.2.foldl p2pStep
         ((rl.foldl phase1Step ([], [], [])).1, [])).1, [],
       ((rl.foldl phase1Step ([], [], [])).2.2.foldl p2pStep
         ((rl.foldl phase1Step ([], [], [])).1, [])).2,
       (rl.foldl phase1Step ([], [], [])).2.1)).1)))
  have hgrow := RGrow.trans hgrow4 (RGrow.trans hgrow5 hgrow6)
  constructor
  · intro l hl
    have hex := dedup_invariant
      (fun l' => ∃ l0 ∈ (nl.foldl netStep
        (((rl.foldl phase1Step ([], [], [])).2.2.foldl p2pStep
           ((rl.foldl phase1Step ([], [], [])).1, [])).1, [],
         ((rl.foldl phase1Step ([], [], [])).2.2.foldl p2pStep
           ((rl.foldl phase1Step ([], [], [])).1, [])).2,
         (rl.foldl phase1Step ([], [], [])).2.1)).2.2.1,
        l'.source = l0.source ∧ l'.target = l0.target ∧ l'.area = l0.area)
      (by rintro ex lx ⟨l0, h0, hs, ht, ha⟩
          exact ⟨l0, h0, by rw [mergeLink_source]; exact hs,
            by rw [mergeLink_target]; exact ht,
            by rw [mergeLink_area]; exact ha⟩)
      _ (fun l0 h0 => ⟨l0, h0, rfl, rfl, rfl⟩) l hl
    obtain ⟨l0, h0, hs, ht, ha⟩ := hex
    obtain ⟨hs3, ht3, ha3⟩ := hnet.1 l0 h0
    refine ⟨?_, ?_, ?_⟩
    · rw [hs]
      rcases hs3 with h | h
      · exact Or.inl (ids_mono_of_RGrow hgrow h)
      · exact Or.inr h
    · rw [ht]
      exact Or.inl (ids_mono_of_RGrow hgrow ht3)
    · rw [ha]
      exact mem_sortStrings.mpr ha3
  · intro n hn
    exact mem_sortStrings.mpr (hnet.2 n hn)

theorem linkFieldStep_metric (f : LinkFields) (line : String) :
    (linkFieldStep f line).metric = metricStep f.metric line := by
  unfold linkFieldStep metricStep effTos effBare
  cases h1 : linkIdMatch (jsTrim line) with
  | some v => simp [h1]
  | none =>
    cases h2 : linkDataMatch (jsTrim line) with
    | some v => simp [h1, h2]
    | none =>
      cases h3 : tosMetricMatch (jsTrim line) with
      | some v => simp [h1, h2, h3]
      | none =>
        cases h4 : bareMetricMatch (jsTrim line) with
        | some v =>
          simp only [h1, h2, h3, h4, Option.isSome_none, Bool.or_self,
            Bool.false_or, if_neg, Bool.false_eq_true, not_false_iff]
          by_cases hm : (f.metric == 0) = true <;> simp [hm]
        | none => simp [h1, h2, h3, h4]

theorem foldl_linkFieldStep_metric (body : List String) :
    ∀ f, (body.foldl linkFieldStep f).metric = body.foldl metricStep f.metric := by
  induction body with
  | nil => intro f; rfl
  | cons l ls ih =>
    intro f
    simp only [List.foldl_cons]
    rw [ih, linkFieldStep_metric]

theorem foldl_metricStep_char (body : List String) :
    ∀ m, body.foldl metricStep m =
      match lastTosSplit body with
      | some (v, rest) => if v == 0 then firstPosBare rest else v
      | none => if m == 0 then firstPosBare body else m := by
  induction body with
  | nil =>
    intro m
    show m = (if (m == 0) = true then firstPosBare [] else m)
    by_cases hm : (m == 0) = true
    · rw [if_pos hm]
      show m = 0
      simpa using hm
    · rw [if_neg hm]
  | cons l ls ih =>
    intro m
    simp only [List.foldl_cons]
    rw [ih]
    cases hT : effTos l with
    | some v =>
      have hstep : metricStep m l = v := by simp [metricStep, hT]
      rw [hstep]
      cases hL : lastTosSplit ls with
      | some r => simp [lastTosSplit, hL]
      | none =>
        simp [lastTosSplit, hL, hT]
    | none =>
      cases hB : effBare l with
      | some w =>
        have hstep : metricStep m l = if m == 0 then w else m := by
          simp [metricStep, hT, hB]
        rw [hstep]
        cases hL : lastTosSplit ls with
        | some r => simp [lastTosSplit, hL, hT]
        | none =>
          simp only [lastTosSplit, hL, hT, firstPosBare, hB]
          by_cases hm : (m == 0) = true
          · by_cases hw : (w == 0) = true
            · simp [hm, hw]
            · simp [hm, hw]
          · simp [hm]
      | none =>
        have hstep : metricStep m l = m := by simp [metricStep, hT, hB]
        rw [hstep]
        cases hL : lastTosSplit ls with
        | some r => simp [lastTosSplit, hL, hT]
        | none => simp [lastTosSplit, firstPosBare, hL, hT, hB]

/-! ### The pending point-to-point cost table as a fold over occurrences -/

theorem routerLinkStep_table_p2p (rid area : String)
    (st : List OSPFRouter × List (String × P2P)) (link : RawLink)
    (h : link.type = LinkKind.p2p) :
    (routerLinkStep rid area st link).2 = occStep st.2 (rid, area, link) := by
  unfold routerLinkStep occStep occKey
  rw [h]

theorem routerLinkStep_table_stub (rid area : String)
    (st : List OSPFRouter × List (String × P2P)) (link : RawLink)
    (h : link.type = LinkKind.stub) :
    (routerLinkStep rid area st link).2 = st.2 := by
  unfold routerLinkStep
  rw [h]

theorem routerLinkStep_table_transit (rid area : String)
    (st : List OSPFRouter × List (String × P2P)) (link : RawLink)
    (h : link.type = LinkKind.transit) :
    (routerLinkStep rid area st link).2 = st.2 := by
  unfold routerLinkStep
  rw [h]

theorem linkFold_table (rid area : String) (links : List RawLink) :
    ∀ st : List OSPFRouter × List (String × P2P),
    (links.foldl (routerLinkStep rid area) st).2 =
      ((links.filter (fun k => k.type == LinkKind.p2p)).map
        (fun k => (rid, area, k))).foldl occStep st.2 := by
  induction links with
  | nil => intro st; rfl
  | cons link tl ih =>
    intro st
    rw [List.foldl_cons, List.filter_cons]
    by_cases h : link.type = LinkKind.p2p
    · have hb : (link.type == LinkKind.p2p) = true := by rw [h]; rfl
      rw [if_pos hb, List.map_cons, List.foldl_cons, ih]
      rw [routerLinkStep_table_p2p rid area st link h]
    · have hb : (link.type == LinkKind.p2p) = true → False := by
        intro hb; exact h (eq_of_beq hb)
      rw [if_neg hb, ih]
      cases hlt : link.type with
      | p2p => exact absurd hlt h
      | stub => rw [routerLinkStep_table_stub rid area st link hlt]
      | transit => rw [routerLinkStep_table_transit rid area st link hlt]

theorem phase1_table (rl : List RawRouterLSA) :
    ∀ st : List OSPFRouter × List String × List (String × P2P),
    (rl.foldl phase1Step st).2.2 = (p2pOcc rl).foldl occStep st.2.2 := by
  induction rl with
  | nil => intro st; rfl
  | cons lsa tl ih =>
    intro st
    rw [List.foldl_cons, ih]
    simp only [p2pOcc, List.foldl_append]
    congr 1
    exact linkFold_table lsa.routerId lsa.area lsa.links
      (routerLSARouterUpsert st.1 lsa, st.2.2)

theorem bool_eq_false {b : Bool} (h : ¬ b = true) : b = false := by
  cases b
  · rfl
  · exact absurd rfl h

theorem findP_cons_of_beq_true {e : String × P2P} {K : String}
    (h : (e.1 == K) = true) (es : List (String × P2P)) :
    findP (e :: es) K = some e.2 := by
  simp [findP, List.find?, h]

theorem findP_cons_of_beq_false {e : String × P2P} {K : String}
    (h : (e.1 == K) = false) (es : List (String × P2P)) :
    findP (e :: es) K = findP es K := by
  simp [findP, List.find?, h]

theorem findP_map_set_ne (k : String) (v : P2P) (K : String) (hne : k ≠ K) :
    ∀ tbl : List (String × P2P),
    findP (tbl.map (fun e => if e.1 == k then (k, v) else e)) K =
      findP tbl K := by
  have h1 : (k == K) = false :=
    bool_eq_false (fun h2 => hne (eq_of_beq h2))
  intro tbl
  induction tbl with
  | nil => rfl
  | cons e es ih =>
    rw [List.map_cons]
    by_cases hb : (e.1 == k) = true
    · have he : e.1 = k := eq_of_beq hb
      have h2 : (e.1 == K) = false := by rw [he]; exact h1
      rw [if_pos hb,
        findP_cons_of_beq_false
          (show (((k, v) : String × P2P).1 == K) = false from h1),
        findP_cons_of_beq_false h2, ih]
    · rw [if_neg hb]
      cases hbK : (e.1 == K) with
      | true =>
        rw [findP_cons_of_beq_true hbK, findP_cons_of_beq_true hbK]
      | false =>
        rw [findP_cons_of_beq_false hbK, findP_cons_of_beq_false hbK, ih]

theorem findP_map_set_eq (k : String) (v : P2P) :
    ∀ tbl : List (String × P2P), (findP tbl k).isSome →
    findP (tbl.map (fun e => if e.1 == k then (k, v) else e)) k = some v := by
  intro tbl
  induction tbl with
  | nil => intro h; cases h
  | cons e es ih =>
    intro h
    rw [List.map_cons]
    by_cases hb : (e.1 == k) = true
    · rw [if_pos hb]
      exact findP_cons_of_beq_true
        (show (((k, v) : String × P2P).1 == k) = true from beq_self_eq_true k) _
    · have hbf : (e.1 == k) = false := bool_eq_false hb
      rw [if_neg hb, findP_cons_of_beq_false hbf]
      apply ih
      rw [findP_cons_of_beq_false hbf] at h
      exact h

theorem findP_setP_found (tbl : List (String × P2P)) (k : String) (v : P2P)
    (K : String) (h : (findP tbl k).isSome) :
    findP (setP tbl k v) K = if k = K then some v else findP tbl K := by
  have hf : (tbl.find? (fun e => e.1 == k)).isSome = true := by
    unfold findP at h
    cases hx : tbl.find? (fun e => e.1 == k) with
    | none => rw [hx] at h; cases h
    | some _ => rfl
  unfold setP
  rw [if_pos hf]
  by_cases hk : k = K
  · subst hk
    rw [if_pos rfl]
    exact findP_map_set_eq k v tbl h
  · rw [if_neg hk]
    exact findP_map_set_ne k v K hk tbl

theorem findP_append_of_some {tbl : List (String × P2P)} {K : String}
    {p : P2P} (l2 : List (String × P2P)) (h : findP tbl K = some p) :
    findP (tbl ++ l2) K = some p := by
  induction tbl with
  | nil => cases h
  | cons e es ih =>
    rw [List.cons_append]
    cases hb : (e.1 == K) with
    | true =>
      rw [findP_cons_of_beq_true hb] at h
      rw [findP_cons_of_beq_true hb]
      exact h
    | false =>
      rw [findP_cons_of_beq_false hb] at h
      rw [findP_cons_of_beq_false hb]
      exact ih h

theorem findP_append_of_none {tbl : List (String × P2P)} {K : String}
    (l2 : List (String × P2P)) (h : findP tbl K = none) :
    findP (tbl ++ l2) K = findP l2 K := by
  induction tbl with
  | nil => rfl
  | cons e es ih =>
    rw [List.cons_append]
    cases hb : (e.1 == K) with
    | true => rw [findP_cons_of_beq_true hb] at h; cases h
    | false =>
      rw [findP_cons_of_beq_false hb] at h
      rw [findP_cons_of_beq_false hb]
      exact ih h

theorem findP_occStep (tbl : List (String × P2P))
    (o : String × String × RawLink) (K : String) :
    findP (occStep tbl o) K =
      if occKey o = K then updEntry (findP tbl K) o else findP tbl K := by
  unfold occStep
  cases hf : findP tbl (occKey o) with
  | some ex =>
    have hs : (findP tbl (occKey o)).isSome := by rw [hf]; rfl
    rw [findP_setP_found tbl (occKey o) _ K hs]
    by_cases hk : occKey o = K
    · subst hk
      rw [if_pos rfl, if_pos rfl, hf]
      rfl
    · rw [if_neg hk, if_neg hk]
  | none =>
    by_cases hk : occKey o = K
    · subst hk
      rw [if_pos rfl, hf, findP_append_of_none _ hf,
        findP_cons_of_beq_true
          (show ((((occKey o,
            (⟨o.1, o.2.2.linkId, o.2.2.metric, o.2.2.metric, o.2.2.linkData,
              o.2.1⟩ : P2P))) : String × P2P).1 == occKey o) = true from
            beq_self_eq_true (occKey o))]
      rfl
    · rw [if_neg hk]
      cases hK : findP tbl K with
      | some x => rw [findP_append_of_some _ hK]
      | none =>
        have hb : (occKey o == K) = false :=
          bool_eq_false (fun h2 => hk (eq_of_beq h2))
        rw [findP_append_of_none _ hK,
          findP_cons_of_beq_false
            (show ((((occKey o,
              (⟨o.1, o.2.2.linkId, o.2.2.metric, o.2.2.metric, o.2.2.linkData,
                o.2.1⟩ : P2P))) : String × P2P).1 == K) = false from hb)]
        rfl

theorem findP_occ_fold (K : String) :
    ∀ (occs : List (String × String × RawLink)) (tbl : List (String × P2P)),
    findP (occs.foldl occStep tbl) K =
      (occs.filter (fun o => occKey o == K)).foldl updEntry (findP tbl K) := by
  intro occs
  induction occs with
  | nil => intro tbl; rfl
  | cons o tl ih =>
    intro tbl
    rw [List.foldl_cons, ih, List.filter_cons]
    by_cases hk : occKey o = K
    · have hb : (occKey o == K) = true := by rw [hk]; exact beq_self_eq_true K
      rw [if_pos hb, List.foldl_cons]
      rw [findP_occStep, if_pos hk]
    · have hb : (occKey o == K) = true → False := by
        intro hb; exact hk (eq_of_beq hb)
      rw [if_neg hb]
      rw [findP_occStep, if_neg hk]

theorem occ_fold_entry_key (occs : List (String × String × RawLink)) :
    ∀ tbl : List (String × P2P),
    (∀ e ∈ tbl, e.1 = sortJoin e.2.srcId e.2.tgtId) →
    ∀ e ∈ occs.foldl occStep tbl, e.1 = sortJoin e.2.srcId e.2.tgtId := by
  induction occs with
  | nil => intro tbl h; exact h
  | cons o tl ih =>
    intro tbl h
    rw [List.foldl_cons]
    apply ih
    intro e he
    unfold occStep at he
    cases hf : findP tbl (occKey o) with
    | some ex =>
      rw [hf] at he
      rcases mem_setP_cases he with h1 | rfl
      · exact h e h1
      · have hex := h _ (findP_mem hf)
        dsimp only
        dsimp only at hex
        split_ifs <;> exact hex
    | none =>
      rw [hf] at he
      rcases List.mem_append.mp he with h1 | h1
      · exact h e h1
      · rcases List.mem_singleton.mp h1 with rfl
        rfl

theorem not_mem_keysP_of_findP_none {tbl : List (String × P2P)} {k : String}
    (h : findP tbl k = none) : k ∉ keysP tbl := by
  intro hk
  obtain ⟨e, he, hek⟩ := List.mem_map.mp hk
  unfold findP at h
  cases hx : tbl.find? (fun e => e.1 == k) with
  | some _ => rw [hx] at h; cases h
  | none =>
    have hne := List.find?_eq_none.mp hx e he
    apply hne
    rw [hek]
    exact beq_self_eq_true k

theorem keysP_map_set (tbl : List (String × P2P)) (k : String) (v : P2P) :
    keysP (tbl.map (fun e => if e.1 == k then (k, v) else e)) = keysP tbl := by
  unfold keysP
  rw [List.map_map]
  apply List.map_congr_left
  intro e _
  show (if e.1 == k then (k, v) else e).1 = e.1
  by_cases hb : (e.1 == k) = true
  · rw [if_pos hb]
    exact (eq_of_beq hb).symm
  · rw [if_neg hb]

theorem occStep_keys_nodup (tbl : List (String × P2P))
    (o : String × String × RawLink) (h : (keysP tbl).Nodup) :
    (keysP (occStep tbl o)).Nodup := by
  unfold occStep
  cases hf : findP tbl (occKey o) with
  | some ex =>
    dsimp only
    unfold setP
    have hs : (tbl.find? (fun e => e.1 == occKey o)).isSome = true := by
      unfold findP at hf
      cases hx : tbl.find? (fun e => e.1 == occKey o) with
      | none => rw [hx] at hf; cases hf
      | some _ => rfl
    rw [if_pos hs, keysP_map_set]
    exact h
  | none =>
    unfold keysP
    rw [List.map_append]
    simp only [List.map_cons, List.map_nil]
    have hnm : occKey o ∉ keysP tbl := not_mem_keysP_of_findP_none hf
    rw [List.nodup_append]
    refine ⟨h, List.nodup_singleton _, ?_⟩
    intro x hx hx1
    rcases List.mem_singleton.mp hx1 with rfl
    exact hnm hx

theorem occ_fold_keys_nodup (occs : List (String × String × RawLink))
    (tbl : List (String × P2P)) (h : (keysP tbl).Nodup) :
    (keysP (occs.foldl occStep tbl)).Nodup :=
  foldl_inv_generic (fun t => (keysP t).Nodup) occStep occs
    (fun s a hs => occStep_keys_nodup s a hs) tbl h

theorem findP_self_of_nodup :
    ∀ tbl : List (String × P2P), (keysP tbl).Nodup →
    ∀ e ∈ tbl, findP tbl e.1 = some e.2 := by
  intro tbl
  induction tbl with
  | nil => intro _ e he; cases he
  | cons x xs ih =>
    intro h e he
    simp only [keysP, List.map_cons] at h
    rcases List.mem_cons.mp he with rfl | hm
    · exact findP_cons_of_beq_true (beq_self_eq_true _) _
    · have hx1 : (x.1 == e.1) = false := by
        cases h2 : (x.1 == e.1) with
        | true =>
          exfalso
          apply (List.nodup_cons.mp h).1
          rw [eq_of_beq h2]
          exact List.mem_map_of_mem _ hm
        | false => rfl
      rw [findP_cons_of_beq_false hx1]
      exact ih (List.nodup_cons.mp h).2 e hm

/-! ### Phase 2 materialization and dedup on distinct keys -/

theorem p2p_fold_links_eq (T : List (String × P2P)) :
    ∀ st : List OSPFRouter × List OSPFLink,
    (T.foldl p2pStep st).2 = st.2 ++ T.map linkOfP2P := by
  induction T with
  | nil => intro st; simp
  | cons e tl ih =>
    intro st
    rw [List.foldl_cons, ih, List.map_cons]
    have h2 : (p2pStep st e).2 = st.2 ++ [linkOfP2P e] := rfl
    rw [h2, List.append_assoc]
    rfl

theorem dedupGo_all_new :
    ∀ (ls : List OSPFLink) (seen : List (String × OSPFLink)),
    (ls.map dedupKey).Nodup →
    (∀ e ∈ seen, ∀ l ∈ ls, e.1 ≠ dedupKey l) →
    dedupGo seen ls = seen ++ ls.map (fun l => (dedupKey l, l)) := by
  intro ls
  induction ls with
  | nil => intro seen _ _; simp [dedupGo]
  | cons l tl ih =>
    intro seen hnd hdis
    have hnone : seen.find? (fun e => e.1 == dedupKey l) = none := by
      rw [List.find?_eq_none]
      intro e he hb
      exact hdis e he l (List.mem_cons_self l tl) (eq_of_beq hb)
    have hdis2 : ∀ e ∈ seen ++ [(dedupKey l, l)], ∀ l' ∈ tl,
        e.1 ≠ dedupKey l' := by
      intro e he l' hl'
      rcases List.mem_append.mp he with h1 | h1
      · exact hdis e h1 l' (List.mem_cons_of_mem _ hl')
      · rcases List.mem_singleton.mp h1 with rfl
        intro heq
        apply (List.nodup_cons.mp hnd).1
        have heq2 : dedupKey l = dedupKey l' := heq
        rw [heq2]
        exact List.mem_map_of_mem _ hl'
    simp only [dedupGo, hnone]
    rw [ih (seen ++ [(dedupKey l, l)]) (List.Nodup.of_cons hnd) hdis2,
      List.map_cons, List.append_assoc]
    rfl

theorem dedup_of_keys_nodup (ls : List OSPFLink)
    (h : (ls.map dedupKey).Nodup) : dedup ls = ls := by
  unfold dedup
  rw [dedupGo_all_new ls [] h (by intro e he; cases he)]
  rw [List.nil_append, List.map_map]
  have h2 : ((fun e : String × OSPFLink => e.2) ∘
      fun l : OSPFLink => (dedupKey l, l)) = fun l : OSPFLink => l := rfl
  rw [h2]
  exact List.map_id' ls

theorem strAppend_right_cancel {a b c : String} (h : a ++ c = b ++ c) :
    a = b := by
  have hd : a.data ++ c.data = b.data ++ c.data := by
    have h2 := congrArg String.data h
    simpa using h2
  have h3 : a.data = b.data := List.append_cancel_right hd
  cases a with
  | mk da =>
    cases b with
    | mk db =>
      have h4 : da = db := by simpa using h3
      rw [h4]

/-! ### Router-map projections of the phase steps -/

theorem ne_true_of_false {b : Bool} (h : b = false) : ¬ b = true := by
  rw [h]
  exact Bool.false_ne_true

theorem foldl_fst_proj {σ τ α : Type} (step : σ × τ → α → σ × τ)
    (f : σ → α → σ) (hstep : ∀ p a, (step p a).1 = f p.1 a) (l : List α) :
    ∀ p, (l.foldl step p).1 = l.foldl f p.1 := by
  induction l with
  | nil => intro p; rfl
  | cons a tl ih =>
    intro p
    rw [List.foldl_cons, List.foldl_cons, ih, hstep]

theorem routerLinkStep_fst (rid area : String)
    (st : List OSPFRouter × List (String × P2P)) (link : RawLink) :
    (routerLinkStep rid area st link).1 = linkM rid st.1 link := by
  unfold routerLinkStep linkM
  cases link.type <;> rfl

theorem phase1Step_fst
    (st : List OSPFRouter × List String × List (String × P2P))
    (lsa : RawRouterLSA) : (phase1Step st lsa).1 = p1M st.1 lsa := by
  show (lsa.links.foldl (routerLinkStep lsa.routerId lsa.area)
    (routerLSARouterUpsert st.1 lsa, st.2.2)).1 = _
  rw [foldl_fst_proj (routerLinkStep lsa.routerId lsa.area)
    (linkM lsa.routerId)
    (fun p a => by exact routerLinkStep_fst lsa.routerId lsa.area p a)]
  rfl

theorem phase1_fold_fst (rl : List RawRouterLSA) :
    ∀ st, (rl.foldl phase1Step st).1 = rl.foldl p1M st.1 := by
  induction rl with
  | nil => intro st; rfl
  | cons lsa tl ih =>
    intro st
    rw [List.foldl_cons, List.foldl_cons, ih, phase1Step_fst]

theorem p2pStep_fst (st : List OSPFRouter × List OSPFLink)
    (e : String × P2P) : (p2pStep st e).1 = p2pM st.1 e := rfl

theorem p2p_fold_fst (T : List (String × P2P)) :
    ∀ st : List OSPFRouter × List OSPFLink,
    (T.foldl p2pStep st).1 = T.foldl p2pM st.1 :=
  foldl_fst_proj p2pStep p2pM (fun p a => by exact p2pStep_fst p a) T

theorem netStep_fst
    (st : List OSPFRouter × List OSPFNetwork × List OSPFLink × List String)
    (nlsa : RawNetworkLSA) : (netStep st nlsa).1 = netM st.1 nlsa := by
  show (nlsa.attachedRouters.foldl
    (fun (ml : List OSPFRouter × List OSPFLink) ar =>
      let m := ensureRouter ml.1 ar nlsa.area
      let m := updR m ar (fun r =>
        { r with networks := pushIfAbsent nlsa.linkStateId r.networks })
      let m := if ar == nlsa.advertisingRouter then
          updR m ar (fun r =>
            if r.lsaTypes.contains networkLSAName then r
            else { r with lsaTypes := r.lsaTypes ++ [networkLSAName] })
        else m
      (m, ml.2 ++ [⟨"transit-" ++ nlsa.linkStateId ++ "-" ++ ar,
                   nlsa.linkStateId, ar, 0, 0, 0,
                   .transit, "", nlsa.area⟩]))
    (st.1, st.2.2.1)).1 = _
  rw [foldl_fst_proj _
    (netInnerM nlsa.area nlsa.advertisingRouter nlsa.linkStateId)
    (fun p a => by rfl)]
  rfl

theorem net_fold_fst (nl : List RawNetworkLSA) :
    ∀ st : List OSPFRouter × List OSPFNetwork × List OSPFLink × List String,
    (nl.foldl netStep st).1 = nl.foldl netM st.1 :=
  foldl_fst_proj netStep netM (fun p a => by exact netStep_fst p a) nl

/-- The router map of the assembled topology, as a chain of router-map-only
folds. -/
theorem assemble_routers_eq (rl : List RawRouterLSA) (nl : List RawNetworkLSA)
    (sl : List OSPFSummaryRoute) (el : List OSPFExternalRoute) :
    (assembleTopology rl nl sl el).routers =
      el.foldl externalStep (sl.foldl summaryStep (closurePass
        (nl.foldl netM
          (((rl.foldl phase1Step ([], [], [])).2.2).foldl p2pM
            (rl.foldl p1M []))))) := by
  unfold assembleTopology
  dsimp only
  rw [net_fold_fst]
  dsimp only
  rw [p2p_fold_fst]
  dsimp only
  rw [phase1_fold_fst]

/-! ### findR and roleOfM primitives -/

theorem findR_cons_of_beq_true {a : OSPFRouter} {rid : String}
    (h : (a.id == rid) = true) (tl : List OSPFRouter) :
    findR (a :: tl) rid = some a := by
  simp [findR, List.find?, h]

theorem findR_cons_of_beq_false {a : OSPFRouter} {rid : String}
    (h : (a.id == rid) = false) (tl : List OSPFRouter) :
    findR (a :: tl) rid = findR tl rid := by
  simp [findR, List.find?, h]

theorem findR_append_of_some {m : List OSPFRouter} {rid : String}
    {r : OSPFRouter} (l2 : List OSPFRouter) (h : findR m rid = some r) :
    findR (m ++ l2) rid = some r := by
  induction m with
  | nil => cases h
  | cons a tl ih =>
    rw [List.cons_append]
    cases hb : (a.id == rid) with
    | true =>
      rw [findR_cons_of_beq_true hb] at h
      rw [findR_cons_of_beq_true hb]
      exact h
    | false =>
      rw [findR_cons_of_beq_false hb] at h
      rw [findR_cons_of_beq_false hb]
      exact ih h

theorem findR_append_of_none {m : List OSPFRouter} {rid : String}
    (l2 : List OSPFRouter) (h : findR m rid = none) :
    findR (m ++ l2) rid = findR l2 rid := by
  induction m with
  | nil => rfl
  | cons a tl ih =>
    rw [List.cons_append]
    cases hb : (a.id == rid) with
    | true => rw [findR_cons_of_beq_true hb] at h; cases h
    | false =>
      rw [findR_cons_of_beq_false hb] at h
      rw [findR_cons_of_beq_false hb]
      exact ih h

theorem findR_updR (m : List OSPFRouter) (x : String)
    (f : OSPFRouter → OSPFRouter) (hid : ∀ r, (f r).id = r.id)
    (rid : String) :
    findR (updR m x f) rid =
      (findR m rid).map (fun r => if r.id == x then f r else r) := by
  induction m with
  | nil => rfl
  | cons a tl ih =>
    show findR ((if a.id == x then f a else a) :: updR tl x f) rid = _
    by_cases hb : (a.id == rid) = true
    · have hhead : ((if a.id == x then f a else a).id == rid) = true := by
        by_cases hx : (a.id == x) = true
        · rw [if_pos hx, hid]
          exact hb
        · rw [if_neg hx]
          exact hb
      rw [findR_cons_of_beq_true hhead, findR_cons_of_beq_true hb]
      rfl
    · have hbf : (a.id == rid) = false := bool_eq_false hb
      have hhead : ((if a.id == x then f a else a).id == rid) = false := by
        by_cases hx : (a.id == x) = true
        · rw [if_pos hx, hid]
          exact hbf
        · rw [if_neg hx]
          exact hbf
      rw [findR_cons_of_beq_false hhead, findR_cons_of_beq_false hbf]
      exact ih

theorem roleOfM_updR_apply (m : List OSPFRouter) (x : String)
    (f : OSPFRouter → OSPFRouter) (g : RouterRole → RouterRole)
    (hid : ∀ r, (f r).id = r.id) (hfr : ∀ r, (f r).role = g r.role)
    (rid : String) :
    roleOfM (updR m x f) rid =
      if x = rid then (roleOfM m rid).map g else roleOfM m rid := by
  unfold roleOfM
  rw [findR_updR m x f hid rid]
  by_cases hxr : x = rid
  · rw [if_pos hxr]
    cases hf : findR m rid with
    | none => rfl
    | some r =>
      have hbeq : (r.id == x) = true := by
        rw [(findR_eq_some hf).2, hxr]
        exact beq_self_eq_true rid
      show some ((if r.id == x then f r else r).role) = some (g r.role)
      rw [if_pos hbeq, hfr]
  · rw [if_neg hxr]
    cases hf : findR m rid with
    | none => rfl
    | some r =>
      have hbeq : (r.id == x) = false := by
        apply bool_eq_false
        intro hbb
        have h2 : rid = x := ((findR_eq_some hf).2).symm.trans (eq_of_beq hbb)
        exact hxr h2.symm
      show some ((if r.id == x then f r else r).role) = some r.role
      rw [if_neg (ne_true_of_false hbeq)]

theorem option_map_id_role (o : Option RouterRole) :
    o.map (fun r => r) = o := by
  cases o <;> rfl

theorem roleOfM_updR_pres (m : List OSPFRouter) (x : String)
    (f : OSPFRouter → OSPFRouter) (hid : ∀ r, (f r).id = r.id)
    (hrole : ∀ r, (f r).role = r.role) (rid : String) :
    roleOfM (updR m x f) rid = roleOfM m rid := by
  rw [roleOfM_updR_apply m x f (fun t => t) hid (fun r => hrole r) rid]
  split_ifs
  · exact option_map_id_role _
  · rfl

theorem roleOfM_ite_updR (c : Prop) [Decidable c] (m : List OSPFRouter)
    (x : String) (f : OSPFRouter → OSPFRouter)
    (hid : ∀ r, (f r).id = r.id) (hrole : ∀ r, (f r).role = r.role)
    (rid : String) :
    roleOfM (if c then updR m x f else m) rid = roleOfM m rid := by
  split_ifs
  · exact roleOfM_updR_pres m x f hid hrole rid
  · rfl

theorem roleOfM_ensureRouter_of_some {m : List OSPFRouter} {rid : String}
    {r : RouterRole} (x a : String) (h : roleOfM m rid = some r) :
    roleOfM (ensureRouter m x a) rid = some r := by
  unfold ensureRouter
  split
  · exact h
  · unfold roleOfM at h ⊢
    cases hf : findR m rid with
    | none => rw [hf] at h; cases h
    | some q =>
      rw [hf] at h
      rw [findR_append_of_some _ hf]
      exact h

theorem roleOfM_ensureRouter_of_none {m : List OSPFRouter} {rid : String}
    (x a : String) (h : roleOfM m rid = none) :
    roleOfM (ensureRouter m x a) rid =
      if x = rid then some RouterRole.internal else none := by
  have hfn : findR m rid = none := by
    unfold roleOfM at h
    cases hf : findR m rid with
    | none => rfl
    | some q => rw [hf] at h; cases h
  unfold ensureRouter
  by_cases hh : hasR m x = true
  · rw [if_pos hh]
    by_cases hxr : x = rid
    · exfalso
      subst hxr
      unfold hasR at hh
      rw [hfn] at hh
      exact Bool.false_ne_true hh
    · rw [if_neg hxr]
      exact h
  · rw [if_neg hh]
    unfold roleOfM
    rw [findR_append_of_none _ hfn]
    by_cases hxr : x = rid
    · rw [if_pos hxr]
      have hbeq : ((mkBareRouter x a).id == rid) = true := by
        rw [show (mkBareRouter x a).id = x from rfl, hxr]
        exact beq_self_eq_true rid
      rw [findR_cons_of_beq_true hbeq]
      rfl
    · rw [if_neg hxr]
      have hbf : ((mkBareRouter x a).id == rid) = false := by
        apply bool_eq_false
        intro hbb
        exact hxr (eq_of_beq hbb)
      rw [findR_cons_of_beq_false hbf]
      rfl

/-! ### Role effect of the individual mutations -/

theorem promoteRoles_role (lsa : RawRouterLSA) (ex : OSPFRouter) :
    (promoteRoles lsa ex).role =
      promoteStep ex.role (lsa.isABR, lsa.isASBR) := by
  unfold promoteRoles promoteStep
  dsimp only
  split_ifs <;> rfl

theorem upsertUpd_role (lsa : RawRouterLSA) (ex : OSPFRouter) :
    (upsertUpd lsa ex).role =
      promoteStep ex.role (lsa.isABR, lsa.isASBR) := by
  unfold upsertUpd
  rw [fillFreshness_role, addLsaType_role, promoteRoles_role]

theorem createRoleOf_eq (a b : Bool) :
    createRoleOf a b = promoteStep RouterRole.internal (a, b) := by
  cases a <;> cases b <;> rfl

theorem summaryUpd_role (s : OSPFSummaryRoute) (r : OSPFRouter) :
    (summaryUpd s r).role =
      if s.lsaType == type4Name && decide (r.role = RouterRole.internal)
      then RouterRole.abr else r.role := by
  unfold summaryUpd
  dsimp only
  rw [addLsaType_role]
  split_ifs
  · rfl
  · exact addLsaType_role _ _

theorem externalUpd_role (e : OSPFExternalRoute) (r : OSPFRouter) :
    (externalUpd e r).role =
      if decide (r.role = RouterRole.internal) then RouterRole.asbr
      else r.role := by
  unfold externalUpd
  dsimp only
  rw [addLsaType_role]
  split_ifs
  · rfl
  · exact addLsaType_role _ _

theorem roleOfM_append_one_of_none {m : List OSPFRouter} {rid : String}
    (w : OSPFRouter) (h : findR m rid = none) :
    roleOfM (m ++ [w]) rid = if w.id = rid then some w.role else none := by
  unfold roleOfM
  rw [findR_append_of_none _ h]
  by_cases hb : w.id = rid
  · rw [if_pos hb, findR_cons_of_beq_true (beq_iff_eq.mpr hb)]
    rfl
  · rw [if_neg hb,
      findR_cons_of_beq_false (bool_eq_false (fun hbb => hb (eq_of_beq hbb)))]
    rfl

/-! ### Phase 1: role characterization -/

theorem roleOfM_routerLSARouterUpsert (m : List OSPFRouter)
    (lsa : RawRouterLSA) (rid : String) :
    roleOfM (routerLSARouterUpsert m lsa) rid =
      if lsa.routerId = rid then
        some (promoteStep ((roleOfM m rid).getD RouterRole.internal)
          (lsa.isABR, lsa.isASBR))
      else roleOfM m rid := by
  unfold routerLSARouterUpsert
  by_cases hh : hasR m lsa.routerId = true
  · rw [if_pos hh]
    rw [roleOfM_updR_apply m lsa.routerId (upsertUpd lsa)
      (fun t => promoteStep t (lsa.isABR, lsa.isASBR))
      (upsertUpd_id lsa) (fun r => upsertUpd_role lsa r) rid]
    by_cases hxr : lsa.routerId = rid
    · rw [if_pos hxr, if_pos hxr]
      have hsome : ∃ t, roleOfM m rid = some t := by
        unfold hasR at hh
        rw [hxr] at hh
        unfold roleOfM
        cases hf : findR m rid with
        | none => rw [hf] at hh; exact absurd hh (by simp)
        | some q => exact ⟨q.role, rfl⟩
      obtain ⟨t, ht⟩ := hsome
      rw [ht]
      rfl
    · rw [if_neg hxr, if_neg hxr]
  · rw [if_neg hh]
    have hfn : findR m lsa.routerId = none := by
      unfold hasR at hh
      cases hf : findR m lsa.routerId with
      | none => rfl
      | some q => exfalso; apply hh; rw [hf]; rfl
    by_cases hxr : lsa.routerId = rid
    · rw [if_pos hxr]
      have hfn2 : findR m rid = none := by rw [← hxr]; exact hfn
      have hrn : roleOfM m rid = none := by
        unfold roleOfM; rw [hfn2]; rfl
      rw [roleOfM_append_one_of_none _ hfn2, hrn]
      show (if lsa.routerId = rid then
          some (createRoleOf lsa.isABR lsa.isASBR) else none) = _
      rw [if_pos hxr, createRoleOf_eq]
      rfl
    · rw [if_neg hxr]
      cases hf : findR m rid with
      | some q =>
        unfold roleOfM
        rw [findR_append_of_some _ hf, hf]
      | none =>
        rw [roleOfM_append_one_of_none _ hf]
        show (if lsa.routerId = rid then
            some (createRoleOf lsa.isABR lsa.isASBR) else none) = _
        rw [if_neg hxr]
        unfold roleOfM
        rw [hf]
        rfl

theorem roleOfM_linkM (rid0 : String) (m : List OSPFRouter) (k : RawLink)
    (rid : String) : roleOfM (linkM rid0 m k) rid = roleOfM m rid := by
  unfold linkM
  cases k.type with
  | p2p =>
    exact roleOfM_updR_pres m rid0 _ (p2pAuthorUpd_id k)
      (p2pAuthorUpd_role k) rid
  | stub =>
    exact roleOfM_updR_pres m rid0 _ (stubUpd_id k) (stubUpd_role k) rid
  | transit =>
    exact roleOfM_updR_pres m rid0 _ (transitUpd_id k) (transitUpd_role k) rid

theorem roleOfM_linkM_fold (rid0 : String) (links : List RawLink) :
    ∀ m rid, roleOfM (links.foldl (linkM rid0) m) rid = roleOfM m rid := by
  induction links with
  | nil => intro m rid; rfl
  | cons k tl ih =>
    intro m rid
    rw [List.foldl_cons, ih, roleOfM_linkM]

theorem roleOfM_p1M (m : List OSPFRouter) (lsa : RawRouterLSA)
    (rid : String) :
    roleOfM (p1M m lsa) rid =
      if lsa.routerId = rid then
        some (promoteStep ((roleOfM m rid).getD RouterRole.internal)
          (lsa.isABR, lsa.isASBR))
      else roleOfM m rid := by
  unfold p1M
  rw [roleOfM_linkM_fold, roleOfM_routerLSARouterUpsert]

theorem roleOfM_p1M_fold (rl : List RawRouterLSA) :
    ∀ m rid, roleOfM (rl.foldl p1M m) rid =
      (flagsOf rl rid).foldl r1Step (roleOfM m rid) := by
  induction rl with
  | nil => intro m rid; rfl
  | cons lsa tl ih =>
    intro m rid
    rw [List.foldl_cons, ih]
    unfold flagsOf
    rw [List.filterMap_cons]
    by_cases hxr : lsa.routerId = rid
    · have hb : (lsa.routerId == rid) = true := beq_iff_eq.mpr hxr
      simp only [hb, if_true]
      rw [List.foldl_cons]
      have h1 : roleOfM (p1M m lsa) rid =
          r1Step (roleOfM m rid) (lsa.isABR, lsa.isASBR) := by
        rw [roleOfM_p1M, if_pos hxr]
        rfl
      rw [h1]
    · have hb : (lsa.routerId == rid) = false :=
        bool_eq_false (fun hbb => hxr (eq_of_beq hbb))
      simp only [hb, Bool.false_eq_true, if_false]
      have h1 : roleOfM (p1M m lsa) rid = roleOfM m rid := by
        rw [roleOfM_p1M, if_neg hxr]
      rw [h1]

/-! ### Closed forms of the role folds -/

theorem promoteStep_fold_closed :
    ∀ (fls : List (Bool × Bool)) (r : RouterRole),
    fls.foldl promoteStep r =
      if fls.any (fun f => f.2) then RouterRole.asbr
      else if fls.any (fun f => f.1) then
        (if r = RouterRole.internal then RouterRole.abr else r)
      else r := by
  intro fls
  induction fls with
  | nil => intro r; simp
  | cons fl tl ih =>
    intro r
    rw [List.foldl_cons, ih, List.any_cons, List.any_cons]
    rcases fl with ⟨a, b⟩
    cases a <;> cases b <;> cases r <;> simp [promoteStep]

theorem r1Step_fold_some :
    ∀ (fls : List (Bool × Bool)) (r : RouterRole),
    fls.foldl r1Step (some r) = some (fls.foldl promoteStep r) := by
  intro fls
  induction fls with
  | nil => intro r; rfl
  | cons fl tl ih =>
    intro r
    rw [List.foldl_cons, List.foldl_cons]
    exact ih (promoteStep r fl)

theorem r1Step_fold_none_cons (fl : Bool × Bool) (tl : List (Bool × Bool)) :
    (fl :: tl).foldl r1Step none =
      some ((fl :: tl).foldl promoteStep RouterRole.internal) := by
  rw [List.foldl_cons, List.foldl_cons]
  exact r1Step_fold_some tl (promoteStep RouterRole.internal fl)

/-! ### Phases 5 and 6: role characterization -/

theorem roleOfM_summaryStep (m : List OSPFRouter) (s : OSPFSummaryRoute)
    (rid : String) :
    roleOfM (summaryStep m s) rid =
      if s.advertisingRouter = rid then
        s5Step (roleOfM m rid) (s.lsaType == type4Name)
      else roleOfM m rid := by
  unfold summaryStep
  rw [roleOfM_updR_apply _ s.advertisingRouter (summaryUpd s)
    (fun t => if s.lsaType == type4Name && decide (t = RouterRole.internal)
              then RouterRole.abr else t)
    (summaryUpd_id s) (fun r => summaryUpd_role s r) rid]
  by_cases hxr : s.advertisingRouter = rid
  · rw [if_pos hxr, if_pos hxr]
    cases hcur : roleOfM m rid with
    | some t =>
      rw [roleOfM_ensureRouter_of_some _ _ hcur]
      rfl
    | none =>
      rw [roleOfM_ensureRouter_of_none _ _ hcur, if_pos hxr]
      rfl
  · rw [if_neg hxr, if_neg hxr]
    cases hcur : roleOfM m rid with
    | some t => rw [roleOfM_ensureRouter_of_some _ _ hcur]
    | none => rw [roleOfM_ensureRouter_of_none _ _ hcur, if_neg hxr]

theorem roleOfM_externalStep (m : List OSPFRouter) (e : OSPFExternalRoute)
    (rid : String) :
    roleOfM (externalStep m e) rid =
      if e.advertisingRouter = rid then
        e6Step (roleOfM m rid) true
      else roleOfM m rid := by
  unfold externalStep
  rw [roleOfM_updR_apply _ e.advertisingRouter (externalUpd e)
    (fun t => if decide (t = RouterRole.internal) then RouterRole.asbr else t)
    (externalUpd_id e) (fun r => externalUpd_role e r) rid]
  by_cases hxr : e.advertisingRouter = rid
  · rw [if_pos hxr, if_pos hxr]
    cases hcur : roleOfM m rid with
    | some t =>
      rw [roleOfM_ensureRouter_of_some _ _ hcur]
      rfl
    | none =>
      rw [roleOfM_ensureRouter_of_none _ _ hcur, if_pos hxr]
      rfl
  · rw [if_neg hxr, if_neg hxr]
    cases hcur : roleOfM m rid with
    | some t => rw [roleOfM_ensureRouter_of_some _ _ hcur]
    | none => rw [roleOfM_ensureRouter_of_none _ _ hcur, if_neg hxr]

theorem roleOfM_summary_fold (sl : List OSPFSummaryRoute) :
    ∀ m rid, roleOfM (sl.foldl summaryStep m) rid =
      (t4flags sl rid).foldl s5Step (roleOfM m rid) := by
  induction sl with
  | nil => intro m rid; rfl
  | cons s tl ih =>
    intro m rid
    rw [List.foldl_cons, ih]
    unfold t4flags
    rw [List.filterMap_cons]
    by_cases hxr : s.advertisingRouter = rid
    · have hb : (s.advertisingRouter == rid) = true := beq_iff_eq.mpr hxr
      simp only [hb, if_true]
      rw [List.foldl_cons]
      have h1 : roleOfM (summaryStep m s) rid =
          s5Step (roleOfM m rid) (s.lsaType == type4Name) := by
        rw [roleOfM_summaryStep, if_pos hxr]
      rw [h1]
    · have hb : (s.advertisingRouter == rid) = false :=
        bool_eq_false (fun hbb => hxr (eq_of_beq hbb))
      simp only [hb, Bool.false_eq_true, if_false]
      have h1 : roleOfM (summaryStep m s) rid = roleOfM m rid := by
        rw [roleOfM_summaryStep, if_neg hxr]
      rw [h1]

theorem roleOfM_external_fold (el : List OSPFExternalRoute) :
    ∀ m rid, roleOfM (el.foldl externalStep m) rid =
      (e6flags el rid).foldl e6Step (roleOfM m rid) := by
  induction el with
  | nil => intro m rid; rfl
  | cons e tl ih =>
    intro m rid
    rw [List.foldl_cons, ih]
    unfold e6flags
    rw [List.filterMap_cons]
    by_cases hxr : e.advertisingRouter = rid
    · have hb : (e.advertisingRouter == rid) = true := beq_iff_eq.mpr hxr
      simp only [hb, if_true]
      rw [List.foldl_cons]
      have h1 : roleOfM (externalStep m e) rid =
          e6Step (roleOfM m rid) true := by
        rw [roleOfM_externalStep, if_pos hxr]
      rw [h1]
    · have hb : (e.advertisingRouter == rid) = false :=
        bool_eq_false (fun hbb => hxr (eq_of_beq hbb))
      simp only [hb, Bool.false_eq_true, if_false]
      have h1 : roleOfM (externalStep m e) rid = roleOfM m rid := by
        rw [roleOfM_externalStep, if_neg hxr]
      rw [h1]

theorem s5_fold_some :
    ∀ (bs : List Bool) (r : RouterRole),
    bs.foldl s5Step (some r) =
      some (if bs.any (fun b => b) && decide (r = RouterRole.internal)
            then RouterRole.abr else r) := by
  intro bs
  induction bs with
  | nil => intro r; simp
  | cons b tl ih =>
    intro r
    rw [List.foldl_cons]
    have hstep : s5Step (some r) b =
        some (if b && decide (r = RouterRole.internal) then RouterRole.abr
              else r) := rfl
    rw [hstep, ih, List.any_cons]
    cases b <;> cases r <;> simp

theorem s5_fold_none_cons (b : Bool) (tl : List Bool) :
    (b :: tl).foldl s5Step none =
      some (if (b :: tl).any (fun x => x) then RouterRole.abr
            else RouterRole.internal) := by
  rw [List.foldl_cons]
  cases b with
  | true =>
    have h1 : s5Step none true = some RouterRole.abr := rfl
    rw [h1, s5_fold_some]
    simp
  | false =>
    have h1 : s5Step none false = some RouterRole.internal := rfl
    rw [h1, s5_fold_some]
    simp

theorem e6_fold_some :
    ∀ (bs : List Bool) (r : RouterRole),
    bs.foldl e6Step (some r) =
      some (if !bs.isEmpty && decide (r = RouterRole.internal)
            then RouterRole.asbr else r) := by
  intro bs
  induction bs with
  | nil => intro r; simp
  | cons b tl ih =>
    intro r
    rw [List.foldl_cons]
    have hstep : e6Step (some r) b =
        some (if decide (r = RouterRole.internal) then RouterRole.asbr
              else r) := rfl
    rw [hstep, ih]
    cases r <;> simp

theorem e6_fold_none_cons (b : Bool) (tl : List Bool) :
    (b :: tl).foldl e6Step none = some RouterRole.asbr := by
  rw [List.foldl_cons]
  have h1 : e6Step none b = some RouterRole.asbr := rfl
  rw [h1, e6_fold_some]
  simp

/-! ### Translating the filtered flag lists to the any-predicates -/

theorem flagsOf_eq_nil_iff (rl : List RawRouterLSA) (rid : String) :
    flagsOf rl rid = [] ↔ authB rl rid = false := by
  induction rl with
  | nil => simp [flagsOf, authB]
  | cons l tl ih =>
    unfold flagsOf authB at ih ⊢
    rw [List.filterMap_cons, List.any_cons]
    by_cases hb : (l.routerId == rid) = true
    · simp [hb]
    · have hbf : (l.routerId == rid) = false := bool_eq_false hb
      simp [hbf, ih]

theorem flagsOf_any_fst (rl : List RawRouterLSA) (rid : String) :
    (flagsOf rl rid).any (fun f => f.1) = hasABRLsa rl rid := by
  induction rl with
  | nil => rfl
  | cons l tl ih =>
    unfold flagsOf hasABRLsa at ih ⊢
    rw [List.filterMap_cons, List.any_cons]
    by_cases hb : (l.routerId == rid) = true
    · rw [if_pos hb]
      dsimp only
      rw [List.any_cons]
      dsimp only
      rw [ih, hb, Bool.true_and]
    · have hbf : (l.routerId == rid) = false := bool_eq_false hb
      rw [if_neg hb]
      dsimp only
      rw [ih, hbf, Bool.false_and, Bool.false_or]

theorem flagsOf_any_snd (rl : List RawRouterLSA) (rid : String) :
    (flagsOf rl rid).any (fun f => f.2) = hasASBRLsa rl rid := by
  induction rl with
  | nil => rfl
  | cons l tl ih =>
    unfold flagsOf hasASBRLsa at ih ⊢
    rw [List.filterMap_cons, List.any_cons]
    by_cases hb : (l.routerId == rid) = true
    · rw [if_pos hb]
      dsimp only
      rw [List.any_cons]
      dsimp only
      rw [ih, hb, Bool.true_and]
    · have hbf : (l.routerId == rid) = false := bool_eq_false hb
      rw [if_neg hb]
      dsimp only
      rw [ih, hbf, Bool.false_and, Bool.false_or]

theorem t4flags_eq_nil_iff (sl : List OSPFSummaryRoute) (rid : String) :
    t4flags sl rid = [] ↔ sumAdvB sl rid = false := by
  induction sl with
  | nil => simp [t4flags, sumAdvB]
  | cons s tl ih =>
    unfold t4flags sumAdvB at ih ⊢
    rw [List.filterMap_cons, List.any_cons]
    by_cases hb : (s.advertisingRouter == rid) = true
    · simp [hb]
    · have hbf : (s.advertisingRouter == rid) = false := bool_eq_false hb
      simp [hbf, ih]

theorem t4flags_any (sl : List OSPFSummaryRoute) (rid : String) :
    (t4flags sl rid).any (fun b => b) = hasType4B sl rid := by
  induction sl with
  | nil => rfl
  | cons s tl ih =>
    unfold t4flags hasType4B at ih ⊢
    rw [List.filterMap_cons, List.any_cons]
    by_cases hb : (s.advertisingRouter == rid) = true
    · rw [if_pos hb]
      dsimp only
      rw [List.any_cons]
      try dsimp only
      rw [ih, hb, Bool.true_and]
    · have hbf : (s.advertisingRouter == rid) = false := bool_eq_false hb
      rw [if_neg hb]
      try dsimp only
      rw [ih, hbf, Bool.false_and, Bool.false_or]

theorem e6flags_eq_nil_iff (el : List OSPFExternalRoute) (rid : String) :
    e6flags el rid = [] ↔ extAdvB el rid = false := by
  induction el with
  | nil => simp [e6flags, extAdvB]
  | cons e tl ih =>
    unfold e6flags extAdvB at ih ⊢
    rw [List.filterMap_cons, List.any_cons]
    by_cases hb : (e.advertisingRouter == rid) = true
    · simp [hb]
    · have hbf : (e.advertisingRouter == rid) = false := bool_eq_false hb
      simp [hbf, ih]

/-! ### Phases 2-4: role preservation and internal-only creation -/

theorem roleOfM_p2pM_core (m : List OSPFRouter) (e : String × P2P)
    (rid : String) :
    roleOfM (p2pM m e) rid =
      roleOfM (ensureRouter (ensureRouter m e.2.srcId e.2.area)
        e.2.tgtId e.2.area) rid := by
  unfold p2pM
  rw [roleOfM_ite_updR _ _ _ _
      (fun r => by split_ifs <;> rfl)
      (fun r => by split_ifs <;> rfl) rid]
  rw [roleOfM_ite_updR _ _ _ _
      (fun r => by split_ifs <;> rfl)
      (fun r => by split_ifs <;> rfl) rid]
  rw [roleOfM_ite_updR _ _ _ _
      (fun r => by split_ifs <;> rfl)
      (fun r => by split_ifs <;> rfl) rid]
  rw [roleOfM_updR_pres _ _ _ (fun r => by rfl) (fun r => by rfl) rid]
  rw [roleOfM_updR_pres _ _ _ (fun r => by rfl) (fun r => by rfl) rid]

theorem roleOfM_p2pM_of_some {m : List OSPFRouter} {rid : String}
    {t : RouterRole} (e : String × P2P) (h : roleOfM m rid = some t) :
    roleOfM (p2pM m e) rid = some t := by
  rw [roleOfM_p2pM_core]
  exact roleOfM_ensureRouter_of_some _ _ (roleOfM_ensureRouter_of_some _ _ h)

theorem roleOfM_p2pM_of_none {m : List OSPFRouter} {rid : String}
    (e : String × P2P) (h : roleOfM m rid = none) :
    roleOfM (p2pM m e) rid = none ∨
      roleOfM (p2pM m e) rid = some RouterRole.internal := by
  rw [roleOfM_p2pM_core]
  by_cases h1 : e.2.srcId = rid
  · right
    apply roleOfM_ensureRouter_of_some
    rw [roleOfM_ensureRouter_of_none _ _ h, if_pos h1]
  · have h2 : roleOfM (ensureRouter m e.2.srcId e.2.area) rid = none := by
      rw [roleOfM_ensureRouter_of_none _ _ h, if_neg h1]
    by_cases h3 : e.2.tgtId = rid
    · right
      rw [roleOfM_ensureRouter_of_none _ _ h2, if_pos h3]
    · left
      rw [roleOfM_ensureRouter_of_none _ _ h2, if_neg h3]

theorem roleOfM_netInnerM_core (area adv nid : String) (m : List OSPFRouter)
    (ar rid : String) :
    roleOfM (netInnerM area adv nid m ar) rid =
      roleOfM (ensureRouter m ar area) rid := by
  unfold netInnerM
  rw [roleOfM_ite_updR _ _ _ _
      (fun r => by split_ifs <;> rfl)
      (fun r => by split_ifs <;> rfl) rid]
  rw [roleOfM_updR_pres _ _ _ (fun r => by rfl) (fun r => by rfl) rid]

theorem roleOfM_netInnerM_of_some {m : List OSPFRouter} {rid : String}
    {t : RouterRole} (area adv nid ar : String)
    (h : roleOfM m rid = some t) :
    roleOfM (netInnerM area adv nid m ar) rid = some t := by
  rw [roleOfM_netInnerM_core]
  exact roleOfM_ensureRouter_of_some _ _ h

theorem roleOfM_netInnerM_of_none {m : List OSPFRouter} {rid : String}
    (area adv nid ar : String) (h : roleOfM m rid = none) :
    roleOfM (netInnerM area adv nid m ar) rid = none ∨
      roleOfM (netInnerM area adv nid m ar) rid =
        some RouterRole.internal := by
  rw [roleOfM_netInnerM_core]
  by_cases h1 : ar = rid
  · right
    rw [roleOfM_ensureRouter_of_none _ _ h, if_pos h1]
  · left
    rw [roleOfM_ensureRouter_of_none _ _ h, if_neg h1]

theorem roleOfM_fold_some {α : Type}
    (g : List OSPFRouter → α → List OSPFRouter)
    (hg : ∀ m a rid t, roleOfM m rid = some t → roleOfM (g m a) rid = some t)
    (l : List α) :
    ∀ m rid t, roleOfM m rid = some t →
      roleOfM (l.foldl g m) rid = some t := by
  induction l with
  | nil => intro m rid t h; exact h
  | cons a tl ih =>
    intro m rid t h
    rw [List.foldl_cons]
    exact ih _ rid t (hg m a rid t h)

theorem roleOfM_fold_none_int {α : Type}
    (g : List OSPFRouter → α → List OSPFRouter)
    (hgs : ∀ m a rid t, roleOfM m rid = some t → roleOfM (g m a) rid = some t)
    (hgn : ∀ m a rid, roleOfM m rid = none →
      roleOfM (g m a) rid = none ∨
        roleOfM (g m a) rid = some RouterRole.internal)
    (l : List α) :
    ∀ m rid, roleOfM m rid = none →
      roleOfM (l.foldl g m) rid = none ∨
        roleOfM (l.foldl g m) rid = some RouterRole.internal := by
  induction l with
  | nil => intro m rid h; exact Or.inl h
  | cons a tl ih =>
    intro m rid h
    rw [List.foldl_cons]
    rcases hgn m a rid h with h1 | h1
    · exact ih _ rid h1
    · exact Or.inr (roleOfM_fold_some g hgs tl _ rid _ h1)

theorem roleOfM_netM_of_some {m : List OSPFRouter} {rid : String}
    {t : RouterRole} (nlsa : RawNetworkLSA) (h : roleOfM m rid = some t) :
    roleOfM (netM m nlsa) rid = some t := by
  unfold netM
  exact roleOfM_fold_some _
    (fun m' ar rid' t' h' =>
      roleOfM_netInnerM_of_some _ _ _ ar h') _ m rid t h

theorem roleOfM_netM_of_none {m : List OSPFRouter} {rid : String}
    (nlsa : RawNetworkLSA) (h : roleOfM m rid = none) :
    roleOfM (netM m nlsa) rid = none ∨
      roleOfM (netM m nlsa) rid = some RouterRole.internal := by
  unfold netM
  exact roleOfM_fold_none_int _
    (fun m' ar rid' t' h' => roleOfM_netInnerM_of_some _ _ _ ar h')
    (fun m' ar rid' h' => roleOfM_netInnerM_of_none _ _ _ ar h') _ m rid h

theorem roleOfM_closureAdd_core (rid0 area : String) (m : List OSPFRouter)
    (n rid : String) :
    roleOfM (closureAdd rid0 area m n) rid =
      roleOfM (ensureRouter m n area) rid := by
  unfold closureAdd
  rw [roleOfM_updR_pres _ _ _ (fun r => by rfl) (fun r => by rfl) rid]

theorem roleOfM_closureStep_of_some {m : List OSPFRouter} {rid : String}
    {t : RouterRole} (rid0 : String) (h : roleOfM m rid = some t) :
    roleOfM (closureStep m rid0) rid = some t := by
  unfold closureStep
  cases hf : findR m rid0 with
  | none => exact h
  | some r =>
    exact roleOfM_fold_some (closureAdd rid0 r.area)
      (fun m' n rid' t' h' => by
        rw [roleOfM_closureAdd_core]
        exact roleOfM_ensureRouter_of_some _ _ h') r.neighbors m rid t h

theorem roleOfM_closureStep_of_none {m : List OSPFRouter} {rid : String}
    (rid0 : String) (h : roleOfM m rid = none) :
    roleOfM (closureStep m rid0) rid = none ∨
      roleOfM (closureStep m rid0) rid = some RouterRole.internal := by
  unfold closureStep
  cases hf : findR m rid0 with
  | none => exact Or.inl h
  | some r =>
    exact roleOfM_fold_none_int (closureAdd rid0 r.area)
      (fun m' n rid' t' h' => by
        rw [roleOfM_closureAdd_core]
        exact roleOfM_ensureRouter_of_some _ _ h')
      (fun m' n rid' h' => by
        rw [roleOfM_closureAdd_core]
        by_cases hn : n = rid'
        · right
          rw [roleOfM_ensureRouter_of_none _ _ h', if_pos hn]
        · left
          rw [roleOfM_ensureRouter_of_none _ _ h', if_neg hn])
      r.neighbors m rid h

theorem roleOfM_closurePass_of_some {m : List OSPFRouter} {rid : String}
    {t : RouterRole} (h : roleOfM m rid = some t) :
    roleOfM (closurePass m) rid = some t := by
  unfold closurePass
  exact roleOfM_fold_some closureStep
    (fun m' a rid' t' h' => roleOfM_closureStep_of_some a h') _ m rid t h

theorem roleOfM_closurePass_none_int {m : List OSPFRouter} {rid : String}
    (h : roleOfM m rid = none) :
    roleOfM (closurePass m) rid = none ∨
      roleOfM (closurePass m) rid = some RouterRole.internal := by
  unfold closurePass
  exact roleOfM_fold_none_int closureStep
    (fun m' a rid' t' h' => roleOfM_closureStep_of_some a h')
    (fun m' a rid' h' => roleOfM_closureStep_of_none a h') _ m rid h

/-! ### Membership: forward invariant -/

theorem roleOfM_isSome_iff {m : List OSPFRouter} {rid : String} :
    (roleOfM m rid).isSome = true ↔ rid ∈ idsR m := by
  unfold roleOfM
  cases hf : findR m rid with
  | none =>
    constructor
    · intro h; simp at h
    · intro h
      exfalso
      have h2 := hasR_iff.mpr h
      unfold hasR at h2
      rw [hf] at h2
      simp at h2
  | some r =>
    constructor
    · intro _
      exact mem_idsR.mpr ⟨r, (findR_eq_some hf).1, (findR_eq_some hf).2⟩
    · intro _; rfl

theorem roleOfM_eq_none_of_not_mem {m : List OSPFRouter} {rid : String}
    (h : rid ∉ idsR m) : roleOfM m rid = none := by
  cases hc : roleOfM m rid with
  | none => rfl
  | some t =>
    exfalso
    apply h
    apply roleOfM_isSome_iff.mp
    rw [hc]
    rfl

theorem Rinv_updR (S : String → Bool) (m : List OSPFRouter) (x : String)
    (f : OSPFRouter → OSPFRouter) (hid : ∀ r, (f r).id = r.id)
    (hnb : ∀ r, S r.id = true → (∀ n ∈ r.neighbors, S n = true) →
      ∀ n ∈ (f r).neighbors, S n = true)
    (h : Rinv S m) : Rinv S (updR m x f) := by
  intro r' hr'
  obtain ⟨r, hr, rfl⟩ := mem_of_updR hr'
  obtain ⟨h1, h2⟩ := h r hr
  by_cases hb : (r.id == x) = true
  · rw [if_pos hb]
    exact ⟨by rw [hid]; exact h1, hnb r h1 h2⟩
  · rw [if_neg hb]
    exact ⟨h1, h2⟩

theorem Rinv_updR_nbeq (S : String → Bool) (m : List OSPFRouter) (x : String)
    (f : OSPFRouter → OSPFRouter) (hid : ∀ r, (f r).id = r.id)
    (hnbeq : ∀ r, (f r).neighbors = r.neighbors) (h : Rinv S m) :
    Rinv S (updR m x f) :=
  Rinv_updR S m x f hid (fun r _ h2 n hn => h2 n ((hnbeq r) ▸ hn)) h

theorem Rinv_updR_push (S : String → Bool) (m : List OSPFRouter) (x : String)
    (f : OSPFRouter → OSPFRouter) (v : String) (hv : S v = true)
    (hid : ∀ r, (f r).id = r.id)
    (hnbp : ∀ r, (f r).neighbors = pushIfAbsent v r.neighbors)
    (h : Rinv S m) : Rinv S (updR m x f) :=
  Rinv_updR S m x f hid (fun r _ h2 n hn => by
    rw [hnbp r] at hn
    rcases mem_of_pushIfAbsent hn with h3 | rfl
    · exact h2 n h3
    · exact hv) h

theorem Rinv_ensureRouter (S : String → Bool) (m : List OSPFRouter)
    (x a : String) (hx : S x = true) (h : Rinv S m) :
    Rinv S (ensureRouter m x a) := by
  intro r' hr'
  rcases mem_ensureRouter_cases hr' with hm | rfl
  · exact h r' hm
  · exact ⟨hx, fun n hn => absurd hn (List.not_mem_nil n)⟩

theorem Rinv_append_one (S : String → Bool) (m : List OSPFRouter)
    (w : OSPFRouter) (hw : S w.id = true)
    (hwn : ∀ n ∈ w.neighbors, S n = true) (h : Rinv S m) :
    Rinv S (m ++ [w]) := by
  intro r' hr'
  rcases List.mem_append.mp hr' with h1 | h1
  · exact h r' h1
  · rcases List.mem_singleton.mp h1 with rfl
    exact ⟨hw, hwn⟩

theorem Rinv_fold_mem {α : Type} (S : String → Bool)
    (g : List OSPFRouter → α → List OSPFRouter) (P : α → Prop)
    (hstep : ∀ m a, P a → Rinv S m → Rinv S (g m a)) :
    ∀ (l : List α), (∀ a ∈ l, P a) → ∀ m, Rinv S m →
      Rinv S (l.foldl g m) := by
  intro l
  induction l with
  | nil => intro _ m h; exact h
  | cons a tl ih =>
    intro hP m h
    rw [List.foldl_cons]
    exact ih (fun x hx => hP x (List.mem_cons_of_mem _ hx)) _
      (hstep m a (hP a (List.mem_cons_self _ _)) h)

theorem Rinv_linkM (S : String → Bool) (rid0 : String) (m : List OSPFRouter)
    (k : RawLink) (hk : k.type = LinkKind.p2p → S k.linkId = true)
    (h : Rinv S m) : Rinv S (linkM rid0 m k) := by
  unfold linkM
  cases ht : k.type with
  | p2p =>
    exact Rinv_updR_push S m rid0 _ k.linkId (hk ht) (p2pAuthorUpd_id k)
      (p2pAuthorUpd_neighbors k) h
  | stub =>
    exact Rinv_updR_nbeq S m rid0 _ (stubUpd_id k) (stubUpd_neighbors k) h
  | transit =>
    exact Rinv_updR_nbeq S m rid0 _ (transitUpd_id k)
      (transitUpd_neighbors k) h

theorem Rinv_routerLSARouterUpsert (S : String → Bool) (m : List OSPFRouter)
    (lsa : RawRouterLSA) (hauth : S lsa.routerId = true) (h : Rinv S m) :
    Rinv S (routerLSARouterUpsert m lsa) := by
  unfold routerLSARouterUpsert
  split_ifs
  · exact Rinv_updR_nbeq S m lsa.routerId _ (upsertUpd_id lsa)
      (upsertUpd_neighbors lsa) h
  · exact Rinv_append_one S m _ hauth
      (fun n hn => absurd hn (List.not_mem_nil n)) h

theorem Rinv_p1M (S : String → Bool) (m : List OSPFRouter)
    (lsa : RawRouterLSA) (hauth : S lsa.routerId = true)
    (hlinks : ∀ k ∈ lsa.links, k.type = LinkKind.p2p → S k.linkId = true)
    (h : Rinv S m) : Rinv S (p1M m lsa) := by
  unfold p1M
  exact Rinv_fold_mem S (linkM lsa.routerId)
    (fun k => k.type = LinkKind.p2p → S k.linkId = true)
    (fun m' k hk hm => Rinv_linkM S lsa.routerId m' k hk hm)
    lsa.links hlinks _ (Rinv_routerLSARouterUpsert S m lsa hauth h)

theorem Rinv_p2pM (S : String → Bool) (m : List OSPFRouter)
    (e : String × P2P) (hsrc : S e.2.srcId = true) (htgt : S e.2.tgtId = true)
    (h : Rinv S m) : Rinv S (p2pM m e) := by
  unfold p2pM
  dsimp only
  split_ifs
  · apply Rinv_updR_nbeq S _ _ _ (fun r => by split_ifs <;> rfl)
      (fun r => by split_ifs <;> rfl)
    apply Rinv_updR_nbeq S _ _ _ (fun r => by split_ifs <;> rfl)
      (fun r => by split_ifs <;> rfl)
    apply Rinv_updR_nbeq S _ _ _ (fun r => by split_ifs <;> rfl)
      (fun r => by split_ifs <;> rfl)
    apply Rinv_updR_push S _ _ _ e.2.srcId hsrc (fun r => by rfl)
      (fun r => by rfl)
    apply Rinv_updR_push S _ _ _ e.2.tgtId htgt (fun r => by rfl)
      (fun r => by rfl)
    apply Rinv_ensureRouter S _ _ _ htgt
    exact Rinv_ensureRouter S _ _ _ hsrc h
  · apply Rinv_updR_push S _ _ _ e.2.srcId hsrc (fun r => by rfl)
      (fun r => by rfl)
    apply Rinv_updR_push S _ _ _ e.2.tgtId htgt (fun r => by rfl)
      (fun r => by rfl)
    apply Rinv_ensureRouter S _ _ _ htgt
    exact Rinv_ensureRouter S _ _ _ hsrc h

theorem Rinv_netInnerM (S : String → Bool) (area adv nid : String)
    (m : List OSPFRouter) (ar : String) (har : S ar = true) (h : Rinv S m) :
    Rinv S (netInnerM area adv nid m ar) := by
  unfold netInnerM
  dsimp only
  split_ifs
  · apply Rinv_updR_nbeq S _ _ _ (fun r => by split_ifs <;> rfl)
      (fun r => by split_ifs <;> rfl)
    apply Rinv_updR_nbeq S _ _ _ (fun r => by rfl) (fun r => by rfl)
    exact Rinv_ensureRouter S _ _ _ har h
  · apply Rinv_updR_nbeq S _ _ _ (fun r => by rfl) (fun r => by rfl)
    exact Rinv_ensureRouter S _ _ _ har h

theorem Rinv_netM (S : String → Bool) (m : List OSPFRouter)
    (nlsa : RawNetworkLSA)
    (hars : ∀ ar ∈ nlsa.attachedRouters, S ar = true) (h : Rinv S m) :
    Rinv S (netM m nlsa) := by
  unfold netM
  exact Rinv_fold_mem S _ (fun ar => S ar = true)
    (fun m' ar ha hm => Rinv_netInnerM S _ _ _ m' ar ha hm)
    nlsa.attachedRouters hars m h

theorem Rinv_closureAdd (S : String → Bool) (rid0 area : String)
    (m : List OSPFRouter) (n : String) (h0 : S rid0 = true)
    (hn : S n = true) (h : Rinv S m) : Rinv S (closureAdd rid0 area m n) := by
  unfold closureAdd
  apply Rinv_updR_push S _ _ _ rid0 h0 (fun r => by rfl) (fun r => by rfl)
  exact Rinv_ensureRouter S _ _ _ hn h

theorem Rinv_closureStep (S : String → Bool) (m : List OSPFRouter)
    (rid0 : String) (h0 : S rid0 = true) (h : Rinv S m) :
    Rinv S (closureStep m rid0) := by
  unfold closureStep
  cases hf : findR m rid0 with
  | none => exact h
  | some r =>
    exact Rinv_fold_mem S (closureAdd rid0 r.area) (fun n => S n = true)
      (fun m' n hn hm => Rinv_closureAdd S rid0 r.area m' n h0 hn hm)
      r.neighbors ((h r (findR_eq_some hf).1).2) m h

theorem Rinv_closurePass (S : String → Bool) (m : List OSPFRouter)
    (h : Rinv S m) : Rinv S (closurePass m) := by
  unfold closurePass
  exact Rinv_fold_mem S closureStep (fun x => S x = true)
    (fun m' x hx hm => Rinv_closureStep S m' x hx hm)
    (m.map (fun r => r.id))
    (fun x hx => by
      obtain ⟨r, hr, rfl⟩ := List.mem_map.mp hx
      exact (h r hr).1) m h

/-! ### Membership: pending-table endpoints and occurrence facts -/

theorem occ_fold_src_tgt (P Q : String → Prop)
    (occs : List (String × String × RawLink))
    (hPQ : ∀ o ∈ occs, P o.1 ∧ Q o.2.2.linkId) :
    ∀ tbl, (∀ e ∈ tbl, P e.2.srcId ∧ Q e.2.tgtId) →
    ∀ e ∈ occs.foldl occStep tbl, P e.2.srcId ∧ Q e.2.tgtId := by
  induction occs with
  | nil => intro tbl h e he; exact h e he
  | cons o tl ih =>
    intro tbl h
    rw [List.foldl_cons]
    apply ih (fun x hx => hPQ x (List.mem_cons_of_mem _ hx))
    intro e he
    unfold occStep at he
    cases hf : findP tbl (occKey o) with
    | some ex =>
      rw [hf] at he
      rcases mem_setP_cases he with h1 | rfl
      · exact h e h1
      · have hex := h _ (findP_mem hf)
        dsimp only at hex ⊢
        split_ifs <;> exact hex
    | none =>
      rw [hf] at he
      rcases List.mem_append.mp he with h1 | h1
      · exact h e h1
      · rcases List.mem_singleton.mp h1 with rfl
        exact ⟨(hPQ o (List.mem_cons_self _ _)).1,
          (hPQ o (List.mem_cons_self _ _)).2⟩

theorem authB_of_mem {rl : List RawRouterLSA} {lsa : RawRouterLSA}
    (h : lsa ∈ rl) : authB rl lsa.routerId = true := by
  unfold authB
  rw [List.any_eq_true]
  exact ⟨lsa, h, by simp⟩

theorem p2pLinkIdB_of_mem {rl : List RawRouterLSA} {lsa : RawRouterLSA}
    {k : RawLink} (h : lsa ∈ rl) (hk : k ∈ lsa.links)
    (ht : k.type = LinkKind.p2p) : p2pLinkIdB rl k.linkId = true := by
  unfold p2pLinkIdB
  rw [List.any_eq_true]
  refine ⟨lsa, h, ?_⟩
  rw [List.any_eq_true]
  exact ⟨k, hk, by rw [ht]; simp⟩

theorem attachedB_of_mem {nl : List RawNetworkLSA} {n : RawNetworkLSA}
    {ar : String} (h : n ∈ nl) (ha : ar ∈ n.attachedRouters) :
    attachedB nl ar = true := by
  unfold attachedB
  rw [List.any_eq_true]
  refine ⟨n, h, ?_⟩
  rw [List.any_eq_true]
  exact ⟨ar, ha, by simp⟩

theorem p2pOcc_mem {rl : List RawRouterLSA} {o : String × String × RawLink}
    (h : o ∈ p2pOcc rl) :
    authB rl o.1 = true ∧ p2pLinkIdB rl o.2.2.linkId = true := by
  induction rl with
  | nil => cases h
  | cons lsa tl ih =>
    unfold p2pOcc at h
    rcases List.mem_append.mp h with h1 | h1
    · obtain ⟨k, hk, rfl⟩ := List.mem_map.mp h1
      have hk2 := List.mem_filter.mp hk
      constructor
      · exact authB_of_mem (List.mem_cons_self lsa tl)
      · exact p2pLinkIdB_of_mem (List.mem_cons_self lsa tl) hk2.1
          (eq_of_beq hk2.2)
    · obtain ⟨ha, hp⟩ := ih h1
      constructor
      · unfold authB at ha ⊢
        rw [List.any_cons, ha, Bool.or_true]
      · unfold p2pLinkIdB at hp ⊢
        rw [List.any_cons, hp, Bool.or_true]

/-! ### Membership: presence of the expected ids -/

theorem foldl_estab {α : Type} (g : List OSPFRouter → α → List OSPFRouter)
    (P : List OSPFRouter → Prop) (hpres : ∀ m a, P m → P (g m a)) (a : α)
    (hest : ∀ m, P (g m a)) :
    ∀ (l : List α) (m : List OSPFRouter), a ∈ l → P (l.foldl g m) := by
  intro l
  induction l with
  | nil => intro m h; cases h
  | cons x tl ih =>
    intro m h
    rw [List.foldl_cons]
    rcases List.mem_cons.mp h with rfl | hm
    · exact foldl_inv_generic P g tl (fun s b hs => hpres s b hs) _ (hest m)
    · exact ih _ hm

theorem isSome_of_some {m : List OSPFRouter} {rid : String}
    {t : RouterRole} (h : roleOfM m rid = some t) :
    (roleOfM m rid).isSome = true := by
  rw [h]
  rfl

theorem presence_netM_fold {nl : List RawNetworkLSA} {rid : String}
    (hat : attachedB nl rid = true) :
    ∀ m, (roleOfM (nl.foldl netM m) rid).isSome = true := by
  unfold attachedB at hat
  rw [List.any_eq_true] at hat
  obtain ⟨n0, hn0, har⟩ := hat
  rw [List.any_eq_true] at har
  obtain ⟨ar0, har0, hba⟩ := har
  have har0eq : ar0 = rid := eq_of_beq hba
  intro m
  refine foldl_estab netM (fun m' => (roleOfM m' rid).isSome = true)
    ?_ n0 ?_ nl m hn0
  · intro m' a hm'
    rw [Option.isSome_iff_exists] at hm'
    obtain ⟨t, ht⟩ := hm'
    exact isSome_of_some (roleOfM_netM_of_some a ht)
  · intro m'
    unfold netM
    refine foldl_estab
      (netInnerM n0.area n0.advertisingRouter n0.linkStateId)
      (fun m'' => (roleOfM m'' rid).isSome = true) ?_ ar0 ?_
      n0.attachedRouters m' har0
    · intro m'' a hm''
      rw [Option.isSome_iff_exists] at hm''
      obtain ⟨t, ht⟩ := hm''
      exact isSome_of_some (roleOfM_netInnerM_of_some _ _ _ a ht)
    · intro m''
      cases hc : roleOfM m'' rid with
      | some t =>
        exact isSome_of_some (roleOfM_netInnerM_of_some _ _ _ ar0 hc)
      | none =>
        have h2 : roleOfM
            (netInnerM n0.area n0.advertisingRouter n0.linkStateId m'' ar0)
              rid = some RouterRole.internal := by
          rw [roleOfM_netInnerM_core,
            roleOfM_ensureRouter_of_none _ _ hc, if_pos har0eq]
        exact isSome_of_some h2

/-! ### Growth of the router-map-only steps -/

theorem RGrow_append_one (m : List OSPFRouter) (w : OSPFRouter) :
    RGrow m (m ++ [w]) :=
  fun r hr => ⟨r, List.mem_append_left _ hr, rfl, fun _ hx => hx⟩

theorem RGrow_linkM (rid0 : String) (m : List OSPFRouter) (k : RawLink) :
    RGrow m (linkM rid0 m k) := by
  unfold linkM
  cases k.type with
  | p2p =>
    exact RGrow_updR _ _ _ (p2pAuthorUpd_id k)
      (fun r y hy => by
        rw [p2pAuthorUpd_neighbors]
        exact mem_pushIfAbsent_of_mem hy)
  | stub =>
    exact RGrow_updR _ _ _ (stubUpd_id k)
      (fun r y hy => by rw [stubUpd_neighbors]; exact hy)
  | transit =>
    exact RGrow_updR _ _ _ (transitUpd_id k)
      (fun r y hy => by rw [transitUpd_neighbors]; exact hy)

theorem RGrow_routerLSARouterUpsert (m : List OSPFRouter)
    (lsa : RawRouterLSA) : RGrow m (routerLSARouterUpsert m lsa) := by
  unfold routerLSARouterUpsert
  split_ifs
  · exact RGrow_updR _ _ _ (upsertUpd_id lsa)
      (fun r y hy => by rw [upsertUpd_neighbors]; exact hy)
  · exact RGrow_append_one m _

theorem RGrow_p1M (m : List OSPFRouter) (lsa : RawRouterLSA) :
    RGrow m (p1M m lsa) := by
  unfold p1M
  exact RGrow.trans (RGrow_routerLSARouterUpsert m lsa)
    (rgrow_fold_generic (fun x => x) (linkM lsa.routerId)
      (fun ml a => RGrow_linkM lsa.routerId ml a) lsa.links _)

theorem RGrow_p2pM (m : List OSPFRouter) (e : String × P2P) :
    RGrow m (p2pM m e) := by
  unfold p2pM
  dsimp only
  split_ifs
  · refine RGrow.trans ?_ (RGrow_updR _ _ _
      (fun r => by split_ifs <;> rfl)
      (fun r y hy => by split_ifs <;> exact hy))
    refine RGrow.trans ?_ (RGrow_updR _ _ _
      (fun r => by split_ifs <;> rfl)
      (fun r y hy => by split_ifs <;> exact hy))
    refine RGrow.trans ?_ (RGrow_updR _ _ _
      (fun r => by split_ifs <;> rfl)
      (fun r y hy => by split_ifs <;> exact hy))
    refine RGrow.trans ?_ (RGrow_updR _ _ _ (fun r => by rfl)
      (fun r y hy => by exact mem_pushIfAbsent_of_mem hy))
    refine RGrow.trans ?_ (RGrow_updR _ _ _ (fun r => by rfl)
      (fun r y hy => by exact mem_pushIfAbsent_of_mem hy))
    exact RGrow.trans (RGrow_ensureRouter m e.2.srcId e.2.area)
      (RGrow_ensureRouter _ e.2.tgtId e.2.area)
  · refine RGrow.trans ?_ (RGrow_updR _ _ _ (fun r => by rfl)
      (fun r y hy => by exact mem_pushIfAbsent_of_mem hy))
    refine RGrow.trans ?_ (RGrow_updR _ _ _ (fun r => by rfl)
      (fun r y hy => by exact mem_pushIfAbsent_of_mem hy))
    exact RGrow.trans (RGrow_ensureRouter m e.2.srcId e.2.area)
      (RGrow_ensureRouter _ e.2.tgtId e.2.area)

theorem RGrow_netInnerM (area adv nid : String) (m : List OSPFRouter)
    (ar : String) : RGrow m (netInnerM area adv nid m ar) := by
  unfold netInnerM
  dsimp only
  split_ifs
  · refine RGrow.trans ?_ (RGrow_updR _ _ _
      (fun r => by split_ifs <;> rfl)
      (fun r y hy => by split_ifs <;> exact hy))
    exact RGrow.trans (RGrow_ensureRouter m ar area)
      (RGrow_updR _ _ _ (fun r => by rfl) (fun r y hy => by exact hy))
  · exact RGrow.trans (RGrow_ensureRouter m ar area)
      (RGrow_updR _ _ _ (fun r => by rfl) (fun r y hy => by exact hy))

theorem RGrow_netM (m : List OSPFRouter) (nlsa : RawNetworkLSA) :
    RGrow m (netM m nlsa) := by
  unfold netM
  exact rgrow_fold_generic (fun x => x) _
    (fun ml a => RGrow_netInnerM _ _ _ ml a) _ m

/-! ### The authored p2p target is wired as a neighbor and materialized -/

theorem ids_linkM (rid0 : String) (m : List OSPFRouter) (k : RawLink) :
    idsR (linkM rid0 m k) = idsR m := by
  unfold linkM
  cases k.type with
  | p2p => exact idsR_updR (p2pAuthorUpd_id k)
  | stub => exact idsR_updR (stubUpd_id k)
  | transit => exact idsR_updR (transitUpd_id k)

theorem symPair_linkM_est (rid0 : String) (m : List OSPFRouter) (k : RawLink)
    (ht : k.type = LinkKind.p2p) (hpres : rid0 ∈ idsR m) :
    SymPair (linkM rid0 m k) k.linkId rid0 := by
  have hlm : linkM rid0 m k = updR m rid0 (p2pAuthorUpd k) := by
    unfold linkM
    rw [ht]
  rw [hlm]
  obtain ⟨r, hr, hid⟩ := mem_idsR.mp hpres
  have hbeq : (r.id == rid0) = true := beq_iff_eq.mpr hid
  refine ⟨if r.id == rid0 then p2pAuthorUpd k r else r,
    mem_updR rid0 _ hr, ?_, ?_⟩
  · rw [if_pos hbeq, p2pAuthorUpd_id]
    exact hid
  · rw [if_pos hbeq, p2pAuthorUpd_neighbors]
    exact mem_pushIfAbsent_self k.linkId r.neighbors

theorem symPair_p1M_est (m : List OSPFRouter) (lsa : RawRouterLSA)
    (k : RawLink) (hk : k ∈ lsa.links) (ht : k.type = LinkKind.p2p) :
    SymPair (p1M m lsa) k.linkId lsa.routerId := by
  unfold p1M
  have hpres : lsa.routerId ∈ idsR (routerLSARouterUpsert m lsa) := by
    rw [idsR_routerLSARouterUpsert]
    split_ifs with hc
    · exact hasR_iff.mp hc
    · exact List.mem_append_right _ (List.mem_singleton.mpr rfl)
  have main : ∀ (links : List RawLink) (m0 : List OSPFRouter), k ∈ links →
      lsa.routerId ∈ idsR m0 →
      SymPair (links.foldl (linkM lsa.routerId) m0) k.linkId
        lsa.routerId := by
    intro links
    induction links with
    | nil => intro m0 hkk; cases hkk
    | cons x tl ih =>
      intro m0 hkk hpr
      rw [List.foldl_cons]
      rcases List.mem_cons.mp hkk with rfl | hmem
      · apply SymPair_of_RGrow (rgrow_fold_generic (fun y => y) _
          (fun ml a => RGrow_linkM lsa.routerId ml a) tl _)
        exact symPair_linkM_est lsa.routerId m0 k ht hpr
      · exact ih _ hmem (by rw [ids_linkM]; exact hpr)
  exact main lsa.links _ hk hpres

theorem symPair_p1M_fold (rl : List RawRouterLSA) (lsa : RawRouterLSA)
    (k : RawLink) (hlsa : lsa ∈ rl) (hk : k ∈ lsa.links)
    (ht : k.type = LinkKind.p2p) :
    ∀ m, SymPair (rl.foldl p1M m) k.linkId lsa.routerId := by
  induction rl with
  | nil => cases hlsa
  | cons x tl ih =>
    intro m
    rw [List.foldl_cons]
    rcases List.mem_cons.mp hlsa with rfl | hmem
    · apply SymPair_of_RGrow (rgrow_fold_generic (fun y => y) p1M
        (fun ml a => RGrow_p1M ml a) tl _)
      exact symPair_p1M_est m lsa k hk ht
    · exact ih hmem _

theorem nodup_m3_map (rl : List RawRouterLSA) (nl : List RawNetworkLSA) :
    (idsR (nl.foldl netM
      (((rl.foldl phase1Step ([], [], [])).2.2).foldl p2pM
        (rl.foldl p1M [])))).Nodup := by
  have h1 : rl.foldl p1M ([] : List OSPFRouter) =
      (rl.foldl phase1Step ([], [], [])).1 :=
    (phase1_fold_fst rl ([], [], [])).symm
  have h2 : ((rl.foldl phase1Step ([], [], [])).2.2).foldl p2pM
      (rl.foldl p1M []) =
      (((rl.foldl phase1Step ([], [], [])).2.2).foldl p2pStep
        ((rl.foldl phase1Step ([], [], [])).1, [])).1 := by
    rw [p2p_fold_fst, h1]
  have h3 : nl.foldl netM
      (((rl.foldl phase1Step ([], [], [])).2.2).foldl p2pM
        (rl.foldl p1M [])) =
      (nl.foldl netStep
        ((((rl.foldl phase1Step ([], [], [])).2.2).foldl p2pStep
          ((rl.foldl phase1Step ([], [], [])).1, [])).1,
          [], [], [])).1 := by
    rw [net_fold_fst, h2]
  rw [h3]
  refine nodup_fold_generic
    (fun st : List OSPFRouter × List OSPFNetwork × List OSPFLink ×
      List String => st.1)
    netStep (fun st n h => nodup_netStep st n h) nl _ ?_
  exact nodup_p2p_fold _ _ (nodup_phase1_fold rl ([], [], []) nodup_idsR_nil)

theorem presence_p2p (rl : List RawRouterLSA) (nl : List RawNetworkLSA)
    {rid : String} (hp : p2pLinkIdB rl rid = true) :
    (roleOfM (closurePass (nl.foldl netM
      (((rl.foldl phase1Step ([], [], [])).2.2).foldl p2pM
        (rl.foldl p1M [])))) rid).isSome = true := by
  unfold p2pLinkIdB at hp
  rw [List.any_eq_true] at hp
  obtain ⟨lsa, hlsa, hlk⟩ := hp
  rw [List.any_eq_true] at hlk
  obtain ⟨k, hk, hkt⟩ := hlk
  rw [Bool.and_eq_true] at hkt
  have ht : k.type = LinkKind.p2p := eq_of_beq hkt.1
  have hkid : k.linkId = rid := eq_of_beq hkt.2
  have hsym1 : SymPair (rl.foldl p1M ([] : List OSPFRouter)) k.linkId
      lsa.routerId := symPair_p1M_fold rl lsa k hlsa hk ht []
  have hg2 : RGrow (rl.foldl p1M ([] : List OSPFRouter))
      (((rl.foldl phase1Step ([], [], [])).2.2).foldl p2pM
        (rl.foldl p1M [])) :=
    rgrow_fold_generic (fun y => y) p2pM (fun ml a => RGrow_p2pM ml a) _ _
  have hg3 : RGrow (((rl.foldl phase1Step ([], [], [])).2.2).foldl p2pM
      (rl.foldl p1M []))
      (nl.foldl netM (((rl.foldl phase1Step ([], [], [])).2.2).foldl p2pM
        (rl.foldl p1M []))) :=
    rgrow_fold_generic (fun y => y) netM (fun ml a => RGrow_netM ml a) _ _
  obtain ⟨hok, hg4, _⟩ := closurePass_props _ (nodup_m3_map rl nl)
  have hsym4 : SymPair (closurePass (nl.foldl netM
      (((rl.foldl phase1Step ([], [], [])).2.2).foldl p2pM
        (rl.foldl p1M [])))) k.linkId lsa.routerId :=
    SymPair_of_RGrow hg4
      (SymPair_of_RGrow hg3 (SymPair_of_RGrow hg2 hsym1))
  obtain ⟨q, hq, hqid, hqn⟩ := hsym4
  obtain ⟨p, hpm, hpid, _⟩ := hok q hq k.linkId hqn
  rw [roleOfM_isSome_iff]
  rw [← hkid]
  exact mem_idsR.mpr ⟨p, hpm, hpid⟩

/-! ### The router map after phase 4, closed form -/

theorem roleOfM_M4 (rl : List RawRouterLSA) (nl : List RawNetworkLSA)
    (rid : String) :
    roleOfM (closurePass (nl.foldl netM
      (((rl.foldl phase1Step ([], [], [])).2.2).foldl p2pM
        (rl.foldl p1M [])))) rid =
      if authB rl rid = true then
        some (if hasASBRLsa rl rid = true then RouterRole.asbr
              else if hasABRLsa rl rid = true then RouterRole.abr
              else RouterRole.internal)
      else if p2pLinkIdB rl rid || attachedB nl rid then
        some RouterRole.internal
      else none := by
  have h1 : roleOfM (rl.foldl p1M ([] : List OSPFRouter)) rid =
      (flagsOf rl rid).foldl r1Step none :=
    roleOfM_p1M_fold rl [] rid
  by_cases hauth : authB rl rid = true
  · rw [if_pos hauth]
    cases hfl : flagsOf rl rid with
    | nil =>
      exfalso
      rw [flagsOf_eq_nil_iff] at hfl
      rw [hauth] at hfl
      exact Bool.noConfusion hfl
    | cons fl tl =>
      have hval : roleOfM (rl.foldl p1M ([] : List OSPFRouter)) rid =
          some (if hasASBRLsa rl rid = true then RouterRole.asbr
                else if hasABRLsa rl rid = true then RouterRole.abr
                else RouterRole.internal) := by
        rw [h1, hfl, r1Step_fold_none_cons, promoteStep_fold_closed,
          ← hfl, flagsOf_any_fst, flagsOf_any_snd]
        rfl
      have hv2 := roleOfM_closurePass_of_some
        (roleOfM_fold_some netM
          (fun m' a rid' t' h' => roleOfM_netM_of_some a h') nl
          (((rl.foldl phase1Step ([], [], [])).2.2).foldl p2pM
            (rl.foldl p1M [])) rid _
          (roleOfM_fold_some p2pM
            (fun m' a rid' t' h' => roleOfM_p2pM_of_some a h')
            ((rl.foldl phase1Step ([], [], [])).2.2)
            (rl.foldl p1M []) rid _ hval))
      rw [hv2]
  · rw [if_neg hauth]
    have hfl : flagsOf rl rid = [] := by
      rw [flagsOf_eq_nil_iff]
      exact bool_eq_false hauth
    have hnone1 : roleOfM (rl.foldl p1M ([] : List OSPFRouter)) rid =
        none := by
      rw [h1, hfl]
      rfl
    by_cases hmem : (p2pLinkIdB rl rid || attachedB nl rid) = true
    · rw [if_pos hmem]
      have hni : roleOfM (closurePass (nl.foldl netM
          (((rl.foldl phase1Step ([], [], [])).2.2).foldl p2pM
            (rl.foldl p1M [])))) rid = none ∨
          roleOfM (closurePass (nl.foldl netM
            (((rl.foldl phase1Step ([], [], [])).2.2).foldl p2pM
              (rl.foldl p1M [])))) rid = some RouterRole.internal := by
        rcases roleOfM_fold_none_int p2pM
            (fun m' a rid' t' h' => roleOfM_p2pM_of_some a h')
            (fun m' a rid' h' => roleOfM_p2pM_of_none a h') _ _ rid
            hnone1 with h2 | h2
        · rcases roleOfM_fold_none_int netM
              (fun m' a rid' t' h' => roleOfM_netM_of_some a h')
              (fun m' a rid' h' => roleOfM_netM_of_none a h') nl _ rid
              h2 with h3 | h3
          · exact roleOfM_closurePass_none_int h3
          · exact Or.inr (roleOfM_closurePass_of_some h3)
        · exact Or.inr (roleOfM_closurePass_of_some
            (roleOfM_fold_some netM
              (fun m' a rid' t' h' => roleOfM_netM_of_some a h') nl _ rid _
              h2))
      have hpres : (roleOfM (closurePass (nl.foldl netM
          (((rl.foldl phase1Step ([], [], [])).2.2).foldl p2pM
            (rl.foldl p1M [])))) rid).isSome = true := by
        rw [Bool.or_eq_true] at hmem
        rcases hmem with hmp | hma
        · exact presence_p2p rl nl hmp
        · have h4 := presence_netM_fold hma
            (((rl.foldl phase1Step ([], [], [])).2.2).foldl p2pM
              (rl.foldl p1M []))
          rw [Option.isSome_iff_exists] at h4
          obtain ⟨t, ht⟩ := h4
          exact isSome_of_some (roleOfM_closurePass_of_some ht)
      rcases hni with h5 | h5
      · rw [h5] at hpres
        cases hpres
      · exact h5
    · rw [if_neg hmem]
      rw [Bool.or_eq_true] at hmem
      push_neg at hmem
      have hmp : p2pLinkIdB rl rid = false := by
        cases hx : p2pLinkIdB rl rid with
        | false => rfl
        | true => exact absurd hx hmem.1
      have hma : attachedB nl rid = false := by
        cases hx : attachedB nl rid with
        | false => rfl
        | true => exact absurd hx hmem.2
      have hS : Rinv (fun y => authB rl y || p2pLinkIdB rl y ||
          attachedB nl y) (closurePass (nl.foldl netM
            (((rl.foldl phase1Step ([], [], [])).2.2).foldl p2pM
              (rl.foldl p1M [])))) := by
        apply Rinv_closurePass
        apply Rinv_fold_mem _ netM (fun n => n ∈ nl)
          (fun m' n hn hm => Rinv_netM _ m' n
            (fun ar har => by simp [attachedB_of_mem hn har]) hm)
          nl (fun n hn => hn)
        apply Rinv_fold_mem _ p2pM
          (fun e => (authB rl e.2.srcId || p2pLinkIdB rl e.2.srcId ||
              attachedB nl e.2.srcId) = true ∧
            (authB rl e.2.tgtId || p2pLinkIdB rl e.2.tgtId ||
              attachedB nl e.2.tgtId) = true)
          (fun m' e he hm => Rinv_p2pM _ m' e he.1 he.2 hm)
          _ ?_
        · apply Rinv_fold_mem _ p1M (fun lsa => lsa ∈ rl)
            (fun m' lsa hlsa hm => Rinv_p1M _ m' lsa
              (by simp [authB_of_mem hlsa])
              (fun k hk ht => by simp [p2pLinkIdB_of_mem hlsa hk ht]) hm)
            rl (fun lsa hlsa => hlsa)
          intro r hr
          exact absurd hr (List.not_mem_nil r)
        · rw [phase1_table rl ([], [], [])]
          apply occ_fold_src_tgt
            (fun s => (authB rl s || p2pLinkIdB rl s ||
              attachedB nl s) = true)
            (fun s => (authB rl s || p2pLinkIdB rl s ||
              attachedB nl s) = true)
            (p2pOcc rl) ?_ [] (fun e he => absurd he (List.not_mem_nil e))
          intro o ho
          obtain ⟨ha, hp⟩ := p2pOcc_mem ho
          exact ⟨by simp [ha], by simp [hp]⟩
      have hnotmem : rid ∉ idsR (closurePass (nl.foldl netM
          (((rl.foldl phase1Step ([], [], [])).2.2).foldl p2pM
            (rl.foldl p1M [])))) := by
        intro hmemid
        obtain ⟨r, hr, hrid⟩ := mem_idsR.mp hmemid
        have hSr := (hS r hr).1
        rw [hrid] at hSr
        dsimp only at hSr
        rw [bool_eq_false hauth, hmp, hma] at hSr
        simp at hSr
      exact roleOfM_eq_none_of_not_mem hnotmem

/-! ### The final role, closed form -/

theorem hasASBR_imp_auth {rl : List RawRouterLSA} {rid : String}
    (h : hasASBRLsa rl rid = true) : authB rl rid = true := by
  unfold hasASBRLsa at h
  unfold authB
  rw [List.any_eq_true] at h ⊢
  obtain ⟨l, hl, hp⟩ := h
  rw [Bool.and_eq_true] at hp
  exact ⟨l, hl, hp.1⟩

theorem hasABR_imp_auth {rl : List RawRouterLSA} {rid : String}
    (h : hasABRLsa rl rid = true) : authB rl rid = true := by
  unfold hasABRLsa at h
  unfold authB
  rw [List.any_eq_true] at h ⊢
  obtain ⟨l, hl, hp⟩ := h
  rw [Bool.and_eq_true] at hp
  exact ⟨l, hl, hp.1⟩

theorem hasT4_imp_sumAdv {sl : List OSPFSummaryRoute} {rid : String}
    (h : hasType4B sl rid = true) : sumAdvB sl rid = true := by
  unfold hasType4B at h
  unfold sumAdvB
  rw [List.any_eq_true] at h ⊢
  obtain ⟨s, hs, hp⟩ := h
  rw [Bool.and_eq_true] at hp
  exact ⟨s, hs, hp.1⟩

theorem e6flags_isEmpty (el : List OSPFExternalRoute) (rid : String) :
    (e6flags el rid).isEmpty = !extAdvB el rid := by
  cases hf : e6flags el rid with
  | nil =>
    have h := (e6flags_eq_nil_iff el rid).mp hf
    rw [h]
    rfl
  | cons b tlb =>
    have h : extAdvB el rid = true := by
      cases hx : extAdvB el rid with
      | true => rfl
      | false =>
        rw [← e6flags_eq_nil_iff] at hx
        rw [hx] at hf
        cases hf
    rw [h]
    rfl

/-- The role of every id in the assembled topology, as an order-insensitive
closed form over the five record predicates. -/
theorem roleOf_assemble (rl : List RawRouterLSA) (nl : List RawNetworkLSA)
    (sl : List OSPFSummaryRoute) (el : List OSPFExternalRoute)
    (rid : String) :
    roleOfM (assembleTopology rl nl sl el).routers rid =
      if memB rl nl sl el rid = true then some (roleSpec rl sl el rid)
      else none := by
  rw [assemble_routers_eq, roleOfM_external_fold, roleOfM_summary_fold,
    roleOfM_M4]
  by_cases hauth : authB rl rid = true
  · rw [if_pos hauth, s5_fold_some, t4flags_any, e6_fold_some,
      e6flags_isEmpty]
    have hm : memB rl nl sl el rid = true := by
      unfold memB
      rw [hauth]
      rfl
    rw [if_pos hm]
    unfold roleSpec
    simp only [Bool.not_not]
    cases hA : hasASBRLsa rl rid <;> cases hB2 : hasABRLsa rl rid <;>
      cases ht4 : hasType4B sl rid <;> cases hea : extAdvB el rid <;> decide
  · rw [if_neg hauth]
    have hAf : hasASBRLsa rl rid = false := by
      cases hx : hasASBRLsa rl rid with
      | false => rfl
      | true => exact absurd (hasASBR_imp_auth hx) hauth
    have hBf : hasABRLsa rl rid = false := by
      cases hx : hasABRLsa rl rid with
      | false => rfl
      | true => exact absurd (hasABR_imp_auth hx) hauth
    by_cases hpa : (p2pLinkIdB rl rid || attachedB nl rid) = true
    · rw [if_pos hpa, s5_fold_some, t4flags_any, e6_fold_some,
        e6flags_isEmpty]
      have hm : memB rl nl sl el rid = true := by
        unfold memB
        have hpa2 := hpa
        rw [Bool.or_eq_true] at hpa2
        rcases hpa2 with h | h <;> simp [h]
      rw [if_pos hm]
      unfold roleSpec
      rw [hAf, hBf]
      simp only [Bool.not_not]
      cases ht4 : hasType4B sl rid <;> cases hea : extAdvB el rid <;> decide
    · rw [if_neg hpa]
      have hmpf : p2pLinkIdB rl rid = false := by
        cases hx : p2pLinkIdB rl rid with
        | false => rfl
        | true =>
          exact absurd (show (p2pLinkIdB rl rid || attachedB nl rid) = true
            by rw [hx]; rfl) hpa
      have hmaf : attachedB nl rid = false := by
        cases hx : attachedB nl rid with
        | false => rfl
        | true =>
          exact absurd (show (p2pLinkIdB rl rid || attachedB nl rid) = true
            by rw [hx]; simp) hpa
      cases ht4f : t4flags sl rid with
      | nil =>
        have hsum : sumAdvB sl rid = false := (t4flags_eq_nil_iff sl rid).mp
          ht4f
        have ht4 : hasType4B sl rid = false := by
          cases hx : hasType4B sl rid with
          | false => rfl
          | true => exact absurd (hasT4_imp_sumAdv hx) (ne_true_of_false hsum)
        cases he6f : e6flags el rid with
        | nil =>
          have hext : extAdvB el rid = false := (e6flags_eq_nil_iff el
            rid).mp he6f
          have hm : memB rl nl sl el rid = false := by
            unfold memB
            rw [bool_eq_false hauth, hmpf, hmaf, hsum, hext]
            rfl
          rw [if_neg (ne_true_of_false hm)]
          rfl
        | cons b tlb =>
          simp only [List.foldl_nil]
          rw [e6_fold_none_cons]
          have hext : extAdvB el rid = true := by
            cases hx : extAdvB el rid with
            | true => rfl
            | false =>
              rw [← e6flags_eq_nil_iff] at hx
              rw [hx] at he6f
              cases he6f
          have hm : memB rl nl sl el rid = true := by
            unfold memB
            rw [hext]
            simp
          rw [if_pos hm]
          unfold roleSpec
          rw [hAf, hBf, ht4, hext]
          decide
      | cons b4 tl4 =>
        rw [s5_fold_none_cons, ← ht4f, t4flags_any]
        have hsum : sumAdvB sl rid = true := by
          cases hx : sumAdvB sl rid with
          | true => rfl
          | false =>
            rw [← t4flags_eq_nil_iff] at hx
            rw [hx] at ht4f
            cases ht4f
        rw [e6_fold_some, e6flags_isEmpty]
        have hm : memB rl nl sl el rid = true := by
          unfold memB
          rw [hsum]
          simp
        rw [if_pos hm]
        unfold roleSpec
        rw [hAf, hBf]
        simp only [Bool.not_not]
        cases ht4 : hasType4B sl rid <;> cases hea : extAdvB el rid <;> decide

/-! ### Permutation invariance and rank monotonicity -/

theorem any_perm {α : Type} {l l' : List α} (h : l.Perm l') (p : α → Bool) :
    l.any p = l'.any p := by
  cases hx : l.any p with
  | true =>
    rw [List.any_eq_true] at hx
    obtain ⟨x, hm, hp⟩ := hx
    symm
    rw [List.any_eq_true]
    exact ⟨x, h.mem_iff.mp hm, hp⟩
  | false =>
    cases hy : l'.any p with
    | false => rfl
    | true =>
      exfalso
      rw [List.any_eq_true] at hy
      obtain ⟨x, hm, hp⟩ := hy
      have h2 : l.any p = true := List.any_eq_true.mpr
        ⟨x, h.mem_iff.mpr hm, hp⟩
      rw [hx] at h2
      cases h2

theorem roleRank_promoteStep (r : RouterRole) (fl : Bool × Bool) :
    roleRank r ≤ roleRank (promoteStep r fl) := by
  rcases fl with ⟨a, b⟩
  cases r <;> cases a <;> cases b <;> decide

theorem roleRank_s5 (r : RouterRole) (b : Bool) :
    roleRank r ≤ roleRank
      (if b && decide (r = RouterRole.internal) then RouterRole.abr
       else r) := by
  cases r <;> cases b <;> decide

theorem roleRank_e6 (r : RouterRole) :
    roleRank r ≤ roleRank
      (if decide (r = RouterRole.internal) then RouterRole.asbr else r) := by
  cases r <;> decide

/-! ### Claim theorems -/

/-- C9: for every Topology `T`, `diff(T, T)` — comparing a topology to
itself — returns an empty Change list. -/
theorem claim_C9 (T : OSPFTopology) : diffTopologies T T = [] := by
  simp only [diffTopologies]
  rw [filter_not_contains_self, filter_not_contains_self]
  simp only [sortStrings_nil, List.map_nil, List.nil_append, List.append_nil]
  rw [List.append_eq_nil]
  constructor
  · rw [List.filterMap_eq_nil_iff]
    intro i _
    cases h : findRouterT T i with
    | none => rfl
    | some p => simp
  · rw [List.filterMap_eq_nil_iff]
    intro k _
    cases h : findLinkT T k with
    | none => rfl
    | some p => simp

/-- C1: parsing the two reciprocal point-to-point Router LSAs (router
`1.1.1.1`, metric 10, link data `10.0.0.1`; router `2.2.2.2`, metric 20, in
area 0) yields exactly the two Router entities and exactly one
point-to-point Link with directional costs 10 (authored by `1.1.1.1`) and 20
(authored by `2.2.2.2`) and symmetric cost 20, the maximum of the two. -/
theorem claim_C1 :
    ((parseOSPFData c1Input).routers.map (fun r => r.id) =
      ["1.1.1.1", "2.2.2.2"]) ∧
    ((parseOSPFData c1Input).links.map (fun l =>
        (l.source, l.target, l.sourceCost, l.targetCost, l.cost, l.linkType)) =
      [("1.1.1.1", "2.2.2.2", 10, 20, 20, LinkKind.p2p)]) ∧
    (parseOSPFData c1Input).areas = ["0"] := by decide

/-- C6 (amended): in the Topology returned by `parseOSPFData`, every Link's
source and target ids are present as ids in the routers array or the
networks array, and every area string carried by a Network or a Link appears
in the areas array. (A Router created only by Summary/External-LSA
attachment can carry an area absent from the areas array — see the
counterexample — so the Router part of the original area clause is
dropped.) -/
theorem claim_C6 (s : String) :
    (∀ l ∈ (parseOSPFData s).links,
      ((∃ r ∈ (parseOSPFData s).routers, r.id = l.source) ∨
        (∃ n ∈ (parseOSPFData s).networks, n.id = l.source)) ∧
      ((∃ r ∈ (parseOSPFData s).routers, r.id = l.target) ∨
        (∃ n ∈ (parseOSPFData s).networks, n.id = l.target)) ∧
      l.area ∈ (parseOSPFData s).areas) ∧
    (∀ n ∈ (parseOSPFData s).networks, n.area ∈ (parseOSPFData s).areas) := by
  obtain ⟨h1, h2⟩ := assemble_C6 (parseRouterLSAs (parseLines s))
    (parseNetworkLSAs (parseLines s)) (parseSummaryLSAs (parseLines s))
    (parseExternalLSAs (parseLines s))
  constructor
  · intro l hl
    obtain ⟨hs, ht, ha⟩ := h1 l hl
    refine ⟨?_, ?_, ha⟩
    · rcases hs with h | h
      · exact Or.inl (mem_idsR.mp h)
      · exact Or.inr (mem_netIds.mp h)
    · rcases ht with h | h
      · exact Or.inl (mem_idsR.mp h)
      · exact Or.inr (mem_netIds.mp h)
  · exact h2

/-- C7: a Router LSA block with neither marker line creates its router with
role `internal`; with an "Area Border Router" marker the role is `abr`; with
both the "Area Border Router" and "AS Boundary Router" markers the role is
`asbr` (the ASBR indicator wins when both are present). -/
theorem claim_C7 :
    ((parseOSPFData (c7Input "")).routers.map (fun r => (r.id, r.role)) =
      [("3.3.3.3", RouterRole.internal)]) ∧
    ((parseOSPFData (c7Input "  Area Border Router\n")).routers.map
        (fun r => (r.id, r.role)) =
      [("3.3.3.3", RouterRole.abr)]) ∧
    ((parseOSPFData
        (c7Input "  Area Border Router\n  AS Boundary Router\n")).routers.map
        (fun r => (r.id, r.role)) =
      [("3.3.3.3", RouterRole.asbr)]) := by
  refine ⟨by decide, by decide, by decide⟩

/-- C8: any input from which zero LSAs of every kind are extracted — in
particular the empty text — produces the Topology value with empty
`routers`, `networks`, `links` and `areas` arrays (no exception is
involved: the embedding is a total function). -/
theorem claim_C8 (s : String)
    (h1 : parseRouterLSAs (parseLines s) = [])
    (h2 : parseNetworkLSAs (parseLines s) = [])
    (h3 : parseSummaryLSAs (parseLines s) = [])
    (h4 : parseExternalLSAs (parseLines s) = []) :
    parseOSPFData s = ⟨[], [], [], [], [], []⟩ := by
  unfold parseOSPFData
  rw [h1, h2, h3, h4]
  decide

/-- Witness for C8 at the empty text. -/
theorem claim_C8_witness :
    parseOSPFData "" = ⟨[], [], [], [], [], []⟩ :=
  claim_C8 "" (by decide) (by decide) (by decide) (by decide)

/-- C2: in the Topology returned by `parseOSPFData`, for every Router `r`
and every neighbor id `n` in `r.neighbors`, a Router with id `n` exists in
the routers array and `r`'s id appears in that router's own neighbors list
(bidirectional neighbor closure). -/
theorem claim_C2 (s : String) :
    ∀ r ∈ (parseOSPFData s).routers, ∀ n ∈ r.neighbors,
      ∃ q ∈ (parseOSPFData s).routers, q.id = n ∧ r.id ∈ q.neighbors :=
  fun r hr n hn =>
    assemble_SymOK (parseRouterLSAs (parseLines s))
      (parseNetworkLSAs (parseLines s)) (parseSummaryLSAs (parseLines s))
      (parseExternalLSAs (parseLines s)) r hr n hn

/-- Witness for C2 on the one-sided p2p input: the first parsed router
lists `2.2.2.2` as a neighbor, and the closure holds for it. -/
theorem claim_C2_witness :
    ∃ r ∈ (parseOSPFData c10Input).routers, ∃ n ∈ r.neighbors,
      ∃ q ∈ (parseOSPFData c10Input).routers,
        q.id = n ∧ r.id ∈ q.neighbors := by
  have hr0 : (parseOSPFData c10Input).routers.get ⟨0, by decide⟩ ∈
      (parseOSPFData c10Input).routers := List.get_mem _ _ _
  have hn0 : "2.2.2.2" ∈
      ((parseOSPFData c10Input).routers.get ⟨0, by decide⟩).neighbors := by
    decide
  exact ⟨_, hr0, "2.2.2.2", hn0,
    claim_C2 c10Input _ hr0 "2.2.2.2" hn0⟩

/-- C4: in the Topology returned by `parseOSPFData`, no two Links share the
key formed from the sorted `(source, target)` endpoint pair together with
the link type. -/
theorem claim_C4 (s : String) :
    List.Pairwise (fun a b => linkPairKey a ≠ linkPairKey b)
      (parseOSPFData s).links := by
  obtain ⟨ls, h⟩ : ∃ ls, (parseOSPFData s).links = dedup ls := ⟨_, rfl⟩
  rw [h]
  have h2 : List.Pairwise (fun a b => dedupKey a ≠ dedupKey b) (dedup ls) :=
    List.pairwise_map.mp (dedup_key_nodup ls)
  exact h2.imp (fun hne heq => hne (linkPairKey_imp_dedupKey heq))

/-- C5 counterexample: in a descriptor whose TOS-0-metric line carries the
value 0 and which later contains a bare `Metric: 7` line, the parsed metric
is 7 — not the TOS-0 value — so the TOS-0 line being "present anywhere" does
not suffice for its value to be used. -/
theorem claim_C5_counterexample :
    (tosMetricMatch (jsTrim "      TOS 0 Metrics: 0") = some 0) ∧
    parseLinkSubBlocks c5Lines = [⟨.stub, "10.1.0.0", "", 7⟩] ∧
    (7 : Nat) ≠ 0 := by decide

/-- C5 (amended): within one link descriptor, an effective TOS-0-metric line
always overwrites the metric, while a bare "Metric:" line overwrites only a
metric that is currently 0 — so the parsed metric is the last TOS-0 value
when that value is nonzero, and otherwise the first nonzero bare-Metric
value after the last TOS-0 line (after the descriptor start if there is no
TOS-0 line), defaulting to 0. In particular a TOS-0 metric of zero can be
replaced by a later bare Metric line. -/
theorem claim_C5 (header : String) (body : List String) (lk : RawLink)
    (h : parseOneLink (header :: body) = some lk) :
    lk.metric = specMetric body := by
  simp only [parseOneLink] at h
  cases hc : linkConnCapture (jsTrim header) with
  | none => rw [hc] at h; cases h
  | some desc =>
    rw [hc] at h
    simp only at h
    by_cases hempty : ((body.foldl linkFieldStep ⟨"", "", 0⟩).linkId.isEmpty) = true
    · rw [if_pos hempty] at h; cases h
    · rw [if_neg hempty] at h
      have hlk := (Option.some.inj h).symm
      rw [hlk]
      show (body.foldl linkFieldStep ⟨"", "", 0⟩).metric = specMetric body
      rw [foldl_linkFieldStep_metric, foldl_metricStep_char]
      unfold specMetric
      cases hL : lastTosSplit body with
      | some r => rfl
      | none => simp

/-- Witness for C5 (amended) at the counterexample descriptor: the parsed
metric 7 equals the closed form (no nonzero TOS-0 value, first nonzero bare
value after the TOS-0 line is 7). -/
theorem claim_C5_witness :
    (⟨LinkKind.stub, "10.1.0.0", "", 7⟩ : RawLink).metric =
      specMetric ["     (Link ID) Network/subnet number: 10.1.0.0",
                  "      TOS 0 Metrics: 0",
                  "      Metric: 7"] :=
  claim_C5 "    Link connected to: a Stub Network"
    ["     (Link ID) Network/subnet number: 10.1.0.0",
     "      TOS 0 Metrics: 0",
     "      Metric: 7"] _ (by decide)

/-- C6 counterexample: a lone Type-3 Summary LSA creates its advertising
router with area `"0"` while the `areas` array stays empty, so a Router can
carry an area string that does not appear in the Topology's areas array. -/
theorem claim_C6_counterexample :
    ((parseOSPFData c6Input).routers.map (fun r => (r.id, r.area)) =
      [("5.5.5.5", "0")]) ∧
    (parseOSPFData c6Input).areas = [] := by decide

/-- C10: when a point-to-point adjacency is authored by only one of the two
routers — the Router-LSA list contains exactly one p2p link-descriptor
occurrence whose pending-table key is that of the pair `{A, B}`, authored by
`A` toward `B` with metric `m` (the reciprocal Router LSA being absent), and
no Network LSAs are present — the assembled Topology contains a materialized
point-to-point Link for the pair whose `sourceCost`, `targetCost` and
symmetric `cost` all equal `m`, and every point-to-point Link of that pair
carries exactly these values: the missing side's directional cost is
initialized to the seen side's metric, not to 0 or an absent value. -/
theorem claim_C10 (rl : List RawRouterLSA) (sl : List OSPFSummaryRoute)
    (el : List OSPFExternalRoute) (A B ar : String) (m : Nat) (lk : RawLink)
    (hocc : (p2pOcc rl).filter (fun o => occKey o == sortJoin A B) =
      [(A, ar, lk)])
    (hB : lk.linkId = B) (hm : lk.metric = m) :
    (∃ l ∈ (assembleTopology rl [] sl el).links,
       l.source = A ∧ l.target = B ∧ l.linkType = LinkKind.p2p ∧
       l.sourceCost = m ∧ l.targetCost = m ∧ l.cost = m) ∧
    (∀ l ∈ (assembleTopology rl [] sl el).links,
       l.linkType = LinkKind.p2p → sortJoin l.source l.target = sortJoin A B →
       l.source = A ∧ l.target = B ∧ l.sourceCost = m ∧ l.targetCost = m ∧
       l.cost = m) := by
  have hlinks : (assembleTopology rl [] sl el).links =
      dedup ((rl.foldl phase1Step ([], [], [])).2.2.map linkOfP2P) := by
    show dedup (((rl.foldl phase1Step ([], [], [])).2.2.foldl p2pStep
        ((rl.foldl phase1Step ([], [], [])).1, [])).2) = _
    rw [p2p_fold_links_eq, List.nil_append]
  have hT : (rl.foldl phase1Step ([], [], [])).2.2 =
      (p2pOcc rl).foldl occStep [] := phase1_table rl ([], [], [])
  rw [hT] at hlinks
  have hkey : ∀ e ∈ (p2pOcc rl).foldl occStep [],
      e.1 = sortJoin e.2.srcId e.2.tgtId :=
    occ_fold_entry_key (p2pOcc rl) []
      (fun e he => absurd he (List.not_mem_nil e))
  have hnd : (keysP ((p2pOcc rl).foldl occStep [])).Nodup :=
    occ_fold_keys_nodup (p2pOcc rl) [] List.nodup_nil
  have hfind : findP ((p2pOcc rl).foldl occStep []) (sortJoin A B) =
      some ⟨A, lk.linkId, lk.metric, lk.metric, lk.linkData, ar⟩ := by
    rw [findP_occ_fold (sortJoin A B) (p2pOcc rl) [], hocc]
    rfl
  have hmem : ((sortJoin A B,
      (⟨A, lk.linkId, lk.metric, lk.metric, lk.linkData, ar⟩ : P2P)) :
        String × P2P) ∈ (p2pOcc rl).foldl occStep [] := findP_mem hfind
  have hmnd : ((((p2pOcc rl).foldl occStep []).map linkOfP2P).map
      dedupKey).Nodup := by
    rw [List.map_map]
    have h2 : ((p2pOcc rl).foldl occStep []).map (dedupKey ∘ linkOfP2P) =
        (keysP ((p2pOcc rl).foldl occStep [])).map
          (fun k => k ++ "|" ++ "point-to-point") := by
      unfold keysP
      rw [List.map_map]
      apply List.map_congr_left
      intro e he
      show dedupKey (linkOfP2P e) = e.1 ++ "|" ++ "point-to-point"
      have h1 : dedupKey (linkOfP2P e) =
          sortJoin e.2.srcId e.2.tgtId ++ "|" ++ "point-to-point" := rfl
      rw [h1, ← hkey e he]
    rw [h2]
    exact List.Nodup.map
      (fun x y hxy => strAppend_right_cancel (strAppend_right_cancel hxy)) hnd
  rw [dedup_of_keys_nodup _ hmnd] at hlinks
  constructor
  · refine ⟨linkOfP2P (sortJoin A B,
      ⟨A, lk.linkId, lk.metric, lk.metric, lk.linkData, ar⟩),
      ?_, rfl, ?_, rfl, ?_, ?_, ?_⟩
    · rw [hlinks]
      exact List.mem_map_of_mem _ hmem
    · exact hB
    · exact hm
    · exact hm
    · show max lk.metric lk.metric = m
      rw [Nat.max_self]
      exact hm
  · intro l hl _ hpair
    rw [hlinks] at hl
    obtain ⟨e, he, rfl⟩ := List.mem_map.mp hl
    have h3 : sortJoin e.2.srcId e.2.tgtId = sortJoin A B := hpair
    have h4 : e.1 = sortJoin A B := by rw [hkey e he, h3]
    have h5 : findP ((p2pOcc rl).foldl occStep []) e.1 = some e.2 :=
      findP_self_of_nodup _ hnd e he
    rw [h4, hfind] at h5
    have h6 : e.2 = ⟨A, lk.linkId, lk.metric, lk.metric, lk.linkData, ar⟩ :=
      (Option.some.inj h5).symm
    refine ⟨?_, ?_, ?_, ?_, ?_⟩
    · show e.2.srcId = A
      rw [h6]
    · show e.2.tgtId = B
      rw [h6]
      exact hB
    · show e.2.srcCost = m
      rw [h6]
      exact hm
    · show e.2.tgtCost = m
      rw [h6]
      exact hm
    · show max e.2.srcCost e.2.tgtCost = m
      rw [h6]
      show max lk.metric lk.metric = m
      rw [Nat.max_self]
      exact hm

/-- C3: (1) permuting the Router-, Network-, Summary- and External-LSA
record lists of an input (the parse records of its LSA blocks) leaves the
final role of every router id in the assembled Topology unchanged; (2) no
operation of the assembly demotes a role: each per-record step of the six
phases maps every present id to a present id with a role at least as high
on the chain internal → abr → asbr. -/
theorem claim_C3 :
    (∀ (rl rl' : List RawRouterLSA) (nl nl' : List RawNetworkLSA)
       (sl sl' : List OSPFSummaryRoute) (el el' : List OSPFExternalRoute),
       rl.Perm rl' → nl.Perm nl' → sl.Perm sl' → el.Perm el' →
       ∀ rid, roleOfM (assembleTopology rl nl sl el).routers rid =
         roleOfM (assembleTopology rl' nl' sl' el').routers rid) ∧
    (∀ (st : List OSPFRouter × List String × List (String × P2P))
       (lsa : RawRouterLSA), roleLe st.1 (phase1Step st lsa).1) ∧
    (∀ (st : List OSPFRouter × List OSPFLink) (e : String × P2P),
       roleLe st.1 (p2pStep st e).1) ∧
    (∀ (st : List OSPFRouter × List OSPFNetwork × List OSPFLink ×
        List String) (nlsa : RawNetworkLSA),
       roleLe st.1 (netStep st nlsa).1) ∧
    (∀ (m : List OSPFRouter) (rid0 : String),
       roleLe m (closureStep m rid0)) ∧
    (∀ (m : List OSPFRouter) (s : OSPFSummaryRoute),
       roleLe m (summaryStep m s)) ∧
    (∀ (m : List OSPFRouter) (e : OSPFExternalRoute),
       roleLe m (externalStep m e)) := by
  refine ⟨?_, ?_, ?_, ?_, ?_, ?_, ?_⟩
  · intro rl rl' nl nl' sl sl' el el' hrl hnl hsl hel rid
    rw [roleOf_assemble, roleOf_assemble]
    have hmemB : memB rl nl sl el rid = memB rl' nl' sl' el' rid := by
      unfold memB authB p2pLinkIdB attachedB sumAdvB extAdvB
      rw [any_perm hrl, any_perm hrl, any_perm hnl, any_perm hsl,
        any_perm hel]
    have hspec : roleSpec rl sl el rid = roleSpec rl' sl' el' rid := by
      unfold roleSpec hasASBRLsa hasABRLsa hasType4B extAdvB
      rw [any_perm hrl, any_perm hrl, any_perm hsl, any_perm hel]
    rw [hmemB, hspec]
  · intro st lsa rid r h
    rw [phase1Step_fst, roleOfM_p1M, h]
    by_cases hxr : lsa.routerId = rid
    · rw [if_pos hxr]
      exact ⟨promoteStep r (lsa.isABR, lsa.isASBR), rfl,
        roleRank_promoteStep r _⟩
    · rw [if_neg hxr]
      exact ⟨r, rfl, le_refl _⟩
  · intro st e rid r h
    rw [p2pStep_fst]
    exact ⟨r, roleOfM_p2pM_of_some e h, le_refl _⟩
  · intro st nlsa rid r h
    rw [netStep_fst]
    exact ⟨r, roleOfM_netM_of_some nlsa h, le_refl _⟩
  · intro m rid0 rid r h
    exact ⟨r, roleOfM_closureStep_of_some rid0 h, le_refl _⟩
  · intro m s rid r h
    rw [roleOfM_summaryStep, h]
    by_cases hxr : s.advertisingRouter = rid
    · rw [if_pos hxr]
      exact ⟨_, rfl, roleRank_s5 r (s.lsaType == type4Name)⟩
    · rw [if_neg hxr]
      exact ⟨r, rfl, le_refl _⟩
  · intro m e rid r h
    rw [roleOfM_externalStep, h]
    by_cases hxr : e.advertisingRouter = rid
    · rw [if_pos hxr]
      exact ⟨_, rfl, roleRank_e6 r⟩
    · rw [if_neg hxr]
      exact ⟨r, rfl, le_refl _⟩

theorem claim_C3_witness :
    (c3rl.Perm c3rlPerm) ∧
    (roleOfM (assembleTopology c3rl [] [] []).routers "9.9.9.9" =
      roleOfM (assembleTopology c3rlPerm [] [] []).routers "9.9.9.9") ∧
    (roleOfM c3st.1 "1.1.1.1" = some RouterRole.internal) ∧
    (∃ r', roleOfM (phase1Step c3st c3lsa).1 "1.1.1.1" = some r' ∧
      roleRank RouterRole.internal ≤ roleRank r') := by
  have hperm : c3rl.Perm c3rlPerm := List.Perm.swap _ _ _
  refine ⟨hperm, ?_, by decide, ?_⟩
  · exact claim_C3.1 c3rl c3rlPerm [] [] [] [] [] [] hperm
      (List.Perm.refl _) (List.Perm.refl _) (List.Perm.refl _) "9.9.9.9"
  · exact claim_C3.2.1 c3st c3lsa "1.1.1.1" RouterRole.internal (by decide)

theorem claim_C10_witness :
    ((p2pOcc c10rl).filter
        (fun o => occKey o == sortJoin "1.1.1.1" "2.2.2.2") =
      [("1.1.1.1", "0", ⟨LinkKind.p2p, "2.2.2.2", "10.0.0.1", 10⟩)]) ∧
    ((∃ l ∈ (assembleTopology c10rl [] [] []).links,
        l.source = "1.1.1.1" ∧ l.target = "2.2.2.2" ∧
        l.linkType = LinkKind.p2p ∧ l.sourceCost = 10 ∧ l.targetCost = 10 ∧
        l.cost = 10) ∧
      (∀ l ∈ (assembleTopology c10rl [] [] []).links,
        l.linkType = LinkKind.p2p →
        sortJoin l.source l.target = sortJoin "1.1.1.1" "2.2.2.2" →
        l.source = "1.1.1.1" ∧ l.target = "2.2.2.2" ∧ l.sourceCost = 10 ∧
        l.targetCost = 10 ∧ l.cost = 10)) :=
  ⟨by decide,
   claim_C10 c10rl [] [] "1.1.1.1" "2.2.2.2" "0" 10
     ⟨LinkKind.p2p, "2.2.2.2", "10.0.0.1", 10⟩ (by decide) rfl rfl⟩

end OSPF
